import Mathlib

/-!
# Shallow embedding of `Practice2/dssoo_fs-es/filesystem.c`

The file system keeps five global objects in memory (the superblock `sblock`, the bitmaps
`i_map` and `b_map`, the inode table `inodes` and the open-file table `inodes_x`) and talks to
a block device through `bread` / `bwrite`.  The embedding passes these objects around
explicitly in a record `FS`.

Conventions.

* C arrays are functions from the index to the element, so that no length bookkeeping is
  needed; every loop of the source is a recursion on the number of remaining iterations.
* `int` values are integers.  Where the source compares or adds a caller-supplied `int` in a way
  that depends on the machine representation (the `size_t` comparison in `writeFile`, the
  additions `position + numBytes`) the conversion or the overflow is explicit.
* A result `none` of an operation means that the C program has left defined behaviour on this
  input (a read beyond a string terminator or beyond a buffer, a signed overflow); rmDir also
  answers `none` when the call depth of the model is exhausted.
* `basename` and `dirname` are the functions of glibc behind `libgen.h`.  `basename` edits the
  caller's string (it cuts the slashes at its end), so `createFile` and `mkDir` go on with the
  edited string; `dirname` is applied to a copy (`getFather`).
* The header files of the project are not part of the sources at hand.  Every constant, macro
  and type size they define is a field of `Config`.  The capacity of the `name` array of an
  inode is declared there as well; `strcpy` into it is an assignment of the whole path.
* `syncFS` and `mountFS` move whole blocks between the device and the memory of the objects.
  The bytes of an object are given by the images of `Config`, the object that a region of
  memory holds by the readings of `Decoding`; both follow from the type declarations of the
  missing headers and are parameters.
-/


namespace DssooFs

/-! ## Data model -/

/-- Superblock `sblock` (type declared in `metadata.h`); the fields are the ones `mkFS` assigns. -/
structure SuperBlock where
  magicNumber : Int
  numINodeMapBlocks : Int
  numDataMapBlocks : Int
  numInodes : Int
  firstInodeBlock : Int
  numDataBlocks : Int
  firstDataBlock : Int
  deviceSize : Int
  padding : Nat → Nat

/-- Inode record `inode_t`; the fields are the ones the source reads and writes.  A name is the
C string stored in the `name` array, without its terminator. -/
structure Inode where
  father : Int
  type : Int
  name : List Char
  dataBlockPos : Int
  size : Int
deriving DecidableEq, Repr

/-- Entry of the open-file table `inodes_x`. -/
structure InodeX where
  position : Int
  opened : Int
deriving DecidableEq, Repr

/-- Modelled from the spec: the block substrate behind `bread` and `bwrite` ("readBlock(deviceId,
blockIndex) -> bytes | IOError", "writeBlock(deviceId, blockIndex, bytes) -> Result").  The image
file may be missing, has a size in bytes, and a transfer of block `b` fails exactly when
`faulty b` holds.  `blocks b j` is byte `j` of block `b`. -/
structure Disk where
  present : Bool
  size : Nat
  faulty : Nat → Bool
  blocks : Nat → Nat → Nat

/-- The global state of the program together with the device. -/
structure FS where
  sblock : SuperBlock
  i_map : Nat → Bool
  b_map : Nat → Bool
  inodes : Nat → Inode
  inodes_x : Nat → InodeX
  disk : Disk

/-- Constants and layout facts that live in the missing headers (`metadata.h`, `filesystem.h`).
`superBytes`, `mapBytes` and `inodeBytes` give the byte at a given offset of the memory image of
the superblock, of a bitmap buffer and of the inode array; `syncFS` copies these images to the
device. -/
structure Config where
  BLOCK_SIZE : Nat
  MAX_FILES : Nat
  MAX_FILE_NAME : Nat
  MAX_FOLDER_LEVEL : Nat
  MAX_ENTRIES : Nat
  MAX_FILE_SIZE : Int
  MAGIC_NUMBER : Int
  TYPE_FILE : Int
  TYPE_FOLDER : Int
  FS_SEEK_BEGIN : Int
  FS_SEEK_CUR : Int
  FS_SEEK_END : Int
  SIZEOF_INODE : Nat
  superBytes : SuperBlock → Nat → Nat
  mapBytes : (Nat → Bool) → Nat → Nat
  inodeBytes : (Nat → Inode) → Nat → Nat

/-- The reading of a memory image as an object, fixed by the declarations of the missing
`metadata.h` like the images of `Config`: `superOfBytes`, `mapOfBytes` and `inodesOfBytes` give
the superblock, the bitmap and the inode array that a region of memory with the given bytes
holds.  `mountFS` copies blocks of the device into these regions. -/
structure Decoding where
  superOfBytes : (Nat → Nat) → SuperBlock
  mapOfBytes : (Nat → Nat) → (Nat → Bool)
  inodesOfBytes : (Nat → Nat) → (Nat → Inode)

/-- Result of `memset(&inodes[i], 0, sizeof(inode_t))`. -/
def zeroInode : Inode :=
  { father := 0, type := 0, name := [], dataBlockPos := 0, size := 0 }

/-- Array store `a[i] = v`. -/
def upd {α : Type} (a : Nat → α) (i : Nat) (v : α) : Nat → α :=
  fun j => if j = i then v else a j

/-- Diagnostics that `createFile` and `mkDir` print on `stderr`; several of them share the
return value -2, so the message is what tells them apart. -/
inductive Diag where
  | noPath
  | nameTooBig
  | tooDeep
  | alreadyExists
  | noDirectory
  | notADirectory
  | directoryFull
  | noInodes
  | noDataBlocks
  | syncFailed
deriving DecidableEq, Repr

/-! ## C library functions -/

/-- The character `/`. -/
def slash : Char := Char.ofNat 47

/-- The character `.`. -/
def dot : Char := Char.ofNat 46

/-- Largest value of `int`. -/
def INT_MAX : Int := 2147483647

/-- Smallest value of `int`. -/
def INT_MIN : Int := -2147483648

/-- Largest value of `long` (LP64). -/
def LONG_MAX : Int := 9223372036854775807

/-- Smallest value of `long` (LP64). -/
def LONG_MIN : Int := -9223372036854775808

/-- Conversion of an `int` to `size_t` (64 bits): the value modulo `2^64`. -/
def toSizeT (n : Int) : Nat := (n % 18446744073709551616).toNat

/-- Function `strlen` on the bytes of a caller buffer: the offset of the first zero byte.  When
the buffer holds no zero byte the scan runs past its end, which is `none`. -/
def strlen : List Nat → Option Nat
  | [] => none
  | b :: rest => if b = 0 then some 0 else (strlen rest).map (fun n => n + 1)

/-- Removes the slashes at the end of a path. -/
def stripSlashes (p : List Char) : List Char :=
  (p.reverse.dropWhile (fun ch => decide (ch = slash))).reverse

/-- Function `basename` of `libgen.h` (glibc `__xpg_basename`), the string it returns: the last
component of the path, `"."` for the empty string and `"/"` for a string of slashes. -/
def basename (path : List Char) : List Char :=
  if path = [] then [dot]
  else if stripSlashes path = [] then [slash]
  else ((stripSlashes path).reverse.takeWhile (fun ch => decide (ch ≠ slash))).reverse

/-- The caller's string after the call `basename(path)`: when the path ends in slashes and does
not consist of slashes only, glibc writes the terminator over the first of these slashes, so the
string has lost them; every other path is left as it is. -/
def basenameTrim (path : List Char) : List Char :=
  if stripSlashes path = [] then path else stripSlashes path

/-- Function `dirname` of `libgen.h` as glibc implements it, the string it returns.  Slashes at
the end of the path are set aside unless the path consists of slashes only; `d` is the path up
to and including its last slash.  Without a slash the answer is `"."`; when `d` consists of
slashes only the answer is `"/"`, or `"//"` when `d` is exactly two slashes; otherwise it is `d`
without the slashes at its end. -/
def dirname (path : List Char) : List Char :=
  if path = [] then [dot]
  else
    let t := if stripSlashes path = [] then path else stripSlashes path
    let d := (t.reverse.dropWhile (fun ch => decide (ch ≠ slash))).reverse
    if d = [] then [dot]
    else if stripSlashes d = [] then (if d.length = 2 then [slash, slash] else [slash])
    else stripSlashes d

/-! ## Block device -/

/-- Modelled from the spec: `bread(DEVICE_IMAGE, blk, buffer)` fills the buffer with block `blk`,
or fails. -/
def bread (d : Disk) (blk : Int) : Option (Nat → Nat) :=
  if blk < 0 ∨ d.faulty blk.toNat then none else some (d.blocks blk.toNat)

/-- Modelled from the spec: `bwrite(DEVICE_IMAGE, blk, buffer)` stores the first `BLOCK_SIZE`
bytes of the buffer as block `blk`, or fails and leaves the device as it was. -/
def bwrite (c : Config) (d : Disk) (blk : Int) (buffer : Nat → Nat) : Option Disk :=
  if blk < 0 ∨ d.faulty blk.toNat then none
  else
    let stored : Nat → Nat := fun j => if j < c.BLOCK_SIZE then buffer j else d.blocks blk.toNat j
    some { d with blocks := upd d.blocks blk.toNat stored }

/-- Modelled from the spec: macro `bitmap_getbit` ("one bit per inode slot / per data-block slot;
0 = free, 1 = in use"). -/
def bitmap_getbit (m : Nat → Bool) (i : Nat) : Int := if m i then 1 else 0

/-- Modelled from the spec: macro `bitmap_setbit`, which gives bit `i` the value `v`. -/
def bitmap_setbit (m : Nat → Bool) (i : Nat) (v : Int) : Nat → Bool := upd m i (decide (v ≠ 0))

/-! ## Auxiliary functions of the source -/

/-- Function `ceilOfDivision`: `(a / b) + ((a % b) != 0)` with the truncating division of C. -/
def ceilOfDivision (a b : Int) : Int :=
  Int.tdiv a b + (if Int.tmod a b ≠ 0 then 1 else 0)

/-- Loop of `countNumberEntries`: `n` iterations are left, `i` is the index, `count` the
counter. -/
def countLoop (s : FS) (inode_id : Int) : Nat → Nat → Int → Int
  | 0, _, count => count
  | n + 1, i, count =>
    if (s.inodes i).father = inode_id then countLoop s inode_id n (i + 1) (count + 1)
    else countLoop s inode_id n (i + 1) count

/-- Function `countNumberEntries`: the number of slots below `numInodes` whose `father` field
is `inode_id`. -/
def countNumberEntries (s : FS) (inode_id : Int) : Int :=
  countLoop s inode_id s.sblock.numInodes.toNat 0 0

/-- Function `getFather`: `dirname` of a copy of the path. -/
def getFather (path : List Char) : List Char := dirname path

/-- Loop of `namei`. -/
def nameiLoop (s : FS) (fname : List Char) : Nat → Nat → Int
  | 0, _ => -1
  | n + 1, i => if (s.inodes i).name = fname then (i : Int) else nameiLoop s fname n (i + 1)

/-- Function `namei`: the first slot below `numInodes` whose stored name equals `fname`, else -1.
A null pointer is `none`. -/
def namei (s : FS) (fname : Option (List Char)) : Int :=
  match fname with
  | none => -1
  | some f => nameiLoop s f s.sblock.numInodes.toNat 0

/-- Loop of `ialloc`. -/
def iallocLoop (s : FS) : Nat → Nat → Int × FS
  | 0, _ => (-1, s)
  | n + 1, i =>
    if bitmap_getbit s.i_map i = 0 then
      ((i : Int), { s with i_map := bitmap_setbit s.i_map i 1, inodes := upd s.inodes i zeroInode })
    else iallocLoop s n (i + 1)

/-- Function `ialloc`: takes the first free inode, marks it used and zeroes its record. -/
def ialloc (s : FS) : Int × FS := iallocLoop s s.sblock.numInodes.toNat 0

/-- Loop of `alloc`. -/
def allocLoop (c : Config) (s : FS) : Nat → Nat → Int × FS
  | 0, _ => (-1, s)
  | n + 1, i =>
    if bitmap_getbit s.b_map i = 0 then
      match bwrite c s.disk ((i : Int) + s.sblock.firstDataBlock) (fun _ => 0) with
      | none => (-1, { s with b_map := bitmap_setbit s.b_map i 1 })
      | some d => ((i : Int), { s with b_map := bitmap_setbit s.b_map i 1, disk := d })
    else allocLoop c s n (i + 1)

/-- Function `alloc`: takes the first free data block, marks it used and fills it with zeroes. -/
def alloc (c : Config) (s : FS) : Int × FS := allocLoop c s s.sblock.numDataBlocks.toNat 0

/-- Function `ifree`. -/
def ifree (s : FS) (inode_id : Int) : Int × FS :=
  if inode_id ≥ s.sblock.numInodes ∨ inode_id < 0 then (-1, s)
  else (0, { s with i_map := bitmap_setbit s.i_map inode_id.toNat 0 })

/-- Function `bfree`. -/
def bfree (s : FS) (block_id : Int) : Int × FS :=
  if block_id ≥ s.sblock.numDataBlocks ∨ block_id < 0 then (-1, s)
  else (0, { s with b_map := bitmap_setbit s.b_map block_id.toNat 0 })

/-- Function `bmap`. -/
def bmap (c : Config) (s : FS) (inode_id : Int) (offset : Int) : Int :=
  if inode_id ≥ s.sblock.numInodes ∨ inode_id < 0 then -1
  else if offset < c.BLOCK_SIZE then (s.inodes inode_id.toNat).dataBlockPos
  else -1

/-- One of the three copy loops of `syncFS`: block `first + i` receives the bytes of `image`
from offset `i * BLOCK_SIZE` on.  The answer is the device and whether every write succeeded. -/
def syncLoop (c : Config) (image : Nat → Nat) (first : Int) : Nat → Nat → Disk → Bool × Disk
  | 0, _, d => (true, d)
  | n + 1, i, d =>
    match bwrite c d (first + i) (fun j => image (i * c.BLOCK_SIZE + j)) with
    | none => (false, d)
    | some d1 => syncLoop c image first n (i + 1) d1

/-- Function `syncFS`: superblock, inode map, data map and inode table go to the device in this
order; the first failing write ends the call with -1. -/
def syncFS (c : Config) (s : FS) : Int × FS :=
  match bwrite c s.disk 0 (c.superBytes s.sblock) with
  | none => (-1, s)
  | some d0 =>
    match syncLoop c (c.mapBytes s.i_map) 1 s.sblock.numINodeMapBlocks.toNat 0 d0 with
    | (false, d1) => (-1, { s with disk := d1 })
    | (true, d1) =>
      match syncLoop c (c.mapBytes s.b_map) (1 + s.sblock.numINodeMapBlocks)
          s.sblock.numDataMapBlocks.toNat 0 d1 with
      | (false, d2) => (-1, { s with disk := d2 })
      | (true, d2) =>
        match syncLoop c (c.inodeBytes s.inodes) s.sblock.firstInodeBlock
            (ceilOfDivision (s.sblock.numInodes * c.SIZEOF_INODE) c.BLOCK_SIZE).toNat 0 d2 with
        | (false, d3) => (-1, { s with disk := d3 })
        | (true, d3) => (0, { s with disk := d3 })

/-! ## Format -/

/-- Loop of `mkFS` that clears the first bits of a bitmap. -/
def clearLoop (m : Nat → Bool) : Nat → Nat → (Nat → Bool)
  | 0, _ => m
  | n + 1, i => clearLoop (bitmap_setbit m i 0) n (i + 1)

/-- Loop of `mkFS` that zeroes the inode records. -/
def zeroLoop (t : Nat → Inode) : Nat → Nat → (Nat → Inode)
  | 0, _ => t
  | n + 1, i => zeroLoop (upd t i zeroInode) n (i + 1)

/-- Function `mkFS`.  The two bitmap buffers come fresh from `malloc`; their indeterminate
contents are taken from the bitmaps of the incoming state. -/
def mkFS (c : Config) (s : FS) (deviceSize : Int) : Int × FS :=
  if deviceSize < 50 * 1024 then (-1, s)
  else if deviceSize > 10 * 1048576 then (-1, s)
  else if s.disk.present = false then (-1, s)
  else if (s.disk.size : Int) < deviceSize then (-1, s)
  else
    let superblocks : Int := 1
    let totalBlocks := ceilOfDivision deviceSize c.BLOCK_SIZE
    let inodeBlocks := ceilOfDivision (c.SIZEOF_INODE * c.MAX_FILES) c.BLOCK_SIZE
    let inodeMapBlocks := ceilOfDivision inodeBlocks c.BLOCK_SIZE
    let dataMapBlocks :=
      ceilOfDivision (totalBlocks - superblocks - inodeBlocks - inodeMapBlocks) c.BLOCK_SIZE
    let dataBlocks := totalBlocks - superblocks - inodeMapBlocks - dataMapBlocks - inodeBlocks
    if dataBlocks < 0 then (-1, s)
    else
      let sb : SuperBlock :=
        { magicNumber := c.MAGIC_NUMBER
          numINodeMapBlocks := inodeMapBlocks
          numDataMapBlocks := dataMapBlocks
          numInodes := c.MAX_FILES
          firstInodeBlock := superblocks + inodeMapBlocks + dataMapBlocks
          numDataBlocks := dataBlocks
          firstDataBlock := superblocks + inodeMapBlocks + dataMapBlocks + inodeBlocks
          deviceSize := deviceSize
          padding := fun _ => 48 }
      let s1 : FS :=
        { s with
          sblock := sb
          i_map := clearLoop s.i_map sb.numInodes.toNat 0
          b_map := clearLoop s.b_map sb.numDataBlocks.toNat 0
          inodes := zeroLoop s.inodes sb.numInodes.toNat 0 }
      let r := syncFS c s1
      if r.1 < 0 then (-1, r.2) else (0, r.2)

/-! ## File operations -/

/-- The loop of `createFile` and `mkDir` that counts `/` characters.  After a slash the index
moves on by two, so the character behind a slash is never looked at; when that character is the
terminator the scan goes on beyond the string, which is `none`. -/
def slashLoop : List Char → Int → Option Int
  | [], n => some n
  | ch :: [], n => if ch = slash then none else some n
  | ch :: ch2 :: rest, n =>
    if ch = slash then slashLoop rest (n + 1) else slashLoop (ch2 :: rest) n

/-- Second half of `createFile` (from the call of `ialloc` on). -/
def createFileAlloc (c : Config) (s : FS) (path : List Char) (father_inode_id : Int) :
    Int × Option Diag × FS :=
  let r1 := ialloc s
  if r1.1 < 0 then (-2, some Diag.noInodes, r1.2)
  else
    let r2 := alloc c r1.2
    if r2.1 < 0 then (-2, some Diag.noDataBlocks, r2.2)
    else
      let i := r1.1.toNat
      let rec1 : Inode :=
        { (r2.2.inodes i) with
          father := father_inode_id
          type := c.TYPE_FILE
          name := path
          dataBlockPos := r2.1
          size := c.MAX_FILE_SIZE }
      let s3 : FS :=
        { r2.2 with
          inodes := upd r2.2.inodes i rec1
          inodes_x := upd r2.2.inodes_x i { position := 0, opened := 0 } }
      let r4 := syncFS c s3
      if r4.1 < 0 then (-2, some Diag.syncFailed, r4.2) else (0, none, r4.2)

/-- Function `createFile`.  The answer holds the return value, the diagnostic printed (if any)
and the new state.  The argument `path0` is the caller's string at the call; the call of
`basename` leaves it as `p`, and the slash loop, `namei`, `getFather` and `strcpy` work on
`p`. -/
def createFile (c : Config) (s : FS) (path0 : Option (List Char)) :
    Option (Int × Option Diag × FS) :=
  match path0 with
  | none => some (-2, some Diag.noPath, s)
  | some p0 =>
    let p := basenameTrim p0
    if (basename p0).length > c.MAX_FILE_NAME then some (-2, some Diag.nameTooBig, s)
    else
      match slashLoop p 0 with
      | none => none
      | some slashes =>
        if slashes > c.MAX_FOLDER_LEVEL + 1 then some (-2, some Diag.tooDeep, s)
        else if namei s (some p) ≥ 0 then some (-1, some Diag.alreadyExists, s)
        else if getFather p ≠ [slash] then
          let father_inode_id := namei s (some (getFather p))
          if father_inode_id < 0 then some (-2, some Diag.noDirectory, s)
          else if (s.inodes father_inode_id.toNat).type ≠ c.TYPE_FOLDER then
            some (-2, some Diag.notADirectory, s)
          else if countNumberEntries s father_inode_id ≥ c.MAX_ENTRIES then
            some (-2, some Diag.directoryFull, s)
          else some (createFileAlloc c s p father_inode_id)
        else some (createFileAlloc c s p (-1))

/-- Function `removeFile`. -/
def removeFile (c : Config) (s : FS) (path : Option (List Char)) : Int × FS :=
  match path with
  | none => (-1, s)
  | some p =>
    let inode_id := namei s (some p)
    if inode_id < 0 then (-1, s)
    else if (s.inodes inode_id.toNat).type ≠ c.TYPE_FILE then (-2, s)
    else if (s.inodes_x inode_id.toNat).opened ≠ 0 then (-2, s)
    else
      let r1 := bfree s (s.inodes inode_id.toNat).dataBlockPos
      if r1.1 < 0 then (-2, r1.2)
      else
        let s2 : FS := { r1.2 with inodes := upd r1.2.inodes inode_id.toNat zeroInode }
        let r3 := ifree s2 inode_id
        if r3.1 < 0 then (-2, r3.2)
        else
          let r4 := syncFS c r3.2
          if r4.1 < 0 then (-2, r4.2) else (0, r4.2)

/-- Function `openFile`. -/
def openFile (c : Config) (s : FS) (path : Option (List Char)) : Int × FS :=
  match path with
  | none => (-1, s)
  | some p =>
    let inode_id := namei s (some p)
    if inode_id < 0 then (-1, s)
    else if (s.inodes inode_id.toNat).type ≠ c.TYPE_FILE then (-2, s)
    else if (s.inodes_x inode_id.toNat).opened ≠ 0 then (-2, s)
    else
      (inode_id,
        { s with inodes_x := upd s.inodes_x inode_id.toNat { position := 0, opened := 1 } })

/-- Function `closeFile`. -/
def closeFile (c : Config) (s : FS) (fileDescriptor : Int) : Int × FS :=
  if fileDescriptor ≥ s.sblock.numInodes ∨ fileDescriptor < 0 then (-1, s)
  else if (s.inodes fileDescriptor.toNat).type ≠ c.TYPE_FILE then (-1, s)
  else if (s.inodes_x fileDescriptor.toNat).opened = 0 then (-1, s)
  else
    (0, { s with inodes_x := upd s.inodes_x fileDescriptor.toNat { position := 0, opened := 0 } })

/-- The bytes `b[start], ..., b[start + n - 1]` of a block buffer. -/
def slice (b : Nat → Nat) (start : Nat) (n : Nat) : List Nat :=
  (List.range n).map (fun j => b (start + j))

/-- Function `readFile`.  The caller buffer is the list of the bytes it holds before the call; the
answer holds the return value, the new state and the bytes of the buffer after the call.  The
return value and the advance of the position are `strlen(buffer)`, as in the source. -/
def readFile (c : Config) (s : FS) (fileDescriptor : Int) (buffer : List Nat) (numBytes : Int) :
    Option (Int × FS × List Nat) :=
  if fileDescriptor ≥ s.sblock.numInodes ∨ fileDescriptor < 0 then some (-1, s, buffer)
  else if (s.inodes fileDescriptor.toNat).type ≠ c.TYPE_FILE then some (-1, s, buffer)
  else if (s.inodes_x fileDescriptor.toNat).opened = 0 then some (-1, s, buffer)
  else
    let position := (s.inodes_x fileDescriptor.toNat).position
    let size := (s.inodes fileDescriptor.toNat).size
    if position + numBytes > INT_MAX ∨ position + numBytes < INT_MIN then none
    else
      let numBytes1 := if position + numBytes > size then size - position else numBytes
      if numBytes1 < 0 then some (-1, s, buffer)
      else if numBytes1 = 0 then some (0, s, buffer)
      else
        let b_id := bmap c s fileDescriptor position
        if b_id < 0 then some (-1, s, buffer)
        else
          match bread s.disk (s.sblock.firstDataBlock + b_id) with
          | none => some (-1, s, buffer)
          | some b =>
            if position < 0 ∨ position + numBytes1 > c.BLOCK_SIZE then none
            else if numBytes1 > buffer.length then none
            else
              let buffer1 := slice b position.toNat numBytes1.toNat ++ buffer.drop numBytes1.toNat
              match strlen buffer1 with
              | none => none
              | some len =>
                let x1 : InodeX :=
                  { (s.inodes_x fileDescriptor.toNat) with position := position + len }
                some ((len : Int), { s with inodes_x := upd s.inodes_x fileDescriptor.toNat x1 },
                  buffer1)

/-- Function `writeFile`.  The caller buffer is the list of the bytes it holds.  The comparison
`strlen(buffer) < numBytes` is made in `size_t`, so `numBytes` is converted first. -/
def writeFile (c : Config) (s : FS) (fileDescriptor : Int) (buffer : List Nat) (numBytes : Int) :
    Option (Int × FS) :=
  if fileDescriptor ≥ s.sblock.numInodes ∨ fileDescriptor < 0 then some (-1, s)
  else if (s.inodes fileDescriptor.toNat).type ≠ c.TYPE_FILE then some (-1, s)
  else if (s.inodes_x fileDescriptor.toNat).opened = 0 then some (-1, s)
  else
    match strlen buffer with
    | none => none
    | some len =>
      let position := (s.inodes_x fileDescriptor.toNat).position
      let size := (s.inodes fileDescriptor.toNat).size
      let numBytes1 : Int := if len < toSizeT numBytes then (len : Int) else numBytes
      if position + numBytes1 > INT_MAX ∨ position + numBytes1 < INT_MIN then none
      else
        let numBytes2 := if position + numBytes1 > size then size - position else numBytes1
        if numBytes2 < 0 then some (-1, s)
        else if numBytes2 = 0 then some (0, s)
        else
          let b_id := bmap c s fileDescriptor position
          if b_id < 0 then some (-1, s)
          else
            match bread s.disk (s.sblock.firstDataBlock + b_id) with
            | none => some (-1, s)
            | some b =>
              if position < 0 ∨ position + numBytes2 > c.BLOCK_SIZE then none
              else
                let b1 : Nat → Nat := fun j =>
                  if position.toNat ≤ j ∧ j < position.toNat + numBytes2.toNat
                  then buffer.getD (j - position.toNat) 0 else b j
                match bwrite c s.disk (s.sblock.firstDataBlock + b_id) b1 with
                | none => some (-1, s)
                | some d =>
                  let x1 : InodeX :=
                    { (s.inodes_x fileDescriptor.toNat) with position := position + numBytes2 }
                  some (numBytes2,
                    { s with disk := d, inodes_x := upd s.inodes_x fileDescriptor.toNat x1 })

/-- Function `lseekFile`.  The sum `position + offset` is a `long`; its overflow is `none`. -/
def lseekFile (c : Config) (s : FS) (fileDescriptor : Int) (offset : Int) (whence : Int) :
    Option (Int × FS) :=
  if fileDescriptor ≥ s.sblock.numInodes ∨ fileDescriptor < 0 then some (-1, s)
  else if (s.inodes fileDescriptor.toNat).type ≠ c.TYPE_FILE then some (-1, s)
  else if (s.inodes_x fileDescriptor.toNat).opened = 0 then some (-1, s)
  else
    let x := s.inodes_x fileDescriptor.toNat
    if whence = c.FS_SEEK_BEGIN then
      let x1 : InodeX := { x with position := 0 }
      some (0, { s with inodes_x := upd s.inodes_x fileDescriptor.toNat x1 })
    else if whence = c.FS_SEEK_END then
      let x1 : InodeX := { x with position := (s.inodes fileDescriptor.toNat).size }
      some (0, { s with inodes_x := upd s.inodes_x fileDescriptor.toNat x1 })
    else if whence = c.FS_SEEK_CUR then
      if x.position + offset > LONG_MAX ∨ x.position + offset < LONG_MIN then none
      else if x.position + offset > (s.inodes fileDescriptor.toNat).size then some (-1, s)
      else if x.position + offset < 0 then some (-1, s)
      else
        let x1 : InodeX := { x with position := x.position + offset }
        some (0, { s with inodes_x := upd s.inodes_x fileDescriptor.toNat x1 })
    else some (-1, s)

/-- Second half of `mkDir` (from the call of `ialloc` on). -/
def mkDirAlloc (c : Config) (s : FS) (path : List Char) (father_inode_id : Int) :
    Int × Option Diag × FS :=
  let r1 := ialloc s
  if r1.1 < 0 then (-2, some Diag.noInodes, r1.2)
  else
    let i := r1.1.toNat
    let rec1 : Inode :=
      { (r1.2.inodes i) with father := father_inode_id, type := c.TYPE_FOLDER, name := path }
    let s2 : FS := { r1.2 with inodes := upd r1.2.inodes i rec1 }
    let r3 := syncFS c s2
    if r3.1 < 0 then (-2, some Diag.syncFailed, r3.2) else (0, none, r3.2)

/-- Function `mkDir`.  As in `createFile`, `path0` is the caller's string at the call and `p` is
what the call of `basename` leaves of it. -/
def mkDir (c : Config) (s : FS) (path0 : Option (List Char)) :
    Option (Int × Option Diag × FS) :=
  match path0 with
  | none => some (-2, some Diag.noPath, s)
  | some p0 =>
    let p := basenameTrim p0
    if (basename p0).length > c.MAX_FILE_NAME then some (-2, some Diag.nameTooBig, s)
    else
      match slashLoop p 0 with
      | none => none
      | some slashes =>
        if slashes > c.MAX_FOLDER_LEVEL then some (-2, some Diag.tooDeep, s)
        else if namei s (some p) ≥ 0 then some (-1, some Diag.alreadyExists, s)
        else if getFather p ≠ [slash] then
          let father_inode_id := namei s (some (getFather p))
          if father_inode_id < 0 then some (-2, some Diag.noDirectory, s)
          else if (s.inodes father_inode_id.toNat).type ≠ c.TYPE_FOLDER then
            some (-2, some Diag.notADirectory, s)
          else if countNumberEntries s father_inode_id = c.MAX_ENTRIES then
            some (-2, some Diag.directoryFull, s)
          else some (mkDirAlloc c s p father_inode_id)
        else some (mkDirAlloc c s p (-1))

/-- The loop of `rmDir` over the inode table.  `rmDirRec` stands for the recursive call; the
return values of both `rmDir` and `removeFile` are dropped, as in the source.  The bound
`sblock.numInodes` is the same in every iteration because no operation called here assigns the
superblock. -/
def rmDirLoop (c : Config) (rmDirRec : FS → Option (List Char) → Option (Int × FS))
    (inode_id : Int) : Nat → Nat → FS → Option FS
  | 0, _, s => some s
  | n + 1, i, s =>
    if (s.inodes i).father = inode_id then
      if (s.inodes i).type = c.TYPE_FOLDER then
        match rmDirRec s (some (s.inodes i).name) with
        | none => none
        | some r => rmDirLoop c rmDirRec inode_id n (i + 1) r.2
      else rmDirLoop c rmDirRec inode_id n (i + 1) (removeFile c s (some (s.inodes i).name)).2
    else rmDirLoop c rmDirRec inode_id n (i + 1) s

/-- Function `rmDir`.  The first argument bounds the depth of the recursion; `none` means that
the bound was reached. -/
def rmDir (c : Config) : Nat → FS → Option (List Char) → Option (Int × FS)
  | 0, _, _ => none
  | fuel + 1, s, path =>
    match path with
    | none => some (-1, s)
    | some p =>
      let inode_id := namei s (some p)
      if inode_id < 0 then some (-1, s)
      else if (s.inodes inode_id.toNat).type ≠ c.TYPE_FOLDER then some (-2, s)
      else
        match rmDirLoop c (rmDir c fuel) inode_id s.sblock.numInodes.toNat 0 s with
        | none => none
        | some s1 =>
          let r1 := bfree s1 (s1.inodes inode_id.toNat).dataBlockPos
          if r1.1 < 0 then some (-2, r1.2)
          else
            let s2 : FS := { r1.2 with inodes := upd r1.2.inodes inode_id.toNat zeroInode }
            let r3 := ifree s2 inode_id
            if r3.1 < 0 then some (-2, r3.2)
            else
              let r4 := syncFS c r3.2
              if r4.1 < 0 then some (-2, r4.2) else some (0, r4.2)

/-- First loop of `lsDir`: `inodesDir[i] = -1` for `i < MAX_ENTRIES`. -/
def lsDirFill (inodesDir : Nat → Int) : Nat → Nat → (Nat → Int)
  | 0, _ => inodesDir
  | n + 1, i => lsDirFill (upd inodesDir i (-1)) n (i + 1)

/-- Second loop of `lsDir`.  The output arrays are indexed by `counter` without a bound check.
Of `basename` only the string returned is used: the stored names it is called on do not end in
a slash behind another character in any state that `createFile` and `mkDir` produce, so the call
leaves them as they are. -/
def lsDirLoop (s : FS) (inode_id : Int) :
    Nat → Nat → Int → (Nat → Int) → (Nat → List Char) → Int × (Nat → Int) × (Nat → List Char)
  | 0, _, counter, inodesDir, namesDir => (counter, inodesDir, namesDir)
  | n + 1, i, counter, inodesDir, namesDir =>
    if (s.inodes i).father = inode_id then
      lsDirLoop s inode_id n (i + 1) (counter + 1) (upd inodesDir counter.toNat (i : Int))
        (upd namesDir counter.toNat (basename (s.inodes i).name))
    else lsDirLoop s inode_id n (i + 1) counter inodesDir namesDir

/-- Function `lsDir`.  The two output arrays are passed in with the contents they have before
the call and come back with the contents they have after it; an index at or above `MAX_ENTRIES`
lies outside the arrays of the caller (`inodesDir[10]`, `namesDir[10][33]`). -/
def lsDir (c : Config) (s : FS) (path : Option (List Char)) (inodesDir : Nat → Int)
    (namesDir : Nat → List Char) : Int × (Nat → Int) × (Nat → List Char) :=
  match path with
  | none => (-1, inodesDir, namesDir)
  | some p =>
    let inode_id := namei s (some p)
    if inode_id < 0 then (-1, inodesDir, namesDir)
    else if (s.inodes inode_id.toNat).type ≠ c.TYPE_FOLDER then (-2, inodesDir, namesDir)
    else
      lsDirLoop s inode_id s.sblock.numInodes.toNat 0 0 (lsDirFill inodesDir c.MAX_ENTRIES 0)
        namesDir

/-! ## Mount -/

/-- One of the three copy loops of `mountFS`: the bytes of the memory region from offset
`i * BLOCK_SIZE` on receive block `first + i`.  The answer is the memory image and whether every
read succeeded. -/
def mountLoop (c : Config) (d : Disk) (first : Int) :
    Nat → Nat → (Nat → Nat) → Bool × (Nat → Nat)
  | 0, _, image => (true, image)
  | n + 1, i, image =>
    match bread d (first + i) with
    | none => (false, image)
    | some b =>
      mountLoop c d first n (i + 1)
        (fun off =>
          if i * c.BLOCK_SIZE ≤ off ∧ off < i * c.BLOCK_SIZE + c.BLOCK_SIZE
          then b (off - i * c.BLOCK_SIZE) else image off)

/-- Function `mountFS`: block 0 goes into the superblock, then the inode map, the data map and
the inode table are read with the counts of the superblock just read; the first failing read
ends the call with -1. -/
def mountFS (c : Config) (dc : Decoding) (s : FS) : Int × FS :=
  match bread s.disk 0 with
  | none => (-1, s)
  | some b =>
    let sb : SuperBlock :=
      dc.superOfBytes (fun off => if off < c.BLOCK_SIZE then b off else c.superBytes s.sblock off)
    let r1 := mountLoop c s.disk 1 sb.numINodeMapBlocks.toNat 0 (c.mapBytes s.i_map)
    let s1 : FS := { s with sblock := sb, i_map := dc.mapOfBytes r1.2 }
    if r1.1 = false then (-1, s1)
    else
      let r2 :=
        mountLoop c s.disk (1 + sb.numINodeMapBlocks) sb.numDataMapBlocks.toNat 0
          (c.mapBytes s.b_map)
      let s2 : FS := { s1 with b_map := dc.mapOfBytes r2.2 }
      if r2.1 = false then (-1, s2)
      else
        let r3 :=
          mountLoop c s.disk sb.firstInodeBlock
            (ceilOfDivision (sb.numInodes * c.SIZEOF_INODE) c.BLOCK_SIZE).toNat 0
            (c.inodeBytes s.inodes)
        let s3 : FS := { s2 with inodes := dc.inodesOfBytes r3.2 }
        if r3.1 = false then (-1, s3) else (0, s3)

/-! ## Unmount -/

/-- Loop of `unmountFS`: does a slot below the bound have `opened == 1`? -/
def unmountLoop (s : FS) : Nat → Nat → Bool
  | 0, _ => false
  | n + 1, i => if (s.inodes_x i).opened = 1 then true else unmountLoop s n (i + 1)

/-- Function `unmountFS`: refuses while a file is opened, otherwise writes the metadata back. -/
def unmountFS (c : Config) (s : FS) : Int × FS :=
  if unmountLoop s s.sblock.numInodes.toNat 0 = true then (-1, s)
  else
    let r := syncFS c s
    if r.1 < 0 then (-1, r.2) else (0, r.2)

/-! ## Reachable states -/

/-- States that a successful `mkFS` followed by any number of file operations can produce. -/
inductive Reachable (c : Config) : FS → Prop where
  | format (s0 s : FS) (deviceSize : Int) :
      mkFS c s0 deviceSize = (0, s) → Reachable c s
  | createFile (s s1 : FS) (path : Option (List Char)) (r : Int) (d : Option Diag) :
      Reachable c s → createFile c s path = some (r, d, s1) → Reachable c s1
  | removeFile (s : FS) (path : Option (List Char)) :
      Reachable c s → Reachable c (removeFile c s path).2
  | openFile (s : FS) (path : Option (List Char)) :
      Reachable c s → Reachable c (openFile c s path).2
  | closeFile (s : FS) (fd : Int) :
      Reachable c s → Reachable c (closeFile c s fd).2
  | readFile (s s1 : FS) (fd : Int) (buffer out : List Nat) (numBytes r : Int) :
      Reachable c s → readFile c s fd buffer numBytes = some (r, s1, out) → Reachable c s1
  | writeFile (s s1 : FS) (fd : Int) (buffer : List Nat) (numBytes r : Int) :
      Reachable c s → writeFile c s fd buffer numBytes = some (r, s1) → Reachable c s1
  | lseekFile (s s1 : FS) (fd offset whence r : Int) :
      Reachable c s → lseekFile c s fd offset whence = some (r, s1) → Reachable c s1
  | mkDir (s s1 : FS) (path : Option (List Char)) (r : Int) (d : Option Diag) :
      Reachable c s → mkDir c s path = some (r, d, s1) → Reachable c s1
  | rmDir (s s1 : FS) (fuel : Nat) (path : Option (List Char)) (r : Int) :
      Reachable c s → rmDir c fuel s path = some (r, s1) → Reachable c s1

/-! ## A concrete configuration -/

/-- Byte `k` of the little-endian image of an integer. -/
def leByte (v : Int) (k : Nat) : Nat := (toSizeT v / 256 ^ k) % 256

/-- An example memory image of the superblock: seven `int` fields, four bytes of alignment, the
`long` field and the padding array. -/
def stdSuperBytes (sb : SuperBlock) (off : Nat) : Nat :=
  if off < 4 then leByte sb.magicNumber off
  else if off < 8 then leByte sb.numINodeMapBlocks (off - 4)
  else if off < 12 then leByte sb.numDataMapBlocks (off - 8)
  else if off < 16 then leByte sb.numInodes (off - 12)
  else if off < 20 then leByte sb.firstInodeBlock (off - 16)
  else if off < 24 then leByte sb.numDataBlocks (off - 20)
  else if off < 28 then leByte sb.firstDataBlock (off - 24)
  else if off < 32 then 0
  else if off < 40 then leByte sb.deviceSize (off - 32)
  else sb.padding (off - 40)

/-- An example memory image of a bitmap: bit `i` is bit `i % 8` of byte `i / 8`. -/
def stdMapBytes (m : Nat → Bool) (off : Nat) : Nat :=
  (List.range 8).foldl (fun acc j => acc + (if m (8 * off + j) then 2 ^ j else 0)) 0

/-- An example memory image of the inode array with records of 148 bytes: `father`, `type`, a
name array of 132 bytes, `dataBlockPos`, `size`. -/
def stdInodeBytes (t : Nat → Inode) (off : Nat) : Nat :=
  let r := t (off / 148)
  let o := off % 148
  if o < 4 then leByte r.father o
  else if o < 8 then leByte r.type (o - 4)
  else if o < 140 then (r.name.map Char.toNat).getD (o - 8) 0
  else if o < 144 then leByte r.dataBlockPos (o - 140)
  else leByte r.size (o - 144)

/-- The number whose little-endian image are the `n` bytes from offset `off` on. -/
def leWord (b : Nat → Nat) (off : Nat) : Nat → Nat
  | 0 => 0
  | n + 1 => b off + 256 * leWord b (off + 1) n

/-- The signed integer of `n` bytes stored from offset `off` on. -/
def leInt (b : Nat → Nat) (off n : Nat) : Int :=
  if leWord b off n < 2 ^ (8 * n - 1) then (leWord b off n : Int)
  else (leWord b off n : Int) - 2 ^ (8 * n)

/-- The C string stored from offset `off` on in an array of `n` bytes. -/
def cstr (b : Nat → Nat) (off : Nat) : Nat → List Char
  | 0 => []
  | n + 1 => if b off = 0 then [] else Char.ofNat (b off) :: cstr b (off + 1) n

/-- The readings that belong to the example images `stdSuperBytes`, `stdMapBytes` and
`stdInodeBytes`. -/
def stdDecoding : Decoding :=
  { superOfBytes := fun b =>
      { magicNumber := leInt b 0 4
        numINodeMapBlocks := leInt b 4 4
        numDataMapBlocks := leInt b 8 4
        numInodes := leInt b 12 4
        firstInodeBlock := leInt b 16 4
        numDataBlocks := leInt b 20 4
        firstDataBlock := leInt b 24 4
        deviceSize := leInt b 32 8
        padding := fun k => b (40 + k) }
    mapOfBytes := fun b i => decide (b (i / 8) / 2 ^ (i % 8) % 2 = 1)
    inodesOfBytes := fun b i =>
      { father := leInt b (148 * i) 4
        type := leInt b (148 * i + 4) 4
        name := cstr b (148 * i + 8) 132
        dataBlockPos := leInt b (148 * i + 140) 4
        size := leInt b (148 * i + 144) 4 } }

/-- The configuration used for the concrete runs below: blocks of 2048 bytes (the source
comments "Maximum number of blocks --> 5120" for 10 MiB), 40 inodes, names of 32 characters and
10 entries per directory (the bounds in the signature of `lsDir`), the magic number quoted in
`mkFS`.  The remaining values are not visible in the sources and are choices. -/
def stdConfig : Config :=
  { BLOCK_SIZE := 2048
    MAX_FILES := 40
    MAX_FILE_NAME := 32
    MAX_FOLDER_LEVEL := 3
    MAX_ENTRIES := 10
    MAX_FILE_SIZE := 2048
    MAGIC_NUMBER := 873728
    TYPE_FILE := 0
    TYPE_FOLDER := 1
    FS_SEEK_BEGIN := 2
    FS_SEEK_CUR := 0
    FS_SEEK_END := 1
    SIZEOF_INODE := 148
    superBytes := stdSuperBytes
    mapBytes := stdMapBytes
    inodeBytes := stdInodeBytes }

/-- The state at process start: every global is zero, and a healthy device image of 50 KiB
filled with zero bytes. -/
def bootState : FS :=
  { sblock :=
      { magicNumber := 0, numINodeMapBlocks := 0, numDataMapBlocks := 0, numInodes := 0
        firstInodeBlock := 0, numDataBlocks := 0, firstDataBlock := 0, deviceSize := 0
        padding := fun _ => 0 }
    i_map := fun _ => false
    b_map := fun _ => false
    inodes := fun _ => zeroInode
    inodes_x := fun _ => { position := 0, opened := 0 }
    disk := { present := true, size := 51200, faulty := fun _ => false, blocks := fun _ _ => 0 } }

/-- The state after `mkFS(51200)` at process start. -/
def freshState : FS := (mkFS stdConfig bootState 51200).2

/-! ## Derived notions used in the statements -/

/-- Every free inode slot holds a zeroed record. -/
def FreeZero (s : FS) : Prop :=
  ∀ i : Nat, (i : Int) < s.sblock.numInodes → s.i_map i = false → s.inodes i = zeroInode

/-- The superblock is kept, and a slot that is free afterwards either was free with the same
record before or holds a zeroed record. -/
def Step (s t : FS) : Prop :=
  t.sblock = s.sblock ∧
    ∀ i : Nat, t.i_map i = false →
      (s.i_map i = false ∧ t.inodes i = s.inodes i) ∨ t.inodes i = zeroInode

/-- Every defined answer of an operation carries a state related to `s` by `Step`; `proj` picks
the state out of the answer. -/
def OptStep {α : Type} (s : FS) (proj : α → FS) (o : Option α) : Prop :=
  ∀ r, o = some r → Step s (proj r)

/-- Number of allocated inodes (bitmap bit set) among the first `n` slots from `i` on whose
`father` field is `f`: the child count in the words of the specification. -/
def allocatedChildren (s : FS) (f : Int) : Nat → Nat → Nat
  | 0, _ => 0
  | n + 1, i =>
    (if s.i_map i = true ∧ (s.inodes i).father = f then 1 else 0) + allocatedChildren s f n (i + 1)

/-- The calls `writeFile(fd, buffer, w)`, `lseekFile(fd, 0, FS_SEEK_BEGIN)` and
`readFile(fd, out, w)` in a row; the answer holds the two byte counts returned and the contents
of `out` after the read. -/
def writeSeekRead (c : Config) (s : FS) (fd : Int) (buffer out : List Nat) (w : Int) :
    Option (Int × Int × List Nat) :=
  match writeFile c s fd buffer w with
  | none => none
  | some r1 =>
    match lseekFile c r1.2 fd 0 c.FS_SEEK_BEGIN with
    | none => none
    | some r2 =>
      match readFile c r2.2 fd out w with
      | none => none
      | some r3 => some (r1.1, r3.1, r3.2.2)

/-- State after `createFile(p)`. -/
def afterCreate (c : Config) (s : FS) (p : List Char) : FS :=
  match createFile c s (some p) with
  | some r => r.2.2
  | none => s

/-- State after `mkDir(p)`. -/
def afterMkDir (c : Config) (s : FS) (p : List Char) : FS :=
  match mkDir c s (some p) with
  | some r => r.2.2
  | none => s

/-- A fresh file system with the single file `/f`. -/
def fileState : FS := afterCreate stdConfig freshState "/f".toList

/-- The file `/f` of `fileState` opened; its descriptor is 0. -/
def openedState : FS := (openFile stdConfig fileState (some "/f".toList)).2

/-- A fresh file system with the single directory `/a`, which gets inode 0. -/
def dirState : FS := afterMkDir stdConfig freshState "/a".toList

/-- The file `/x` (inode 0), the directory `/a` (inode 1) and the file `/a/f` (inode 2), the
latter opened. -/
def treeState : FS :=
  (openFile stdConfig
    (afterCreate stdConfig
      (afterMkDir stdConfig (afterCreate stdConfig freshState "/x".toList) "/a".toList)
      "/a/f".toList)
    (some "/a/f".toList)).2

/-- The files `/a`, `/b`, ... created one after the other: `k` of them. -/
def fillFiles : Nat → FS → FS
  | 0, s => s
  | k + 1, s => afterCreate stdConfig (fillFiles k s) [slash, Char.ofNat (97 + k)]

/-- A fresh file system of 50 KiB after 19 files were created: all its 19 data blocks are in
use and 21 inodes are free. -/
def fullState : FS := fillFiles 19 freshState

/-- The state `s` with the open-file entry of slot `fd` replaced by `x`; nothing else differs. -/
def withEntry (s : FS) (fd : Nat) (x : InodeX) : FS :=
  { s with inodes_x := upd s.inodes_x fd x }

/-- The state `s` with the seek position of slot `fd` set to `p`; nothing else differs. -/
def withPosition (s : FS) (fd : Nat) (p : Int) : FS :=
  withEntry s fd { position := p, opened := (s.inodes_x fd).opened }

/-- Local variable `totalBlocks` of `mkFS`. -/
def totalBlocks (c : Config) (deviceSize : Int) : Int := ceilOfDivision deviceSize c.BLOCK_SIZE

/-- Local variable `inodeBlocks` of `mkFS`; `syncFS` and `mountFS` compute the same number
from `sblock.numInodes`. -/
def inodeBlocks (c : Config) : Int :=
  ceilOfDivision (c.SIZEOF_INODE * c.MAX_FILES) c.BLOCK_SIZE

/-- Local variable `inodeMapBlocks` of `mkFS`. -/
def inodeMapBlocks (c : Config) : Int := ceilOfDivision (inodeBlocks c) c.BLOCK_SIZE

/-- Local variable `dataMapBlocks` of `mkFS`. -/
def dataMapBlocks (c : Config) (deviceSize : Int) : Int :=
  ceilOfDivision (totalBlocks c deviceSize - 1 - inodeBlocks c - inodeMapBlocks c) c.BLOCK_SIZE

/-- Local variable `dataBlocks` of `mkFS`. -/
def dataBlocks (c : Config) (deviceSize : Int) : Int :=
  totalBlocks c deviceSize - 1 - inodeMapBlocks c - dataMapBlocks c deviceSize - inodeBlocks c

/-- The in-memory state that `mkFS` has built when it calls `syncFS`. -/
def formatted (c : Config) (s : FS) (deviceSize : Int) : FS :=
  { s with
    sblock :=
      { magicNumber := c.MAGIC_NUMBER
        numINodeMapBlocks := inodeMapBlocks c
        numDataMapBlocks := dataMapBlocks c deviceSize
        numInodes := c.MAX_FILES
        firstInodeBlock := 1 + inodeMapBlocks c + dataMapBlocks c deviceSize
        numDataBlocks := dataBlocks c deviceSize
        firstDataBlock := 1 + inodeMapBlocks c + dataMapBlocks c deviceSize + inodeBlocks c
        deviceSize := deviceSize
        padding := fun _ => 48 }
    i_map := clearLoop s.i_map (c.MAX_FILES : Int).toNat 0
    b_map := clearLoop s.b_map (dataBlocks c deviceSize).toNat 0
    inodes := zeroLoop s.inodes (c.MAX_FILES : Int).toNat 0 }

/-- Every inode slot either holds a zeroed record or a non-empty name that no other slot
holds. -/
def Tidy (s : FS) : Prop :=
  ∀ i : Nat, (i : Int) < s.sblock.numInodes →
    s.inodes i = zeroInode ∨
      ((s.inodes i).name ≠ [] ∧
        ∀ j : Nat, (j : Int) < s.sblock.numInodes →
          (s.inodes j).name = (s.inodes i).name → j = i)

/-- The superblock is kept and every inode record is the one before or a zeroed one. -/
def Erase (s t : FS) : Prop :=
  t.sblock = s.sblock ∧ ∀ i : Nat, t.inodes i = s.inodes i ∨ t.inodes i = zeroInode

/-- Every defined answer of an operation carries a state related to `s` by `Erase`. -/
def OptErase {α : Type} (s : FS) (proj : α → FS) (o : Option α) : Prop :=
  ∀ r, o = some r → Erase s (proj r)

/-- The state after `createFile("/t")` and `createFile("/u")` in `fullState`, where no data
block is free. -/
def leakState : FS :=
  afterCreate stdConfig (afterCreate stdConfig fullState "/t".toList) "/u".toList

/-- Number of `/` characters of a path. -/
def slashCount (p : List Char) : Nat := p.count slash

/-- State after `lseekFile(fd, offset, whence)`. -/
def afterSeek (c : Config) (s : FS) (fd offset whence : Int) : FS :=
  match lseekFile c s fd offset whence with
  | some r => r.2
  | none => s

/-- State after `writeFile(fd, buffer, numBytes)`. -/
def afterWrite (c : Config) (s : FS) (fd : Int) (buffer : List Nat) (numBytes : Int) : FS :=
  match writeFile c s fd buffer numBytes with
  | some r => r.2
  | none => s

/-- Every entry of the open-file table below `numInodes` has its position between 0 and the
declared size of its inode. -/
def InRange (s : FS) : Prop :=
  ∀ i : Nat, (i : Int) < s.sblock.numInodes →
    0 ≤ (s.inodes_x i).position ∧ (s.inodes_x i).position ≤ (s.inodes i).size

/-- Every defined answer of a call carries a state that satisfies `InRange`. -/
def RangeAfter (o : Option (Int × FS)) : Prop :=
  ∀ r, o = some r → InRange r.2

/-- The file `/f` of `openedState` with the byte `x` written at offset 2047, the last one of its
2048 bytes, and the position set back to 2047. -/
def edgeState : FS :=
  afterSeek stdConfig
    (afterWrite stdConfig (afterSeek stdConfig openedState 0 2047 stdConfig.FS_SEEK_CUR)
      0 [120, 0] 1)
    0 (-1) stdConfig.FS_SEEK_CUR

/-- State after `rmDir(p)`, run with the given bound on the depth of the recursion. -/
def afterRmDir (c : Config) (fuel : Nat) (s : FS) (p : List Char) : FS :=
  match rmDir c fuel s (some p) with
  | some r => r.2
  | none => s

/-- The file `/f` and the directory `/a` created on a fresh file system, in this order. -/
def fileAndDirState : FS := afterMkDir stdConfig fileState "/a".toList

/-- The state `fileAndDirState` after `rmDir("/a")`. -/
def freedBlockState : FS := afterRmDir stdConfig 2 fileAndDirState "/a".toList

/-- The state `freedBlockState` after `createFile("/g")`. -/
def sharedBlockState : FS := afterCreate stdConfig freedBlockState "/g".toList

/-- Every record of type FOLDER has no data block of its own (`dataBlockPos` is the 0 left by
`ialloc`) and lies under the root or under a record of type FOLDER of smaller rank. -/
def Ranked (c : Config) (rank : Nat → Nat) (s : FS) : Prop :=
  ∀ i : Nat, (i : Int) < s.sblock.numInodes → (s.inodes i).type = c.TYPE_FOLDER →
    (s.inodes i).dataBlockPos = 0 ∧
      ((s.inodes i).father = -1 ∨
        ∃ f : Nat, (s.inodes i).father = (f : Int) ∧ (f : Int) < s.sblock.numInodes ∧
          (s.inodes f).type = c.TYPE_FOLDER ∧ rank f < rank i)

/-- The superblock is kept and every inode record is the one before, or a zeroed one that no
record of type FOLDER names as its father. -/
def Prune (c : Config) (s t : FS) : Prop :=
  t.sblock = s.sblock ∧
    ∀ i : Nat, t.inodes i = s.inodes i ∨
      (t.inodes i = zeroInode ∧
        ∀ j : Nat, (j : Int) < t.sblock.numInodes → (t.inodes j).type = c.TYPE_FOLDER →
          (t.inodes j).father ≠ (i : Int))

/-- No record of type FOLDER has a rank above `bound`. -/
def RankBound (c : Config) (rank : Nat → Nat) (bound : Nat) (s : FS) : Prop :=
  ∀ i : Nat, (i : Int) < s.sblock.numInodes → (s.inodes i).type = c.TYPE_FOLDER →
    rank i ≤ bound

/-- Every defined answer of an operation carries a state with the superblock and the inode table
of `s`. -/
def KeepsInodes {α : Type} (s : FS) (proj : α → FS) (o : Option α) : Prop :=
  ∀ r, o = some r → (proj r).sblock = s.sblock ∧ (proj r).inodes = s.inodes

/-- The superblocks `a` and `b` have the same eight fields and the same first `n` bytes of
padding. -/
def SuperAgree (n : Nat) (a b : SuperBlock) : Prop :=
  a.magicNumber = b.magicNumber ∧ a.numINodeMapBlocks = b.numINodeMapBlocks ∧
    a.numDataMapBlocks = b.numDataMapBlocks ∧ a.numInodes = b.numInodes ∧
    a.firstInodeBlock = b.firstInodeBlock ∧ a.numDataBlocks = b.numDataBlocks ∧
    a.firstDataBlock = b.firstDataBlock ∧ a.deviceSize = b.deviceSize ∧
    ∀ k : Nat, k < n → a.padding k = b.padding k

/-- The metadata of `t` is that of `s`: the superblocks agree, and so do the bits of the inode
bitmap and the inode records below `numInodes` and the bits of the data bitmap below
`numDataBlocks`. -/
def SameMeta (n : Nat) (t s : FS) : Prop :=
  SuperAgree n t.sblock s.sblock ∧
    (∀ i : Nat, (i : Int) < s.sblock.numInodes → t.i_map i = s.i_map i) ∧
    (∀ i : Nat, (i : Int) < s.sblock.numDataBlocks → t.b_map i = s.b_map i) ∧
    (∀ i : Nat, (i : Int) < s.sblock.numInodes → t.inodes i = s.inodes i)

/-- The readings of `dc` invert the images of `c` on the metadata of `s`, and they need only
the bytes that `syncFS` writes: a region of memory that agrees with the image of the superblock
on the first block, resp. with the image of a bitmap or of the inode array on the blocks of its
region, is read as an object that agrees with the one of `s`. -/
def Inverts (c : Config) (dc : Decoding) (n : Nat) (s : FS) : Prop :=
  (∀ img : Nat → Nat,
    (∀ off : Nat, off < c.BLOCK_SIZE → img off = c.superBytes s.sblock off) →
      SuperAgree n (dc.superOfBytes img) s.sblock) ∧
  (∀ img : Nat → Nat,
    (∀ off : Nat, off < s.sblock.numINodeMapBlocks.toNat * c.BLOCK_SIZE →
      img off = c.mapBytes s.i_map off) →
      ∀ i : Nat, (i : Int) < s.sblock.numInodes → dc.mapOfBytes img i = s.i_map i) ∧
  (∀ img : Nat → Nat,
    (∀ off : Nat, off < s.sblock.numDataMapBlocks.toNat * c.BLOCK_SIZE →
      img off = c.mapBytes s.b_map off) →
      ∀ i : Nat, (i : Int) < s.sblock.numDataBlocks → dc.mapOfBytes img i = s.b_map i) ∧
  (∀ img : Nat → Nat,
    (∀ off : Nat,
      off < (ceilOfDivision (s.sblock.numInodes * c.SIZEOF_INODE) c.BLOCK_SIZE).toNat *
        c.BLOCK_SIZE → img off = c.inodeBytes s.inodes off) →
      ∀ i : Nat, (i : Int) < s.sblock.numInodes → dc.inodesOfBytes img i = s.inodes i)

/-- Memory that holds nothing of a file system (the number 7 in every field of the superblock
and of every inode record, every bit of the two bitmaps set) next to the device `d`. -/
def staleState (d : Disk) : FS :=
  { sblock := SuperBlock.mk 7 7 7 7 7 7 7 7 (fun _ => 7)
    i_map := fun _ => true
    b_map := fun _ => true
    inodes := fun _ => Inode.mk 7 7 [Char.ofNat 55] 7 7
    inodes_x := fun _ => { position := 0, opened := 0 }
    disk := d }

/-! ## Basic facts about the auxiliary functions -/

theorem upd_same {α : Type} (a : Nat → α) (i : Nat) (v : α) : upd a i v i = v := by
  simp [upd]

theorem upd_other {α : Type} (a : Nat → α) (i j : Nat) (v : α) (h : j ≠ i) :
    upd a i v j = a j := by
  simp [upd, h]

theorem getbit_eq_zero (m : Nat → Bool) (i : Nat) : bitmap_getbit m i = 0 ↔ m i = false := by
  unfold bitmap_getbit
  cases m i <;> simp

theorem upd_upd {α : Type} (a : Nat → α) (i : Nat) (v w : α) :
    upd (upd a i v) i w = upd a i w := by
  funext j
  unfold upd
  split <;> rfl

theorem setbit_one (m : Nat → Bool) (i : Nat) : bitmap_setbit m i 1 = upd m i true := by
  simp [bitmap_setbit]

theorem setbit_zero (m : Nat → Bool) (i : Nat) : bitmap_setbit m i 0 = upd m i false := by
  simp [bitmap_setbit]

theorem syncFS_mem (c : Config) (s : FS) :
    (syncFS c s).2.sblock = s.sblock ∧ (syncFS c s).2.i_map = s.i_map ∧
    (syncFS c s).2.b_map = s.b_map ∧ (syncFS c s).2.inodes = s.inodes ∧
    (syncFS c s).2.inodes_x = s.inodes_x := by
  unfold syncFS
  repeat' split
  all_goals exact ⟨rfl, rfl, rfl, rfl, rfl⟩

theorem nameiLoop_neg (s : FS) (f : List Char) :
    ∀ n i, nameiLoop s f n i < 0 → ∀ j, i ≤ j → j < i + n → (s.inodes j).name ≠ f := by
  intro n
  induction n with
  | zero => intro i _ j h1 h2; omega
  | succ n ih =>
    intro i h j h1 h2
    unfold nameiLoop at h
    split at h
    · omega
    · rename_i hne
      by_cases hj : j = i
      · subst hj; exact hne
      · exact ih (i + 1) h j (by omega) (by omega)

theorem nameiLoop_first (s : FS) (f : List Char) (k : Nat) :
    ∀ n i, i ≤ k → k < i + n → (s.inodes k).name = f →
      (∀ j, i ≤ j → j < k → (s.inodes j).name ≠ f) → nameiLoop s f n i = (k : Int) := by
  intro n
  induction n with
  | zero => intro i h1 h2; omega
  | succ n ih =>
    intro i h1 h2 hk hlt
    unfold nameiLoop
    by_cases hi : i = k
    · subst hi; rw [if_pos hk]
    · rw [if_neg (hlt i (le_refl i) (by omega))]
      exact ih (i + 1) (by omega) (by omega) hk (fun j h3 h4 => hlt j (by omega) h4)

theorem iallocLoop_spec (s : FS) :
    ∀ n i, (iallocLoop s n i = (-1, s) ∧ ∀ j, i ≤ j → j < i + n → s.i_map j = true) ∨
      ∃ (k : Nat) (t : FS), i ≤ k ∧ k < i + n ∧ s.i_map k = false ∧
        (∀ j, i ≤ j → j < k → s.i_map j = true) ∧ iallocLoop s n i = ((k : Int), t) ∧
        t.sblock = s.sblock ∧ t.i_map = upd s.i_map k true ∧ t.b_map = s.b_map ∧
        t.inodes = upd s.inodes k zeroInode ∧ t.inodes_x = s.inodes_x ∧ t.disk = s.disk := by
  intro n
  induction n with
  | zero => intro i; left; exact ⟨rfl, fun j h1 h2 => by omega⟩
  | succ n ih =>
    intro i
    unfold iallocLoop
    by_cases h : bitmap_getbit s.i_map i = 0
    · right
      rw [if_pos h]
      exact ⟨i, _, le_refl i, by omega, (getbit_eq_zero _ _).1 h, fun j h1 h2 => by omega, rfl,
        rfl, setbit_one _ _, rfl, rfl, rfl, rfl⟩
    · rw [if_neg h]
      have hi : s.i_map i = true := by
        cases hb : s.i_map i
        · exact absurd ((getbit_eq_zero _ _).2 hb) h
        · rfl
      rcases ih (i + 1) with ⟨h1, h2⟩ | ⟨k, t, h1, h2, h3, h4, h5⟩
      · left
        refine ⟨h1, fun j h3 h4 => ?_⟩
        by_cases hj : j = i
        · subst hj; exact hi
        · exact h2 j (by omega) (by omega)
      · right
        refine ⟨k, t, by omega, by omega, h3, fun j h6 h7 => ?_, h5⟩
        by_cases hj : j = i
        · subst hj; exact hi
        · exact h4 j (by omega) h7

theorem allocLoop_spec (c : Config) (s : FS) :
    ∀ n i, (allocLoop c s n i = (-1, s) ∧ ∀ j, i ≤ j → j < i + n → s.b_map j = true) ∨
      ∃ (k : Nat) (t : FS), i ≤ k ∧ k < i + n ∧ s.b_map k = false ∧
        (∀ j, i ≤ j → j < k → s.b_map j = true) ∧
        (allocLoop c s n i = (-1, t) ∨ allocLoop c s n i = ((k : Int), t)) ∧
        t.sblock = s.sblock ∧ t.i_map = s.i_map ∧ t.b_map = upd s.b_map k true ∧
        t.inodes = s.inodes ∧ t.inodes_x = s.inodes_x := by
  intro n
  induction n with
  | zero => intro i; left; exact ⟨rfl, fun j h1 h2 => by omega⟩
  | succ n ih =>
    intro i
    unfold allocLoop
    by_cases h : bitmap_getbit s.b_map i = 0
    · right
      rw [if_pos h]
      split
      · exact ⟨i, _, le_refl i, by omega, (getbit_eq_zero _ _).1 h, fun j h1 h2 => by omega,
          Or.inl rfl, rfl, rfl, setbit_one _ _, rfl, rfl⟩
      · exact ⟨i, _, le_refl i, by omega, (getbit_eq_zero _ _).1 h, fun j h1 h2 => by omega,
          Or.inr rfl, rfl, rfl, setbit_one _ _, rfl, rfl⟩
    · rw [if_neg h]
      have hi : s.b_map i = true := by
        cases hb : s.b_map i
        · exact absurd ((getbit_eq_zero _ _).2 hb) h
        · rfl
      rcases ih (i + 1) with ⟨h1, h2⟩ | ⟨k, t, h1, h2, h3, h4, h5⟩
      · left
        refine ⟨h1, fun j h3 h4 => ?_⟩
        by_cases hj : j = i
        · subst hj; exact hi
        · exact h2 j (by omega) (by omega)
      · right
        refine ⟨k, t, by omega, by omega, h3, fun j h6 h7 => ?_, h5⟩
        by_cases hj : j = i
        · subst hj; exact hi
        · exact h4 j (by omega) h7

theorem step_refl (s : FS) : Step s s :=
  ⟨rfl, fun _ h => Or.inl ⟨h, rfl⟩⟩

theorem step_trans {s t u : FS} (h1 : Step s t) (h2 : Step t u) : Step s u := by
  refine ⟨h2.1.trans h1.1, fun i hi => ?_⟩
  rcases h2.2 i hi with ⟨h3, h4⟩ | h3
  · rcases h1.2 i h3 with ⟨h5, h6⟩ | h5
    · exact Or.inl ⟨h5, h4.trans h6⟩
    · exact Or.inr (h4.trans h5)
  · exact Or.inr h3

theorem step_of_same {s t : FS} (h1 : t.sblock = s.sblock) (h2 : t.i_map = s.i_map)
    (h3 : t.inodes = s.inodes) : Step s t :=
  ⟨h1, fun i hi => Or.inl ⟨by rw [← h2]; exact hi, by rw [h3]⟩⟩

theorem step_release {s t : FS} (k : Nat) (h1 : t.sblock = s.sblock)
    (h2 : ∀ j, j ≠ k → t.i_map j = s.i_map j) (h3 : t.inodes = upd s.inodes k zeroInode) :
    Step s t := by
  refine ⟨h1, fun i hi => ?_⟩
  by_cases hk : i = k
  · right; rw [h3, hk]; exact upd_same _ _ _
  · left; exact ⟨by rw [← h2 i hk]; exact hi, by rw [h3]; exact upd_other _ _ _ _ hk⟩

theorem step_fill {s t : FS} (k : Nat) (h1 : t.sblock = s.sblock) (h2 : t.i_map = s.i_map)
    (hk : s.i_map k = true) (h3 : ∀ j, j ≠ k → t.inodes j = s.inodes j) : Step s t := by
  refine ⟨h1, fun i hi => ?_⟩
  rw [h2] at hi
  have hne : i ≠ k := by
    intro e
    rw [e, hk] at hi
    exact Bool.noConfusion hi
  exact Or.inl ⟨hi, h3 i hne⟩

theorem step_sync (c : Config) {s t : FS} (h : Step s t) : Step s (syncFS c t).2 := by
  obtain ⟨m1, m2, _, m4, _⟩ := syncFS_mem c t
  exact step_trans h (step_of_same m1 m2 m4)

theorem freeZero_step {s t : FS} (h : FreeZero s) (hs : Step s t) : FreeZero t := by
  intro i hi hf
  rcases hs.2 i hf with ⟨h1, h2⟩ | h1
  · rw [h2]; exact h i (by rw [← hs.1]; exact hi) h1
  · exact h1

theorem ialloc_cases (s : FS) :
    ialloc s = (-1, s) ∨
      ∃ (k : Nat) (t : FS), ialloc s = ((k : Int), t) ∧ (k : Int) < s.sblock.numInodes ∧
        s.i_map k = false ∧ t.sblock = s.sblock ∧ t.i_map = upd s.i_map k true ∧
        t.b_map = s.b_map ∧ t.inodes = upd s.inodes k zeroInode ∧ t.inodes_x = s.inodes_x ∧
        t.disk = s.disk := by
  rcases iallocLoop_spec s s.sblock.numInodes.toNat 0 with
    ⟨h1, _⟩ | ⟨k, t, _, hk, hfree, _, h1, r⟩
  · exact Or.inl h1
  · exact Or.inr ⟨k, t, h1, by omega, hfree, r⟩

theorem ialloc_step (s : FS) : Step s (ialloc s).2 := by
  rcases ialloc_cases s with h | ⟨k, t, h, _, _, t1, t2, _, t4, _, _⟩
  · rw [h]; exact step_refl s
  · rw [h]
    refine ⟨t1, fun j hj => ?_⟩
    have hne : j ≠ k := by
      intro e
      rw [t2, e, upd_same] at hj
      exact Bool.noConfusion hj
    rw [t2, upd_other _ _ _ _ hne] at hj
    exact Or.inl ⟨hj, by rw [t4]; exact upd_other _ _ _ _ hne⟩

theorem ialloc_bit (s : FS) (h : ¬ (ialloc s).1 < 0) :
    (ialloc s).2.i_map (ialloc s).1.toNat = true := by
  rcases ialloc_cases s with e | ⟨k, t, e, _, _, _, t2, _⟩
  · rw [e] at h; simp at h
  · rw [e]; simp [t2, upd_same]

theorem alloc_same (c : Config) (s : FS) :
    (alloc c s).2.sblock = s.sblock ∧ (alloc c s).2.i_map = s.i_map ∧
      (alloc c s).2.inodes = s.inodes ∧ (alloc c s).2.inodes_x = s.inodes_x := by
  rcases allocLoop_spec c s s.sblock.numDataBlocks.toNat 0 with
    ⟨h1, _⟩ | ⟨k, t, _, _, _, _, h1 | h1, u1, u2, _, u4, u5⟩
  · have e : alloc c s = (-1, s) := h1
    rw [e]; exact ⟨rfl, rfl, rfl, rfl⟩
  · have e : alloc c s = (-1, t) := h1
    rw [e]; exact ⟨u1, u2, u4, u5⟩
  · have e : alloc c s = ((k : Int), t) := h1
    rw [e]; exact ⟨u1, u2, u4, u5⟩

theorem bfree_same (s : FS) (b : Int) :
    (bfree s b).2.sblock = s.sblock ∧ (bfree s b).2.i_map = s.i_map ∧
      (bfree s b).2.inodes = s.inodes ∧ (bfree s b).2.inodes_x = s.inodes_x ∧
      (bfree s b).2.disk = s.disk := by
  unfold bfree
  split <;> exact ⟨rfl, rfl, rfl, rfl, rfl⟩

theorem createFileAlloc_step (c : Config) (s : FS) (p : List Char) (fid : Int) :
    Step s (createFileAlloc c s p fid).2.2 := by
  unfold createFileAlloc
  simp only []
  split
  · exact ialloc_step s
  · rename_i h1
    obtain ⟨a1, a2, a3, _⟩ := alloc_same c (ialloc s).2
    have hst : Step s (alloc c (ialloc s).2).2 :=
      step_trans (ialloc_step s) (step_of_same a1 a2 a3)
    split
    · exact hst
    · have hfill : Step (alloc c (ialloc s).2).2
          { (alloc c (ialloc s).2).2 with
            inodes := upd (alloc c (ialloc s).2).2.inodes (ialloc s).1.toNat
              { father := fid, type := c.TYPE_FILE, name := p,
                dataBlockPos := (alloc c (ialloc s).2).1, size := c.MAX_FILE_SIZE }
            inodes_x := upd (alloc c (ialloc s).2).2.inodes_x (ialloc s).1.toNat
              { position := 0, opened := 0 } } :=
        step_fill (ialloc s).1.toNat rfl rfl (by rw [a2]; exact ialloc_bit s h1)
          (fun j hj => upd_other _ _ _ _ hj)
      split
      · exact step_sync c (step_trans hst hfill)
      · exact step_sync c (step_trans hst hfill)

theorem createFile_step (c : Config) (s s1 : FS) (path : Option (List Char)) (r : Int)
    (d : Option Diag) (h : createFile c s path = some (r, d, s1)) : Step s s1 := by
  unfold createFile at h
  have key : ∀ p fid, some (createFileAlloc c s p fid) = some (r, d, s1) → Step s s1 := by
    intro p fid e
    have e2 := Option.some.inj e
    have := createFileAlloc_step c s p fid
    rw [e2] at this
    exact this
  have triv : ∀ (a : Int) (b : Option Diag), some (a, b, s) = some (r, d, s1) → Step s s1 := by
    intro a b e
    have e2 := Option.some.inj e
    simp only [Prod.mk.injEq] at e2
    rw [← e2.2.2]
    exact step_refl s
  repeat' split at h
  all_goals try dsimp only at h
  all_goals repeat' split at h
  all_goals first
    | exact triv _ _ h
    | exact key _ _ h
    | exact absurd h (by simp)

theorem mkDirAlloc_step (c : Config) (s : FS) (p : List Char) (fid : Int) :
    Step s (mkDirAlloc c s p fid).2.2 := by
  unfold mkDirAlloc
  simp only []
  split
  · exact ialloc_step s
  · rename_i h1
    have hfill : Step (ialloc s).2
        { (ialloc s).2 with
          inodes := upd (ialloc s).2.inodes (ialloc s).1.toNat
            { ((ialloc s).2.inodes (ialloc s).1.toNat) with
              father := fid, type := c.TYPE_FOLDER, name := p } } :=
      step_fill (ialloc s).1.toNat rfl rfl (ialloc_bit s h1) (fun j hj => upd_other _ _ _ _ hj)
    split
    · exact step_sync c (step_trans (ialloc_step s) hfill)
    · exact step_sync c (step_trans (ialloc_step s) hfill)

theorem mkDir_step (c : Config) (s s1 : FS) (path : Option (List Char)) (r : Int)
    (d : Option Diag) (h : mkDir c s path = some (r, d, s1)) : Step s s1 := by
  unfold mkDir at h
  have key : ∀ p fid, some (mkDirAlloc c s p fid) = some (r, d, s1) → Step s s1 := by
    intro p fid e
    have e2 := Option.some.inj e
    have := mkDirAlloc_step c s p fid
    rw [e2] at this
    exact this
  have triv : ∀ (a : Int) (b : Option Diag), some (a, b, s) = some (r, d, s1) → Step s s1 := by
    intro a b e
    have e2 := Option.some.inj e
    simp only [Prod.mk.injEq] at e2
    rw [← e2.2.2]
    exact step_refl s
  repeat' split at h
  all_goals try dsimp only at h
  all_goals repeat' split at h
  all_goals first
    | exact triv _ _ h
    | exact key _ _ h
    | exact absurd h (by simp)

/-- Zeroing the record of an inode and freeing it, as `removeFile` and `rmDir` do. -/
theorem ifree_zero_step (s t : FS) (inode_id : Int) (h1 : t.sblock = s.sblock)
    (h2 : t.i_map = s.i_map) (h3 : t.inodes = s.inodes) :
    Step s (ifree { t with inodes := upd t.inodes inode_id.toNat zeroInode } inode_id).2 := by
  unfold ifree
  split
  · exact step_release inode_id.toNat h1 (fun j _ => by simp [h2]) (by simp [h3])
  · refine step_release inode_id.toNat h1 (fun j hj => ?_) (by simp [h3])
    simp [setbit_zero, upd_other _ _ _ _ hj, h2]

theorem removeFile_step (c : Config) (s : FS) (path : Option (List Char)) :
    Step s (removeFile c s path).2 := by
  cases path with
  | none => exact step_refl s
  | some p =>
    unfold removeFile
    dsimp only
    obtain ⟨b1, b2, b3, _, _⟩ := bfree_same s (s.inodes (namei s (some p)).toNat).dataBlockPos
    have hrel := ifree_zero_step s _ (namei s (some p)) b1 b2 b3
    split
    · exact step_refl s
    · split
      · exact step_refl s
      · split
        · exact step_refl s
        · split
          · exact step_of_same b1 b2 b3
          · split
            · exact hrel
            · split
              · exact step_sync c hrel
              · exact step_sync c hrel

theorem rmDirLoop_step (c : Config) (rmDirRec : FS → Option (List Char) → Option (Int × FS))
    (inode_id : Int) (hrec : ∀ s p r, rmDirRec s p = some r → Step s r.2) :
    ∀ n i s t, rmDirLoop c rmDirRec inode_id n i s = some t → Step s t := by
  intro n
  induction n with
  | zero =>
    intro i s t h
    unfold rmDirLoop at h
    rw [← Option.some.inj h]
    exact step_refl s
  | succ n ih =>
    intro i s t h
    unfold rmDirLoop at h
    split at h
    · split at h
      · split at h
        · exact absurd h (by simp)
        · rename_i r hr
          exact step_trans (hrec _ _ _ hr) (ih _ _ _ h)
      · exact step_trans (removeFile_step c s _) (ih _ _ _ h)
    · exact ih _ _ _ h

theorem rmDir_step (c : Config) :
    ∀ fuel s path r, rmDir c fuel s path = some r → Step s r.2 := by
  intro fuel
  induction fuel with
  | zero =>
    intro s path r h
    unfold rmDir at h
    exact absurd h (by simp)
  | succ fuel ih =>
    intro s path r h
    cases path with
    | none =>
      unfold rmDir at h
      rw [← Option.some.inj h]
      exact step_refl s
    | some p =>
      unfold rmDir at h
      dsimp only at h
      split at h
      · rw [← Option.some.inj h]; exact step_refl s
      · split at h
        · rw [← Option.some.inj h]; exact step_refl s
        · split at h
          · exact absurd h (by simp)
          · rename_i s1 hloop
            have h1 : Step s s1 := rmDirLoop_step c (rmDir c fuel) _ ih _ _ _ _ hloop
            obtain ⟨b1, b2, b3, _, _⟩ :=
              bfree_same s1 (s1.inodes (namei s (some p)).toNat).dataBlockPos
            have hrel := ifree_zero_step s1 _ (namei s (some p)) b1 b2 b3
            split at h
            · rw [← Option.some.inj h]; exact step_trans h1 (step_of_same b1 b2 b3)
            · split at h
              · rw [← Option.some.inj h]; exact step_trans h1 hrel
              · split at h
                · rw [← Option.some.inj h]; exact step_trans h1 (step_sync c hrel)
                · rw [← Option.some.inj h]; exact step_trans h1 (step_sync c hrel)

theorem openFile_step (c : Config) (s : FS) (path : Option (List Char)) :
    Step s (openFile c s path).2 := by
  unfold openFile
  iterate 6 (all_goals (try (first | split | dsimp only)))
  all_goals exact step_refl s

theorem closeFile_step (c : Config) (s : FS) (fd : Int) : Step s (closeFile c s fd).2 := by
  unfold closeFile
  iterate 4 (all_goals (try (first | split | dsimp only)))
  all_goals exact step_refl s



theorem optStep_none {α : Type} (s : FS) (proj : α → FS) : OptStep s proj none := by
  intro r e
  cases e

theorem optStep_some {α : Type} (s : FS) (proj : α → FS) (x : α) (h : Step s (proj x)) :
    OptStep s proj (some x) := by
  intro r e
  cases e
  exact h

theorem optStep_ite {α : Type} (s : FS) (proj : α → FS) (p : Prop) [Decidable p]
    (x y : Option α) (hx : OptStep s proj x) (hy : OptStep s proj y) :
    OptStep s proj (if p then x else y) := by
  by_cases h : p
  · rw [if_pos h]; exact hx
  · rw [if_neg h]; exact hy

theorem readFile_optStep (c : Config) (s : FS) (fd : Int) (buffer : List Nat) (numBytes : Int) :
    OptStep s (fun r : Int × FS × List Nat => r.2.1) (readFile c s fd buffer numBytes) := by
  unfold readFile
  repeat' first
    | exact optStep_none _ _
    | exact optStep_some _ _ _ (step_refl s)
    | apply optStep_ite
    | split
    | (dsimp only; split)

theorem writeFile_optStep (c : Config) (s : FS) (fd : Int) (buffer : List Nat) (numBytes : Int) :
    OptStep s (fun r : Int × FS => r.2) (writeFile c s fd buffer numBytes) := by
  unfold writeFile
  repeat' first
    | exact optStep_none _ _
    | exact optStep_some _ _ _ (step_refl s)
    | apply optStep_ite
    | split
    | (dsimp only; split)

theorem lseekFile_optStep (c : Config) (s : FS) (fd offset whence : Int) :
    OptStep s (fun r : Int × FS => r.2) (lseekFile c s fd offset whence) := by
  unfold lseekFile
  repeat' first
    | exact optStep_none _ _
    | exact optStep_some _ _ _ (step_refl s)
    | apply optStep_ite


theorem zeroLoop_below (t : Nat → Inode) : ∀ n i j, j < i → zeroLoop t n i j = t j := by
  intro n
  induction n generalizing t with
  | zero => intro i j _; rfl
  | succ n ih =>
    intro i j hj
    unfold zeroLoop
    rw [ih (upd t i zeroInode) (i + 1) j (by omega)]
    exact upd_other _ _ _ _ (by omega)

theorem zeroLoop_spec (t : Nat → Inode) :
    ∀ n i j, i ≤ j → j < i + n → zeroLoop t n i j = zeroInode := by
  intro n
  induction n generalizing t with
  | zero => intro i j h1 h2; omega
  | succ n ih =>
    intro i j h1 h2
    unfold zeroLoop
    by_cases hj : j = i
    · rw [zeroLoop_below _ n (i + 1) j (by omega), hj]
      exact upd_same _ _ _
    · exact ih _ (i + 1) j (by omega) (by omega)

theorem ite_prop {α : Type} (Q : α → Prop) (p : Prop) [Decidable p] (x y : α) (hx : Q x)
    (hy : Q y) : Q (if p then x else y) := by
  by_cases h : p
  · rw [if_pos h]; exact hx
  · rw [if_neg h]; exact hy

theorem mkFS_freeZero (c : Config) (s0 s : FS) (deviceSize : Int)
    (h : mkFS c s0 deviceSize = (0, s)) : FreeZero s := by
  have key : (mkFS c s0 deviceSize).1 = 0 → FreeZero (mkFS c s0 deviceSize).2 := by
    unfold mkFS
    have bad : ∀ t : FS, (fun x : Int × FS => x.1 = 0 → FreeZero x.2) (-1, t) := by
      intro t e
      have e2 : (-1 : Int) = 0 := e
      exact absurd e2 (by decide)
    refine ite_prop (fun x : Int × FS => x.1 = 0 → FreeZero x.2) _ _ _ (bad _) ?_
    refine ite_prop (fun x : Int × FS => x.1 = 0 → FreeZero x.2) _ _ _ (bad _) ?_
    refine ite_prop (fun x : Int × FS => x.1 = 0 → FreeZero x.2) _ _ _ (bad _) ?_
    refine ite_prop (fun x : Int × FS => x.1 = 0 → FreeZero x.2) _ _ _ (bad _) ?_
    dsimp only
    refine ite_prop (fun x : Int × FS => x.1 = 0 → FreeZero x.2) _ _ _ (bad _) ?_
    refine ite_prop (fun x : Int × FS => x.1 = 0 → FreeZero x.2) _ _ _ (bad _) ?_
    intro _ i hi _
    dsimp only at hi ⊢
    rw [(syncFS_mem c _).1] at hi
    rw [(syncFS_mem c _).2.2.2.1]
    dsimp only at hi ⊢
    exact zeroLoop_spec _ _ 0 i (Nat.zero_le i) (by omega)
  rw [h] at key
  exact key rfl

/-- In every reachable state the free inode slots hold zeroed records. -/
theorem reachable_freeZero (c : Config) (s : FS) (h : Reachable c s) : FreeZero s := by
  induction h with
  | format s0 s deviceSize hf => exact mkFS_freeZero c s0 s deviceSize hf
  | createFile s s1 path r d _ hc ih => exact freeZero_step ih (createFile_step c s s1 path r d hc)
  | removeFile s path _ ih => exact freeZero_step ih (removeFile_step c s path)
  | openFile s path _ ih => exact freeZero_step ih (openFile_step c s path)
  | closeFile s fd _ ih => exact freeZero_step ih (closeFile_step c s fd)
  | readFile s s1 fd buffer out numBytes r _ hc ih =>
    exact freeZero_step ih (readFile_optStep c s fd buffer numBytes _ hc)
  | writeFile s s1 fd buffer numBytes r _ hc ih =>
    exact freeZero_step ih (writeFile_optStep c s fd buffer numBytes _ hc)
  | lseekFile s s1 fd offset whence r _ hc ih =>
    exact freeZero_step ih (lseekFile_optStep c s fd offset whence _ hc)
  | mkDir s s1 path r d _ hc ih => exact freeZero_step ih (mkDir_step c s s1 path r d hc)
  | rmDir s s1 fuel path r _ hc ih => exact freeZero_step ih (rmDir_step c fuel s path _ hc)

/-! ## Create, look up, open, close, remove -/

theorem strlen_append (bytes rest : List Nat) (h : ∀ x ∈ bytes, x ≠ 0) :
    strlen (bytes ++ 0 :: rest) = some bytes.length := by
  induction bytes with
  | nil => simp [strlen]
  | cons a l ih =>
    have ha : a ≠ 0 := h a (List.mem_cons_self a l)
    have hl : ∀ x ∈ l, x ≠ 0 := fun x hx => h x (List.mem_cons_of_mem a hx)
    simp [strlen, ha, ih hl]

theorem slice_eq (b : Nat → Nat) (l : List Nat) (h : ∀ j, j < l.length → b j = l.getD j 0) :
    slice b 0 l.length = l := by
  unfold slice
  apply List.ext_getElem
  · simp
  · intro j h1 h2
    simp only [List.getElem_map, List.getElem_range, Nat.zero_add]
    rw [h j h2]
    simp [List.getD_eq_getElem?_getD, List.getElem?_eq_getElem h2]

theorem writeFile_ok (c : Config) (s : FS) (fd : Nat) (bytes rest : List Nat)
    (hfd : (fd : Int) < s.sblock.numInodes) (ht : (s.inodes fd).type = c.TYPE_FILE)
    (ho : (s.inodes_x fd).opened ≠ 0) (hpos : (s.inodes_x fd).position = 0)
    (hnz : ∀ x ∈ bytes, x ≠ 0) (hW0 : 0 < bytes.length) (hW1 : bytes.length ≤ c.BLOCK_SIZE)
    (hW2 : (bytes.length : Int) ≤ (s.inodes fd).size) (hInt : (bytes.length : Int) ≤ INT_MAX)
    (hblk : 0 ≤ (s.inodes fd).dataBlockPos) (hfirst : 0 ≤ s.sblock.firstDataBlock)
    (hdisk : s.disk.faulty (s.sblock.firstDataBlock + (s.inodes fd).dataBlockPos).toNat = false) :
    ∃ t : FS, writeFile c s (fd : Int) (bytes ++ 0 :: rest) (bytes.length : Int) =
        some ((bytes.length : Int), t) ∧
      t.sblock = s.sblock ∧ t.inodes = s.inodes ∧
      t.inodes_x = upd s.inodes_x fd
        { position := (bytes.length : Int), opened := (s.inodes_x fd).opened } ∧
      t.disk.faulty = s.disk.faulty ∧
      ∀ j, j < bytes.length →
        t.disk.blocks (s.sblock.firstDataBlock + (s.inodes fd).dataBlockPos).toNat j =
          bytes.getD j 0 := by
  unfold writeFile
  have h0 : ¬ ((fd : Int) ≥ s.sblock.numInodes ∨ (fd : Int) < 0) := by omega
  rw [if_neg h0, Int.toNat_ofNat, if_neg (not_not.2 ht), if_neg ho, strlen_append bytes rest hnz]
  dsimp only
  rw [hpos, ite_self]
  unfold INT_MAX at hInt
  have h1 : ¬ ((0 : Int) + (bytes.length : Int) > INT_MAX ∨
      (0 : Int) + (bytes.length : Int) < INT_MIN) := by
    unfold INT_MAX INT_MIN; omega
  rw [if_neg h1]
  have h2 : ¬ ((0 : Int) + (bytes.length : Int) > (s.inodes fd).size) := by omega
  rw [if_neg h2]
  have h3 : ¬ ((bytes.length : Int) < 0) := by omega
  have h4 : ¬ ((bytes.length : Int) = 0) := by omega
  rw [if_neg h3, if_neg h4]
  have hb : bmap c s (fd : Int) 0 = (s.inodes fd).dataBlockPos := by
    unfold bmap
    rw [if_neg h0, Int.toNat_ofNat, if_pos (by omega)]
  rw [hb]
  have h5 : ¬ ((s.inodes fd).dataBlockPos < 0) := by omega
  rw [if_neg h5]
  have hbr : bread s.disk (s.sblock.firstDataBlock + (s.inodes fd).dataBlockPos) =
      some (s.disk.blocks (s.sblock.firstDataBlock + (s.inodes fd).dataBlockPos).toNat) := by
    unfold bread
    rw [if_neg]
    rw [hdisk]
    simp
    omega
  rw [hbr]
  dsimp only
  have h6 : ¬ ((0 : Int) < 0 ∨ (0 : Int) + (bytes.length : Int) > (c.BLOCK_SIZE : Int)) := by
    omega
  rw [if_neg h6]
  unfold bwrite
  rw [if_neg (by rw [hdisk]; simp; omega)]
  dsimp only
  refine ⟨_, rfl, rfl, rfl, ?_, rfl, ?_⟩
  · simp
  · intro j hj
    simp only [upd_same]
    rw [if_pos (by omega)]
    simp only [Int.toNat_zero, Nat.zero_le, true_and, Nat.zero_add, Int.toNat_ofNat,
      Nat.sub_zero]
    rw [if_pos hj]
    simp [List.getD_eq_getElem?_getD, List.getElem?_append_left hj]

theorem lseekFile_begin_ok (c : Config) (s : FS) (fd : Nat)
    (hfd : (fd : Int) < s.sblock.numInodes) (ht : (s.inodes fd).type = c.TYPE_FILE)
    (ho : (s.inodes_x fd).opened ≠ 0) :
    ∃ t : FS, lseekFile c s (fd : Int) 0 c.FS_SEEK_BEGIN = some (0, t) ∧
      t.sblock = s.sblock ∧ t.inodes = s.inodes ∧
      t.inodes_x = upd s.inodes_x fd { position := 0, opened := (s.inodes_x fd).opened } ∧
      t.disk = s.disk := by
  unfold lseekFile
  have h0 : ¬ ((fd : Int) ≥ s.sblock.numInodes ∨ (fd : Int) < 0) := by omega
  rw [if_neg h0, Int.toNat_ofNat, if_neg (not_not.2 ht), if_neg ho]
  dsimp only
  rw [if_pos rfl]
  exact ⟨_, rfl, rfl, rfl, rfl, rfl⟩

theorem readFile_ok (c : Config) (s : FS) (fd : Nat) (bytes pre post : List Nat)
    (hfd : (fd : Int) < s.sblock.numInodes) (ht : (s.inodes fd).type = c.TYPE_FILE)
    (ho : (s.inodes_x fd).opened ≠ 0) (hpos : (s.inodes_x fd).position = 0)
    (hnz : ∀ x ∈ bytes, x ≠ 0) (hW0 : 0 < bytes.length) (hW1 : bytes.length ≤ c.BLOCK_SIZE)
    (hW2 : (bytes.length : Int) ≤ (s.inodes fd).size) (hInt : (bytes.length : Int) ≤ INT_MAX)
    (hpre : pre.length = bytes.length)
    (hblk : 0 ≤ (s.inodes fd).dataBlockPos) (hfirst : 0 ≤ s.sblock.firstDataBlock)
    (hdisk : s.disk.faulty (s.sblock.firstDataBlock + (s.inodes fd).dataBlockPos).toNat = false)
    (hdata : ∀ j, j < bytes.length →
      s.disk.blocks (s.sblock.firstDataBlock + (s.inodes fd).dataBlockPos).toNat j =
        bytes.getD j 0) :
    ∃ t : FS, readFile c s (fd : Int) (pre ++ 0 :: post) (bytes.length : Int) =
      some ((bytes.length : Int), t, bytes ++ 0 :: post) := by
  unfold readFile
  have h0 : ¬ ((fd : Int) ≥ s.sblock.numInodes ∨ (fd : Int) < 0) := by omega
  rw [if_neg h0, Int.toNat_ofNat, if_neg (not_not.2 ht), if_neg ho]
  dsimp only
  rw [hpos]
  unfold INT_MAX at hInt
  have h1 : ¬ ((0 : Int) + (bytes.length : Int) > INT_MAX ∨
      (0 : Int) + (bytes.length : Int) < INT_MIN) := by
    unfold INT_MAX INT_MIN; omega
  rw [if_neg h1]
  have h2 : ¬ ((0 : Int) + (bytes.length : Int) > (s.inodes fd).size) := by omega
  rw [if_neg h2]
  have h3 : ¬ ((bytes.length : Int) < 0) := by omega
  have h4 : ¬ ((bytes.length : Int) = 0) := by omega
  rw [if_neg h3, if_neg h4]
  have hb : bmap c s (fd : Int) 0 = (s.inodes fd).dataBlockPos := by
    unfold bmap
    rw [if_neg h0, Int.toNat_ofNat, if_pos (by omega)]
  rw [hb]
  have h5 : ¬ ((s.inodes fd).dataBlockPos < 0) := by omega
  rw [if_neg h5]
  have hbr : bread s.disk (s.sblock.firstDataBlock + (s.inodes fd).dataBlockPos) =
      some (s.disk.blocks (s.sblock.firstDataBlock + (s.inodes fd).dataBlockPos).toNat) := by
    unfold bread
    rw [if_neg]
    rw [hdisk]
    simp
    omega
  rw [hbr]
  dsimp only
  have h6 : ¬ ((0 : Int) < 0 ∨ (0 : Int) + (bytes.length : Int) > (c.BLOCK_SIZE : Int)) := by
    omega
  have h7 : ¬ ((bytes.length : Int) > ((pre ++ 0 :: post).length : Int)) := by
    simp only [List.length_append, List.length_cons]
    omega
  rw [if_neg h6, if_neg h7, Int.toNat_zero, Int.toNat_ofNat, slice_eq _ bytes hdata]
  have hdrop : List.drop bytes.length (pre ++ 0 :: post) = 0 :: post := by
    rw [← hpre]
    simp
  rw [hdrop, strlen_append bytes post hnz]
  exact ⟨_, rfl⟩

theorem writeFile_zero (c : Config) (s : FS) (fd : Nat) (rest : List Nat)
    (hfd : (fd : Int) < s.sblock.numInodes) (ht : (s.inodes fd).type = c.TYPE_FILE)
    (ho : (s.inodes_x fd).opened ≠ 0) (hpos : (s.inodes_x fd).position = 0)
    (hsize : 0 ≤ (s.inodes fd).size) :
    writeFile c s (fd : Int) (0 :: rest) 0 = some (0, s) := by
  unfold writeFile
  have h0 : ¬ ((fd : Int) ≥ s.sblock.numInodes ∨ (fd : Int) < 0) := by omega
  rw [if_neg h0, Int.toNat_ofNat, if_neg (not_not.2 ht), if_neg ho]
  have hs : strlen (0 :: rest) = some 0 := by simp [strlen]
  rw [hs]
  dsimp only
  rw [hpos]
  have e : (if 0 < toSizeT 0 then ((0 : Nat) : Int) else 0) = 0 := by
    split <;> rfl
  rw [e]
  have h1 : ¬ ((0 : Int) + 0 > INT_MAX ∨ (0 : Int) + 0 < INT_MIN) := by
    unfold INT_MAX INT_MIN; omega
  have h2 : ¬ ((0 : Int) + 0 > (s.inodes fd).size) := by omega
  rw [if_neg h1, if_neg h2, if_neg (by omega), if_pos rfl]

theorem readFile_zero (c : Config) (s : FS) (fd : Nat) (out : List Nat)
    (hfd : (fd : Int) < s.sblock.numInodes) (ht : (s.inodes fd).type = c.TYPE_FILE)
    (ho : (s.inodes_x fd).opened ≠ 0) (hpos : (s.inodes_x fd).position = 0)
    (hsize : 0 ≤ (s.inodes fd).size) :
    readFile c s (fd : Int) out 0 = some (0, s, out) := by
  unfold readFile
  have h0 : ¬ ((fd : Int) ≥ s.sblock.numInodes ∨ (fd : Int) < 0) := by omega
  rw [if_neg h0, Int.toNat_ofNat, if_neg (not_not.2 ht), if_neg ho]
  dsimp only
  rw [hpos]
  have h1 : ¬ ((0 : Int) + 0 > INT_MAX ∨ (0 : Int) + 0 < INT_MIN) := by
    unfold INT_MAX INT_MIN; omega
  have h2 : ¬ ((0 : Int) + 0 > (s.inodes fd).size) := by omega
  rw [if_neg h1, if_neg h2, if_neg (by omega), if_pos rfl]

/-- C2 as amended: for an opened file at position 0, a sequence `bytes` of `W` non-zero bytes
with `W ≤ BLOCK_SIZE` and `W ≤` the declared size, held in a buffer that has a zero byte right
behind it, and block transfers that succeed: `writeFile(fd, buffer, W)` returns `W`, and after
the seek to the beginning `readFile(fd, out, W)` into a buffer `out` whose byte `W` is zero
returns `W` and leaves exactly `bytes` in the first `W` bytes of `out`. -/
theorem write_seek_read_roundtrip (c : Config) (s : FS) (fd : Nat)
    (bytes rest pre post : List Nat)
    (hfd : (fd : Int) < s.sblock.numInodes) (ht : (s.inodes fd).type = c.TYPE_FILE)
    (ho : (s.inodes_x fd).opened ≠ 0) (hpos : (s.inodes_x fd).position = 0)
    (hnz : ∀ x ∈ bytes, x ≠ 0) (hW1 : bytes.length ≤ c.BLOCK_SIZE)
    (hW2 : (bytes.length : Int) ≤ (s.inodes fd).size) (hInt : (bytes.length : Int) ≤ INT_MAX)
    (hpre : pre.length = bytes.length)
    (hblk : 0 ≤ (s.inodes fd).dataBlockPos) (hfirst : 0 ≤ s.sblock.firstDataBlock)
    (hdisk : s.disk.faulty (s.sblock.firstDataBlock + (s.inodes fd).dataBlockPos).toNat = false) :
    writeSeekRead c s (fd : Int) (bytes ++ 0 :: rest) (pre ++ 0 :: post) (bytes.length : Int) =
      some ((bytes.length : Int), (bytes.length : Int), bytes ++ 0 :: post) := by
  unfold writeSeekRead
  by_cases hW0 : 0 < bytes.length
  · obtain ⟨t1, w1, w2, w3, w4, w5, w6⟩ :=
      writeFile_ok c s fd bytes rest hfd ht ho hpos hnz hW0 hW1 hW2 hInt hblk hfirst hdisk
    obtain ⟨t2, l1, l2, l3, l4, l5⟩ := lseekFile_begin_ok c t1 fd (by rw [w2]; exact hfd)
      (by rw [w3]; exact ht) (by rw [w4, upd_same]; exact ho)
    obtain ⟨t3, r1⟩ := readFile_ok c t2 fd bytes pre post (by rw [l2, w2]; exact hfd)
      (by rw [l3, w3]; exact ht) (by rw [l4, upd_same, w4, upd_same]; exact ho)
      (by rw [l4, upd_same]) hnz hW0 hW1 (by rw [l3, w3]; exact hW2) hInt hpre
      (by rw [l3, w3]; exact hblk) (by rw [l2, w2]; exact hfirst)
      (by rw [l5, w5, l2, w2, l3, w3]; exact hdisk)
      (by rw [l5, l2, w2, l3, w3]; exact w6)
    rw [w1]
    dsimp only
    rw [l1]
    dsimp only
    rw [r1]
  · have hb : bytes = [] := List.length_eq_zero.1 (by omega)
    have hp : pre = [] := List.length_eq_zero.1 (by omega)
    subst hb
    subst hp
    have hsize : 0 ≤ (s.inodes fd).size := by simpa using hW2
    obtain ⟨t2, l1, l2, l3, l4, _⟩ := lseekFile_begin_ok c s fd hfd ht ho
    have w1 := writeFile_zero c s fd rest hfd ht ho hpos hsize
    have r1 := readFile_zero c t2 fd (0 :: post) (by rw [l2]; exact hfd) (by rw [l3]; exact ht)
      (by rw [l4, upd_same]; exact ho) (by rw [l4, upd_same]) (by rw [l3]; exact hsize)
    simp only [List.nil_append, List.length_nil, Nat.cast_zero]
    rw [w1]
    dsimp only
    rw [l1]
    dsimp only
    rw [r1]

/-- C2 fails as stated: on the opened fresh file `/f` the three bytes `65 0 66` are written
with count 3; the write stops at the zero byte and returns 1, and the read of 3 bytes returns 1
and leaves `65 0 0` in the buffer, not the bytes that were passed. -/
theorem write_seek_read_stops_at_zero :
    openedState.inodes_x 0 = { position := 0, opened := 1 } ∧
    (openedState.inodes 0).size = 2048 ∧
    writeSeekRead stdConfig openedState 0 [65, 0, 66] [0, 0, 0] 3 = some (1, 1, [65, 0, 0]) ∧
    writeSeekRead stdConfig openedState 0 [65, 0, 66] [0, 0, 0] 3 ≠ some (3, 3, [65, 0, 66]) := by
  decide

/-- C2 as amended, for the bytes `104 105` written to the opened fresh file `/f`. -/
theorem write_seek_read_roundtrip_witness :
    writeSeekRead stdConfig openedState ((0 : Nat) : Int) ([104, 105] ++ 0 :: [])
      ([9, 9] ++ 0 :: [9, 0]) (([104, 105] : List Nat).length : Int) =
      some ((([104, 105] : List Nat).length : Int), (([104, 105] : List Nat).length : Int),
        [104, 105] ++ 0 :: [9, 0]) :=
  write_seek_read_roundtrip stdConfig openedState 0 [104, 105] [] [9, 9] [9, 0]
    (by decide) (by decide) (by decide) (by decide) (by decide) (by decide) (by decide)
    (by decide) rfl (by decide) (by decide) (by decide)

/-! ## The concrete states are reachable -/

theorem reachable_afterCreate (c : Config) (s : FS) (p : List Char) (h : Reachable c s) :
    Reachable c (afterCreate c s p) := by
  unfold afterCreate
  cases e : createFile c s (some p) with
  | none => exact h
  | some r => exact Reachable.createFile s r.2.2 (some p) r.1 r.2.1 h e

theorem reachable_afterMkDir (c : Config) (s : FS) (p : List Char) (h : Reachable c s) :
    Reachable c (afterMkDir c s p) := by
  unfold afterMkDir
  cases e : mkDir c s (some p) with
  | none => exact h
  | some r => exact Reachable.mkDir s r.2.2 (some p) r.1 r.2.1 h e

theorem reachable_freshState : Reachable stdConfig freshState :=
  Reachable.format bootState freshState 51200 rfl

theorem reachable_openedState : Reachable stdConfig openedState :=
  Reachable.openFile _ _ (reachable_afterCreate _ _ _ reachable_freshState)

theorem reachable_dirState : Reachable stdConfig dirState :=
  reachable_afterMkDir _ _ _ reachable_freshState

theorem reachable_treeState : Reachable stdConfig treeState :=
  Reachable.openFile _ _
    (reachable_afterCreate _ _ _
      (reachable_afterMkDir _ _ _ (reachable_afterCreate _ _ _ reachable_freshState)))

theorem reachable_fillFiles (k : Nat) (s : FS) (h : Reachable stdConfig s) :
    Reachable stdConfig (fillFiles k s) := by
  induction k with
  | zero => exact h
  | succ k ih => exact reachable_afterCreate _ _ _ ih

theorem reachable_fullState : Reachable stdConfig fullState :=
  reachable_fillFiles 19 freshState reachable_freshState

/-! ## Concrete runs -/

/-- C3 (readFile): the file `/f` is opened at position 0 with declared size 2048.  After
`"hi"` was written and the position set back to 0, a read of 2 bytes into a buffer that holds
`9 9 9 9 0` copies `h i`, returns `strlen(buffer) = 4` and moves the position to 4, where the
claim gives `min(2, 2048 - 0) = 2`.  On the freshly created file (data block all zero) a read
of 4 bytes copies four zero bytes, returns 0 and leaves the position at 0, where the claim
gives 4. -/
theorem readFile_returns_strlen :
    Reachable stdConfig openedState ∧
    openedState.inodes_x 0 = { position := 0, opened := 1 } ∧
    (openedState.inodes 0).type = stdConfig.TYPE_FILE ∧
    (openedState.inodes 0).size = 2048 ∧
    (readFile stdConfig openedState 0 [7, 7, 7, 7, 0] 4).map
        (fun r => (r.1, (r.2.1.inodes_x 0).position, r.2.2)) = some (0, 0, [0, 0, 0, 0, 0]) ∧
    ((writeFile stdConfig openedState 0 [104, 105, 0] 2).bind
        (fun w => (lseekFile stdConfig w.2 0 0 stdConfig.FS_SEEK_BEGIN).bind
          (fun k => (readFile stdConfig k.2 0 [9, 9, 9, 9, 0] 2).map
            (fun r => (r.1, (r.2.1.inodes_x 0).position, r.2.2))))) =
      some (4, 4, [104, 105, 9, 9, 0]) :=
  ⟨reachable_openedState, by decide⟩

/-- C4 (writeFile): with the count -1 and the buffer `"abc"` the call on the opened file `/f`
(position 0) returns 3, moves the position to 3 and stores `abc` in the data block (device
block 6): the negative count became `strlen(buffer)` in the unsigned comparison. -/
theorem writeFile_negative_count_writes :
    Reachable stdConfig openedState ∧
    openedState.inodes_x 0 = { position := 0, opened := 1 } ∧
    slice (openedState.disk.blocks 6) 0 4 = [0, 0, 0, 0] ∧
    (writeFile stdConfig openedState 0 [97, 98, 99, 0] (-1)).map
        (fun r => (r.1, (r.2.inodes_x 0).position, slice (r.2.disk.blocks 6) 0 4)) =
      some (3, 3, [97, 98, 99, 0]) :=
  ⟨reachable_openedState, by decide⟩

/-- C5 (rmDir): in `treeState` the directory `/a` is inode 1 and holds the opened file `/a/f`
(inode 2).  `rmDir("/a")` returns 0 and frees inode 1, but inode 2 stays allocated with
`father = 1`: the failure of `removeFile` on the opened file is ignored. -/
theorem rmDir_leaves_opened_child :
    Reachable stdConfig treeState ∧
    namei treeState (some "/a".toList) = 1 ∧
    (treeState.inodes 1).type = stdConfig.TYPE_FOLDER ∧
    (treeState.inodes 2).father = 1 ∧ treeState.i_map 2 = true ∧
    (rmDir stdConfig 3 treeState (some "/a".toList)).map
        (fun r => (r.1, r.2.i_map 1, r.2.i_map 2, r.2.inodes 2)) =
      some (0, false, true,
        { father := 1, type := stdConfig.TYPE_FILE, name := "/a/f".toList, dataBlockPos := 1,
          size := stdConfig.MAX_FILE_SIZE }) :=
  ⟨reachable_treeState, by decide⟩

/-- C6 (createFile): in `fullState` none of the 25 device blocks is faulty, every one of the 19
data blocks is in use and inode 19 is free.  `createFile("/t")` returns -2 ("no data blocks available") and
leaves inode 19 marked as used: the inode taken by `ialloc` is not given back. -/
theorem createFile_leaks_inode :
    Reachable stdConfig fullState ∧
    (∀ b, b < 25 → fullState.disk.faulty b = false) ∧
    fullState.sblock.numDataBlocks = 19 ∧
    (∀ b, b < 19 → fullState.b_map b = true) ∧
    fullState.i_map 19 = false ∧
    (createFile stdConfig fullState (some "/t".toList)).map
        (fun r => (r.1, r.2.1, r.2.2.i_map 19)) =
      some (-2, some Diag.noDataBlocks, true) :=
  ⟨reachable_fullState, by decide!⟩

/-- C7 (directory full): in `dirState` the directory `/a` is inode 0 and has no allocated
child, yet `createFile("/a/f")` fails with "directory is full": `countNumberEntries(0)` is 39,
because the 39 free slots hold zeroed records whose `father` field is 0. -/
theorem createFile_directoryFull_on_empty_dir :
    Reachable stdConfig dirState ∧
    namei dirState (some "/a".toList) = 0 ∧
    (dirState.inodes 0).type = stdConfig.TYPE_FOLDER ∧
    namei dirState (some "/a/f".toList) = -1 ∧
    allocatedChildren dirState 0 40 0 = 0 ∧
    countNumberEntries dirState 0 = 39 ∧
    (createFile stdConfig dirState (some "/a/f".toList)).map (fun r => (r.1, r.2.1)) =
      some (-2, some Diag.directoryFull) :=
  ⟨reachable_dirState, by decide⟩

/-- C8 (lsDir bound): `dirState` is reachable, `/a` is a directory (inode 0), and `lsDir("/a", ...)`
returns 39, more than `MAX_ENTRIES = 10`; index 10 of `inodesDir`, which lies outside the array
of the caller, receives the value 11. -/
theorem lsDir_count_exceeds_max :
    Reachable stdConfig dirState ∧
    (dirState.inodes 0).type = stdConfig.TYPE_FOLDER ∧
    (lsDir stdConfig dirState (some "/a".toList) (fun _ => 0) (fun _ => [])).1 = 39 ∧
    (lsDir stdConfig dirState (some "/a".toList) (fun _ => 0) (fun _ => [])).2.1 10 = 11 := by
  exact ⟨reachable_dirState, by decide⟩

/-- C9 (lsDir contents): in `dirState` no allocated inode has the directory `/a` (inode 0) as
its father, but `lsDir("/a", ...)` returns 39 and lists the free slots 1, 2, 3, ... with the
name `"."`; entry 0 of `inodesDir` is 1 and not -1. -/
theorem lsDir_lists_free_slots :
    Reachable stdConfig dirState ∧
    namei dirState (some "/a".toList) = 0 ∧
    allocatedChildren dirState 0 40 0 = 0 ∧
    dirState.i_map 1 = false ∧
    (lsDir stdConfig dirState (some "/a".toList) (fun _ => 0) (fun _ => [])).1 = 39 ∧
    (List.range 3).map (lsDir stdConfig dirState (some "/a".toList) (fun _ => 0)
      (fun _ => [])).2.1 = [1, 2, 3] ∧
    (lsDir stdConfig dirState (some "/a".toList) (fun _ => 0) (fun _ => [])).2.2 0 = [dot] :=
  ⟨reachable_dirState, by decide⟩

/-! ## Rejections that leave the state alone, close, seek -/

/-- C12: when the inode that `namei(P)` finds has type FILE and is opened, `openFile(P)` and
`removeFile(P)` both return -2 and give back the state as it was: bitmaps, inode table,
open-file table (with the position of the file) and device. -/
theorem open_and_remove_refuse_opened_file (c : Config) (s : FS) (p : List Char) (i : Nat)
    (hn : namei s (some p) = (i : Int)) (ht : (s.inodes i).type = c.TYPE_FILE)
    (ho : (s.inodes_x i).opened ≠ 0) :
    openFile c s (some p) = (-2, s) ∧ removeFile c s (some p) = (-2, s) := by
  have h0 : ¬ ((i : Int) < 0) := by omega
  constructor
  · unfold openFile
    dsimp only
    rw [hn, if_neg h0, Int.toNat_ofNat, if_neg (not_not.2 ht), if_pos ho]
  · unfold removeFile
    dsimp only
    rw [hn, if_neg h0, Int.toNat_ofNat, if_neg (not_not.2 ht), if_pos ho]

/-- C12 on the opened file `/f` of `openedState`. -/
theorem open_and_remove_refuse_opened_file_witness :
    openFile stdConfig openedState (some "/f".toList) = (-2, openedState) ∧
      removeFile stdConfig openedState (some "/f".toList) = (-2, openedState) :=
  open_and_remove_refuse_opened_file stdConfig openedState "/f".toList 0 (by decide) (by decide)
    (by decide)

/-- C15: `closeFile(fd)` returns 0 exactly when `0 <= fd < numInodes`, inode `fd` has type FILE
and its open flag is not 0; then the new state is the old one with the entry of `fd` set to
closed at position 0, and in every other case the call returns -1 and the state is the old
one. -/
theorem closeFile_iff (c : Config) (s : FS) (fd : Int) :
    ((closeFile c s fd).1 = 0 ↔
      (0 ≤ fd ∧ fd < s.sblock.numInodes ∧ (s.inodes fd.toNat).type = c.TYPE_FILE ∧
        (s.inodes_x fd.toNat).opened ≠ 0)) ∧
    ((closeFile c s fd).1 = 0 →
      (closeFile c s fd).2 = withEntry s fd.toNat { position := 0, opened := 0 }) ∧
    ((closeFile c s fd).1 ≠ 0 → closeFile c s fd = (-1, s)) := by
  have hm : ¬ ((-1 : Int) = 0) := by decide
  unfold closeFile
  by_cases h1 : fd ≥ s.sblock.numInodes ∨ fd < 0
  · rw [if_pos h1]
    refine ⟨⟨fun h => absurd h hm, fun h => by omega⟩, fun h => absurd h hm,
      fun _ => rfl⟩
  · rw [if_neg h1]
    by_cases h2 : (s.inodes fd.toNat).type ≠ c.TYPE_FILE
    · rw [if_pos h2]
      exact ⟨⟨fun h => absurd h hm, fun h => absurd h.2.2.1 h2⟩,
        fun h => absurd h hm, fun _ => rfl⟩
    · rw [if_neg h2]
      by_cases h3 : (s.inodes_x fd.toNat).opened = 0
      · rw [if_pos h3]
        exact ⟨⟨fun h => absurd h hm, fun h => absurd h3 h.2.2.2⟩,
          fun h => absurd h hm, fun _ => rfl⟩
      · rw [if_neg h3]
        exact ⟨⟨fun _ => ⟨by omega, by omega, not_not.1 h2, h3⟩, fun _ => rfl⟩, fun _ => rfl,
          fun h => absurd rfl h⟩

/-! ## The bitmap allocators -/

theorem ifree_out (s : FS) (k : Int) (h : k ≥ s.sblock.numInodes ∨ k < 0) :
    ifree s k = (-1, s) := by
  unfold ifree
  rw [if_pos h]

theorem ifree_in (s : FS) (k : Int) (h : ¬ (k ≥ s.sblock.numInodes ∨ k < 0)) :
    ifree s k = (0, { s with i_map := upd s.i_map k.toNat false }) := by
  unfold ifree
  rw [if_neg h, setbit_zero]

theorem bfree_out (s : FS) (k : Int) (h : k ≥ s.sblock.numDataBlocks ∨ k < 0) :
    bfree s k = (-1, s) := by
  unfold bfree
  rw [if_pos h]

theorem bfree_in (s : FS) (k : Int) (h : ¬ (k ≥ s.sblock.numDataBlocks ∨ k < 0)) :
    bfree s k = (0, { s with b_map := upd s.b_map k.toNat false }) := by
  unfold bfree
  rw [if_neg h, setbit_zero]

/-- C19: `ifree` and `bfree` return -1, with the state as it was, exactly when the index is
negative or not below `numInodes` resp. `numDataBlocks`; otherwise they return 0, the bit of the
index is 0 afterwards and every other bit is as before.  Freeing twice is the same as freeing
once, whether the bit was set or not. -/
theorem free_spec (s : FS) (k : Int) :
    (((ifree s k).1 = -1 ↔ (k < 0 ∨ k ≥ s.sblock.numInodes)) ∧
      ((ifree s k).1 = -1 → (ifree s k).2 = s) ∧
      ((ifree s k).1 ≠ -1 → (ifree s k).1 = 0 ∧ (ifree s k).2.i_map k.toNat = false ∧
        (∀ j, j ≠ k.toNat → (ifree s k).2.i_map j = s.i_map j) ∧
        (ifree s k).2.b_map = s.b_map) ∧
      ifree (ifree s k).2 k = ifree s k) ∧
    (((bfree s k).1 = -1 ↔ (k < 0 ∨ k ≥ s.sblock.numDataBlocks)) ∧
      ((bfree s k).1 = -1 → (bfree s k).2 = s) ∧
      ((bfree s k).1 ≠ -1 → (bfree s k).1 = 0 ∧ (bfree s k).2.b_map k.toNat = false ∧
        (∀ j, j ≠ k.toNat → (bfree s k).2.b_map j = s.b_map j) ∧
        (bfree s k).2.i_map = s.i_map) ∧
      bfree (bfree s k).2 k = bfree s k) := by
  have hz : ¬ ((0 : Int) = -1) := by decide
  constructor
  · by_cases h : k ≥ s.sblock.numInodes ∨ k < 0
    · rw [ifree_out s k h]
      exact ⟨⟨fun _ => Or.symm h, fun _ => rfl⟩, fun _ => rfl, fun e => absurd rfl e,
        ifree_out s k h⟩
    · rw [ifree_in s k h]
      refine ⟨⟨fun e => absurd e hz, fun e => absurd (Or.symm e) h⟩, fun e => absurd e hz,
        fun _ => ⟨rfl, upd_same _ _ _, fun j hj => upd_other _ _ _ _ hj, rfl⟩, ?_⟩
      have e := ifree_in { s with i_map := upd s.i_map k.toNat false } k h
      dsimp only at e ⊢
      rw [e, upd_upd]
  · by_cases h : k ≥ s.sblock.numDataBlocks ∨ k < 0
    · rw [bfree_out s k h]
      exact ⟨⟨fun _ => Or.symm h, fun _ => rfl⟩, fun _ => rfl, fun e => absurd rfl e,
        bfree_out s k h⟩
    · rw [bfree_in s k h]
      refine ⟨⟨fun e => absurd e hz, fun e => absurd (Or.symm e) h⟩, fun e => absurd e hz,
        fun _ => ⟨rfl, upd_same _ _ _, fun j hj => upd_other _ _ _ _ hj, rfl⟩, ?_⟩
      have e := bfree_in { s with b_map := upd s.b_map k.toNat false } k h
      dsimp only at e ⊢
      rw [e, upd_upd]

theorem allocLoop_full (c : Config) (s : FS)
    (hw : ∀ i : Nat, bwrite c s.disk ((i : Int) + s.sblock.firstDataBlock) (fun _ => 0) ≠ none) :
    ∀ n i, (allocLoop c s n i).1 = -1 → ∀ j, i ≤ j → j < i + n → s.b_map j = true := by
  intro n
  induction n with
  | zero => intro i _ j h1 h2; omega
  | succ n ih =>
    intro i h j h1 h2
    unfold allocLoop at h
    by_cases hb : bitmap_getbit s.b_map i = 0
    · rw [if_pos hb] at h
      cases hwr : bwrite c s.disk ((i : Int) + s.sblock.firstDataBlock) (fun _ => 0) with
      | none => exact absurd hwr (hw i)
      | some d =>
        rw [hwr] at h
        have h2 : (i : Int) = -1 := h
        omega
    · rw [if_neg hb] at h
      by_cases hj : j = i
      · cases hv : s.b_map i
        · exact absurd ((getbit_eq_zero _ _).2 hv) hb
        · rw [hj]; exact hv
      · exact ih (i + 1) h j (by omega) (by omega)

/-- C18: `ialloc` returns -1 exactly when every bit below `numInodes` is set, and then keeps
the bitmap; otherwise it returns the least index below `numInodes` whose bit is 0, sets that bit
and keeps every other bit.  The same holds for `alloc` with the data bitmap and
`numDataBlocks`, provided the write that zeroes a block succeeds. -/
theorem first_fit (c : Config) (s : FS)
    (hw : ∀ i : Nat, bwrite c s.disk ((i : Int) + s.sblock.firstDataBlock) (fun _ => 0) ≠ none) :
    (((ialloc s).1 = -1 ↔ ∀ j : Nat, (j : Int) < s.sblock.numInodes → s.i_map j = true) ∧
      ((ialloc s).1 = -1 → (ialloc s).2.i_map = s.i_map) ∧
      ((ialloc s).1 ≠ -1 → ∃ i : Nat, (ialloc s).1 = (i : Int) ∧ (i : Int) < s.sblock.numInodes ∧
        s.i_map i = false ∧ (∀ j, j < i → s.i_map j = true) ∧ (ialloc s).2.i_map i = true ∧
        ∀ j, j ≠ i → (ialloc s).2.i_map j = s.i_map j)) ∧
    (((alloc c s).1 = -1 ↔ ∀ j : Nat, (j : Int) < s.sblock.numDataBlocks → s.b_map j = true) ∧
      ((alloc c s).1 = -1 → (alloc c s).2.b_map = s.b_map) ∧
      ((alloc c s).1 ≠ -1 → ∃ i : Nat, (alloc c s).1 = (i : Int) ∧
        (i : Int) < s.sblock.numDataBlocks ∧
        s.b_map i = false ∧ (∀ j, j < i → s.b_map j = true) ∧ (alloc c s).2.b_map i = true ∧
        ∀ j, j ≠ i → (alloc c s).2.b_map j = s.b_map j)) := by
  have hm : ¬ ((-1 : Int) = -1) → False := fun h => h rfl
  constructor
  · rcases iallocLoop_spec s s.sblock.numInodes.toNat 0 with
      ⟨h1, h2⟩ | ⟨i, t, _, hi, hfree, hlow, h1, _, t2, _⟩
    · have e : ialloc s = (-1, s) := h1
      rw [e]
      exact ⟨⟨fun _ j hj => h2 j (Nat.zero_le j) (by omega), fun _ => rfl⟩, fun _ => rfl,
        fun h => absurd rfl h⟩
    · have e : ialloc s = ((i : Int), t) := h1
      rw [e]
      have hne : ¬ ((i : Int) = -1) := by omega
      refine ⟨⟨fun h => absurd h hne, fun h => ?_⟩, fun h => absurd h hne, fun _ =>
        ⟨i, rfl, by omega, hfree, fun j hj => hlow j (Nat.zero_le j) hj, ?_, ?_⟩⟩
      · have := h i (by omega)
        rw [hfree] at this
        exact Bool.noConfusion this
      · show t.i_map i = true
        rw [t2, upd_same]
      · intro j hj
        show t.i_map j = s.i_map j
        rw [t2, upd_other _ _ _ _ hj]
  · rcases allocLoop_spec c s s.sblock.numDataBlocks.toNat 0 with
      ⟨h1, h2⟩ | ⟨i, t, _, hi, hfree, hlow, h1, _, _, t3, _⟩
    · have e : alloc c s = (-1, s) := h1
      rw [e]
      exact ⟨⟨fun _ j hj => h2 j (Nat.zero_le j) (by omega), fun _ => rfl⟩, fun _ => rfl,
        fun h => absurd rfl h⟩
    · have e : alloc c s = ((i : Int), t) := by
        rcases h1 with h1 | h1
        · exfalso
          have hk := allocLoop_full c s hw s.sblock.numDataBlocks.toNat 0
            (by rw [h1]) i (Nat.zero_le i) hi
          rw [hfree] at hk
          exact Bool.noConfusion hk
        · exact h1
      rw [e]
      have hne : ¬ ((i : Int) = -1) := by omega
      refine ⟨⟨fun h => absurd h hne, fun h => ?_⟩, fun h => absurd h hne, fun _ =>
        ⟨i, rfl, by omega, hfree, fun j hj => hlow j (Nat.zero_le j) hj, ?_, ?_⟩⟩
      · have := h i (by omega)
        rw [hfree] at this
        exact Bool.noConfusion this
      · show t.b_map i = true
        rw [t3, upd_same]
      · intro j hj
        show t.b_map j = s.b_map j
        rw [t3, upd_other _ _ _ _ hj]

theorem freshState_writes (i : Nat) :
    bwrite stdConfig freshState.disk ((i : Int) + freshState.sblock.firstDataBlock)
      (fun _ => 0) ≠ none := by
  have hf : freshState.disk.faulty = fun _ => false := rfl
  have hb : freshState.sblock.firstDataBlock = 6 := by decide
  unfold bwrite
  rw [hf, hb, if_neg (by simp; omega)]
  simp

/-- C18 in the fresh file system: both allocators return index 0, the least free one. -/
theorem first_fit_witness :
    ((ialloc freshState).1 ≠ -1 →
      ∃ i : Nat, (ialloc freshState).1 = (i : Int) ∧ (i : Int) < freshState.sblock.numInodes ∧
        freshState.i_map i = false ∧ (∀ j, j < i → freshState.i_map j = true) ∧
        (ialloc freshState).2.i_map i = true ∧
        ∀ j, j ≠ i → (ialloc freshState).2.i_map j = freshState.i_map j) ∧
    ((alloc stdConfig freshState).1 ≠ -1 →
      ∃ i : Nat, (alloc stdConfig freshState).1 = (i : Int) ∧
        (i : Int) < freshState.sblock.numDataBlocks ∧
        freshState.b_map i = false ∧ (∀ j, j < i → freshState.b_map j = true) ∧
        (alloc stdConfig freshState).2.b_map i = true ∧
        ∀ j, j ≠ i → (alloc stdConfig freshState).2.b_map j = freshState.b_map j) ∧
    (ialloc freshState).1 = 0 ∧ (alloc stdConfig freshState).1 = 0 :=
  ⟨(first_fit stdConfig freshState freshState_writes).1.2.2,
    (first_fit stdConfig freshState freshState_writes).2.2.2, by decide, by decide⟩

/-- C14: for an opened FILE descriptor with position `p` and declared size `S`, and seek codes
that are three different numbers: `lseekFile` with BEGIN returns 0 and sets the position to 0;
with END it returns 0 and sets the position to `S`; with CURRENT and an offset `o` whose sum
`p + o` is a `long`, it returns 0 and sets the position to `p + o` when `0 <= p + o <= S` and
otherwise returns -1 with the state as it was (so at `p = 0` the offset -1 is refused); any
other `whence` returns -1 with the state as it was.  A successful call changes nothing but
the position. -/
theorem lseekFile_spec (c : Config) (s : FS) (fd : Nat) (o whence : Int)
    (hfd : (fd : Int) < s.sblock.numInodes) (ht : (s.inodes fd).type = c.TYPE_FILE)
    (ho : (s.inodes_x fd).opened ≠ 0)
    (hbe : c.FS_SEEK_BEGIN ≠ c.FS_SEEK_END) (hbc : c.FS_SEEK_BEGIN ≠ c.FS_SEEK_CUR)
    (hec : c.FS_SEEK_END ≠ c.FS_SEEK_CUR) :
    (whence = c.FS_SEEK_BEGIN →
      lseekFile c s (fd : Int) o whence = some (0, withPosition s fd 0)) ∧
    (whence = c.FS_SEEK_END →
      lseekFile c s (fd : Int) o whence = some (0, withPosition s fd (s.inodes fd).size)) ∧
    (whence = c.FS_SEEK_CUR → LONG_MIN ≤ (s.inodes_x fd).position + o →
      (s.inodes_x fd).position + o ≤ LONG_MAX →
      ((0 ≤ (s.inodes_x fd).position + o ∧ (s.inodes_x fd).position + o ≤ (s.inodes fd).size →
          lseekFile c s (fd : Int) o whence =
            some (0, withPosition s fd ((s.inodes_x fd).position + o))) ∧
        (¬ (0 ≤ (s.inodes_x fd).position + o ∧
            (s.inodes_x fd).position + o ≤ (s.inodes fd).size) →
          lseekFile c s (fd : Int) o whence = some (-1, s)))) ∧
    (whence = c.FS_SEEK_CUR → (s.inodes_x fd).position = 0 → o = -1 →
      lseekFile c s (fd : Int) o whence = some (-1, s)) ∧
    (whence ≠ c.FS_SEEK_BEGIN → whence ≠ c.FS_SEEK_END → whence ≠ c.FS_SEEK_CUR →
      lseekFile c s (fd : Int) o whence = some (-1, s)) := by
  have h0 : ¬ ((fd : Int) ≥ s.sblock.numInodes ∨ (fd : Int) < 0) := by omega
  have hu : lseekFile c s (fd : Int) o whence =
      (if whence = c.FS_SEEK_BEGIN then
        some (0, withPosition s fd 0)
      else if whence = c.FS_SEEK_END then
        some (0, withPosition s fd (s.inodes fd).size)
      else if whence = c.FS_SEEK_CUR then
        if (s.inodes_x fd).position + o > LONG_MAX ∨ (s.inodes_x fd).position + o < LONG_MIN
        then none
        else if (s.inodes_x fd).position + o > (s.inodes fd).size then some (-1, s)
        else if (s.inodes_x fd).position + o < 0 then some (-1, s)
        else some (0, withPosition s fd ((s.inodes_x fd).position + o))
      else some (-1, s)) := by
    unfold lseekFile
    rw [if_neg h0, Int.toNat_ofNat, if_neg (not_not.2 ht), if_neg ho]
    rfl
  have hcur : ∀ (hw : whence = c.FS_SEEK_CUR), LONG_MIN ≤ (s.inodes_x fd).position + o →
      (s.inodes_x fd).position + o ≤ LONG_MAX →
      lseekFile c s (fd : Int) o whence =
        (if (s.inodes_x fd).position + o > (s.inodes fd).size then some (-1, s)
        else if (s.inodes_x fd).position + o < 0 then some (-1, s)
        else some (0, withPosition s fd ((s.inodes_x fd).position + o))) := by
    intro hw h1 h2
    rw [hu, if_neg (by rw [hw]; exact fun e => hbc e.symm),
      if_neg (by rw [hw]; exact fun e => hec e.symm), if_pos hw, if_neg (by omega)]
  refine ⟨fun hw => ?_, fun hw => ?_, fun hw h1 h2 => ⟨fun h3 => ?_, fun h3 => ?_⟩,
    fun hw hp ho1 => ?_, fun h1 h2 h3 => ?_⟩
  · rw [hu, if_pos hw]
  · rw [hu, if_neg (by rw [hw]; exact fun e => hbe e.symm), if_pos hw]
  · rw [hcur hw h1 h2, if_neg (by omega), if_neg (by omega)]
  · rw [hcur hw h1 h2]
    by_cases h4 : (s.inodes_x fd).position + o > (s.inodes fd).size
    · rw [if_pos h4]
    · rw [if_neg h4, if_pos (by omega)]
  · have h1 : LONG_MIN ≤ (s.inodes_x fd).position + o := by
      rw [hp, ho1]; decide
    have h2 : (s.inodes_x fd).position + o ≤ LONG_MAX := by
      rw [hp, ho1]; decide
    rw [hcur hw h1 h2]
    by_cases h4 : (s.inodes_x fd).position + o > (s.inodes fd).size
    · rw [if_pos h4]
    · rw [if_neg h4, if_pos (by rw [hp, ho1]; decide)]
  · rw [hu, if_neg h1, if_neg h2, if_neg h3]

/-- C14 on the opened file `/f` (position 0, size 2048): offset -1 from the current position
is refused, and a seek to the end sets the position to the declared size. -/
theorem lseekFile_spec_witness :
    lseekFile stdConfig openedState ((0 : Nat) : Int) (-1) stdConfig.FS_SEEK_CUR =
        some (-1, openedState) ∧
      lseekFile stdConfig openedState ((0 : Nat) : Int) 7 stdConfig.FS_SEEK_END =
        some (0, withPosition openedState 0 (openedState.inodes 0).size) :=
  ⟨(lseekFile_spec stdConfig openedState 0 (-1) stdConfig.FS_SEEK_CUR (by decide) (by decide)
      (by decide) (by decide) (by decide) (by decide)).2.2.2.1 rfl (by decide) rfl,
    (lseekFile_spec stdConfig openedState 0 7 stdConfig.FS_SEEK_END (by decide) (by decide)
      (by decide) (by decide) (by decide) (by decide)).2.1 rfl⟩

/-! ## Unmount -/

theorem unmountLoop_true (s : FS) :
    ∀ n i, unmountLoop s n i = true ↔ ∃ j, i ≤ j ∧ j < i + n ∧ (s.inodes_x j).opened = 1 := by
  intro n
  induction n with
  | zero =>
    intro i
    constructor
    · intro h; exact absurd h (by simp [unmountLoop])
    · rintro ⟨j, h1, h2, _⟩; omega
  | succ n ih =>
    intro i
    unfold unmountLoop
    by_cases h : (s.inodes_x i).opened = 1
    · rw [if_pos h]
      exact ⟨fun _ => ⟨i, le_refl i, by omega, h⟩, fun _ => rfl⟩
    · rw [if_neg h, ih (i + 1)]
      constructor
      · rintro ⟨j, h1, h2, h3⟩
        exact ⟨j, by omega, by omega, h3⟩
      · rintro ⟨j, h1, h2, h3⟩
        have hne : j ≠ i := fun e => h (e ▸ h3)
        exact ⟨j, by omega, by omega, h3⟩

/-- C13: when the writes of `syncFS` succeed, `unmountFS` returns -1 exactly when some slot
below `numInodes` has its open flag set (`opened == 1`, the value `openFile` stores), and
otherwise returns 0; when it returns -1 the state, device included, is the one before the
call. -/
theorem unmountFS_iff (c : Config) (s : FS) (hs : (syncFS c s).1 = 0) :
    ((unmountFS c s).1 = -1 ↔
      ∃ i : Nat, (i : Int) < s.sblock.numInodes ∧ (s.inodes_x i).opened = 1) ∧
    ((unmountFS c s).1 = -1 → (unmountFS c s).2 = s) ∧
    ((unmountFS c s).1 ≠ -1 → (unmountFS c s).1 = 0) := by
  have hl := unmountLoop_true s s.sblock.numInodes.toNat 0
  unfold unmountFS
  by_cases h : unmountLoop s s.sblock.numInodes.toNat 0 = true
  · rw [if_pos h]
    obtain ⟨j, _, h2, h3⟩ := hl.1 h
    exact ⟨⟨fun _ => ⟨j, by omega, h3⟩, fun _ => rfl⟩, fun _ => rfl, fun e => absurd rfl e⟩
  · rw [if_neg h]
    dsimp only
    rw [hs, if_neg (by decide)]
    have hz : ¬ ((0 : Int) = -1) := by decide
    refine ⟨⟨fun e => absurd e hz, ?_⟩, fun e => absurd e hz, fun _ => rfl⟩
    rintro ⟨j, h1, h2⟩
    exact absurd (hl.2 ⟨j, Nat.zero_le j, by omega, h2⟩) h

/-- C13 on the opened file of `openedState` (refused) and on `fileState` (accepted). -/
theorem unmountFS_iff_witness :
    unmountFS stdConfig openedState = (-1, openedState) ∧ (unmountFS stdConfig fileState).1 = 0 :=
  ⟨Prod.ext ((unmountFS_iff stdConfig openedState (by decide)).1.2 ⟨0, by decide, by decide⟩)
      ((unmountFS_iff stdConfig openedState (by decide)).2.1
        ((unmountFS_iff stdConfig openedState (by decide)).1.2 ⟨0, by decide, by decide⟩)),
    (unmountFS_iff stdConfig fileState (by decide)).2.2 (by decide)⟩

/-! ## Format -/

theorem mkFS_eq (c : Config) (s0 : FS) (deviceSize : Int) :
    mkFS c s0 deviceSize =
      (if deviceSize < 50 * 1024 then (-1, s0)
      else if deviceSize > 10 * 1048576 then (-1, s0)
      else if s0.disk.present = false then (-1, s0)
      else if (s0.disk.size : Int) < deviceSize then (-1, s0)
      else if dataBlocks c deviceSize < 0 then (-1, s0)
      else if (syncFS c (formatted c s0 deviceSize)).1 < 0 then
        (-1, (syncFS c (formatted c s0 deviceSize)).2)
      else (0, (syncFS c (formatted c s0 deviceSize)).2)) := by
  rfl

/-- A successful `mkFS` is `syncFS` applied to the state `formatted`, for a device size within
the bounds and a data-block count that is not negative. -/
theorem mkFS_ok (c : Config) (s0 s1 : FS) (deviceSize : Int)
    (h : mkFS c s0 deviceSize = (0, s1)) :
    50 * 1024 ≤ deviceSize ∧ deviceSize ≤ 10 * 1048576 ∧ 0 ≤ dataBlocks c deviceSize ∧
      ¬ (syncFS c (formatted c s0 deviceSize)).1 < 0 ∧
      s1 = (syncFS c (formatted c s0 deviceSize)).2 := by
  have hm : ∀ t : FS, ((-1 : Int), t) ≠ (0, s1) := by
    intro t e
    have hne : ¬ ((-1 : Int) = 0) := by decide
    exact absurd (congrArg Prod.fst e) hne
  rw [mkFS_eq] at h
  by_cases h1 : deviceSize < 50 * 1024
  · rw [if_pos h1] at h; exact absurd h (hm _)
  rw [if_neg h1] at h
  by_cases h2 : deviceSize > 10 * 1048576
  · rw [if_pos h2] at h; exact absurd h (hm _)
  rw [if_neg h2] at h
  by_cases h3 : s0.disk.present = false
  · rw [if_pos h3] at h; exact absurd h (hm _)
  rw [if_neg h3] at h
  by_cases h4 : (s0.disk.size : Int) < deviceSize
  · rw [if_pos h4] at h; exact absurd h (hm _)
  rw [if_neg h4] at h
  by_cases h5 : dataBlocks c deviceSize < 0
  · rw [if_pos h5] at h; exact absurd h (hm _)
  rw [if_neg h5] at h
  by_cases h6 : (syncFS c (formatted c s0 deviceSize)).1 < 0
  · rw [if_pos h6] at h; exact absurd h (hm _)
  rw [if_neg h6] at h
  exact ⟨by omega, by omega, by omega, h6, (congrArg Prod.snd h).symm⟩

theorem ceil_nonneg (a b : Int) (ha : 0 ≤ a) (hb : 0 ≤ b) : 0 ≤ ceilOfDivision a b := by
  unfold ceilOfDivision
  rw [Int.tdiv_eq_ediv ha hb]
  have h1 : 0 ≤ a / b := Int.ediv_nonneg ha hb
  split <;> omega

theorem ceil_bounds (a b : Int) (ha : 0 ≤ a) (hb : 0 < b) :
    a ≤ ceilOfDivision a b * b ∧ (ceilOfDivision a b - 1) * b < a := by
  unfold ceilOfDivision
  rw [Int.tdiv_eq_ediv ha (le_of_lt hb), Int.tmod_eq_emod ha (le_of_lt hb)]
  have h1 := Int.ediv_add_emod a b
  have h2 := Int.emod_nonneg a (ne_of_gt hb)
  have h3 := Int.emod_lt_of_pos a hb
  split
  · rename_i h4
    have h5 : 0 < a % b := lt_of_le_of_ne h2 (Ne.symm h4)
    constructor <;> nlinarith
  · rename_i h4
    have h5 : a % b = 0 := not_not.1 h4
    constructor <;> nlinarith

theorem ceil_neg (a b : Int) (ha : a < 0) (hb : 2 ≤ b) : a - ceilOfDivision a b < 0 := by
  unfold ceilOfDivision
  have e1 : Int.tdiv a b = -((-a) / b) := by
    have := Int.neg_tdiv (-a) b
    rw [neg_neg] at this
    rw [this, Int.tdiv_eq_ediv (by omega) (by omega)]
  rw [e1]
  have h1 := Int.ediv_add_emod (-a) b
  have h2 := Int.emod_nonneg (-a) (show b ≠ 0 by omega)
  have h3 : 0 ≤ (-a) / b := Int.ediv_nonneg (by omega) (by omega)
  have h4 : 2 * ((-a) / b) ≤ -a := by nlinarith
  split <;> omega

/-- C17: when `mkFS(deviceSize)` returns 0 (block size at least 2), the device size lies
between 50 KiB and 10 MiB and the data-block count computed is not negative; the superblock has
`firstInodeBlock = 1 + numINodeMapBlocks + numDataMapBlocks`,
`firstDataBlock = firstInodeBlock + inodeBlocks`, `numDataBlocks >= 0`,
`firstDataBlock + numDataBlocks` equal to the number of blocks of the device, which is the
least `q` with `q * BLOCK_SIZE >= deviceSize`, and
`numDataBlocks <= numDataMapBlocks * BLOCK_SIZE * 8`. -/
theorem mkFS_layout (c : Config) (s0 s1 : FS) (deviceSize : Int) (hB : 2 ≤ c.BLOCK_SIZE)
    (h : mkFS c s0 deviceSize = (0, s1)) :
    50 * 1024 ≤ deviceSize ∧ deviceSize ≤ 10 * 1048576 ∧ 0 ≤ dataBlocks c deviceSize ∧
    s1.sblock.numDataBlocks = dataBlocks c deviceSize ∧
    s1.sblock.firstInodeBlock = 1 + s1.sblock.numINodeMapBlocks + s1.sblock.numDataMapBlocks ∧
    s1.sblock.firstDataBlock = s1.sblock.firstInodeBlock + inodeBlocks c ∧
    0 ≤ s1.sblock.numDataBlocks ∧
    s1.sblock.firstDataBlock + s1.sblock.numDataBlocks = totalBlocks c deviceSize ∧
    deviceSize ≤ totalBlocks c deviceSize * c.BLOCK_SIZE ∧
    (totalBlocks c deviceSize - 1) * c.BLOCK_SIZE < deviceSize ∧
    s1.sblock.numDataBlocks ≤ s1.sblock.numDataMapBlocks * c.BLOCK_SIZE * 8 := by
  obtain ⟨h1, h2, h3, _, h5⟩ := mkFS_ok c s0 s1 deviceSize h
  have hsb : s1.sblock = (formatted c s0 deviceSize).sblock := by
    rw [h5]; exact (syncFS_mem c _).1
  have hbs : (2 : Int) ≤ (c.BLOCK_SIZE : Int) := by exact_mod_cast hB
  obtain ⟨t1, t2⟩ := ceil_bounds deviceSize c.BLOCK_SIZE (by omega) (by omega)
  have hx : 0 ≤ totalBlocks c deviceSize - 1 - inodeBlocks c - inodeMapBlocks c := by
    by_contra hneg
    have := ceil_neg (totalBlocks c deviceSize - 1 - inodeBlocks c - inodeMapBlocks c)
      c.BLOCK_SIZE (by omega) hbs
    have e : dataBlocks c deviceSize =
        (totalBlocks c deviceSize - 1 - inodeBlocks c - inodeMapBlocks c) -
          dataMapBlocks c deviceSize := by
      unfold dataBlocks; ring
    unfold dataMapBlocks at e
    omega
  obtain ⟨d1, _⟩ := ceil_bounds (totalBlocks c deviceSize - 1 - inodeBlocks c - inodeMapBlocks c)
    c.BLOCK_SIZE hx (by omega)
  have hd0 : 0 ≤ dataMapBlocks c deviceSize := ceil_nonneg _ _ hx (by omega)
  have hd1 : totalBlocks c deviceSize - 1 - inodeBlocks c - inodeMapBlocks c ≤
      dataMapBlocks c deviceSize * c.BLOCK_SIZE := d1
  rw [hsb]
  refine ⟨h1, h2, h3, rfl, rfl, ?_, h3, ?_, t1, t2, ?_⟩
  · show (1 : Int) + inodeMapBlocks c + dataMapBlocks c deviceSize + inodeBlocks c =
      1 + inodeMapBlocks c + dataMapBlocks c deviceSize + inodeBlocks c
    rfl
  · show (1 : Int) + inodeMapBlocks c + dataMapBlocks c deviceSize + inodeBlocks c +
      dataBlocks c deviceSize = totalBlocks c deviceSize
    unfold dataBlocks; ring
  · show dataBlocks c deviceSize ≤ dataMapBlocks c deviceSize * c.BLOCK_SIZE * 8
    have e : dataBlocks c deviceSize =
        (totalBlocks c deviceSize - 1 - inodeBlocks c - inodeMapBlocks c) -
          dataMapBlocks c deviceSize := by
      unfold dataBlocks; ring
    nlinarith

/-- C17 for the device of 50 KiB formatted at process start: 25 blocks, of which 19 hold
data. -/
theorem mkFS_layout_witness :
    (50 * 1024 ≤ (51200 : Int) ∧ (51200 : Int) ≤ 10 * 1048576 ∧ 0 ≤ dataBlocks stdConfig 51200 ∧
    freshState.sblock.numDataBlocks = dataBlocks stdConfig 51200 ∧
    freshState.sblock.firstInodeBlock =
      1 + freshState.sblock.numINodeMapBlocks + freshState.sblock.numDataMapBlocks ∧
    freshState.sblock.firstDataBlock = freshState.sblock.firstInodeBlock + inodeBlocks stdConfig ∧
    0 ≤ freshState.sblock.numDataBlocks ∧
    freshState.sblock.firstDataBlock + freshState.sblock.numDataBlocks =
      totalBlocks stdConfig 51200 ∧
    (51200 : Int) ≤ totalBlocks stdConfig 51200 * stdConfig.BLOCK_SIZE ∧
    (totalBlocks stdConfig 51200 - 1) * stdConfig.BLOCK_SIZE < 51200 ∧
    freshState.sblock.numDataBlocks ≤
      freshState.sblock.numDataMapBlocks * stdConfig.BLOCK_SIZE * 8) ∧
    totalBlocks stdConfig 51200 = 25 ∧ freshState.sblock.numDataBlocks = 19 :=
  ⟨mkFS_layout stdConfig bootState freshState 51200 (by decide) rfl, by decide, by decide⟩

/-! ## Stored paths -/

theorem reachable_leakState : Reachable stdConfig leakState :=
  reachable_afterCreate _ _ _ (reachable_afterCreate _ _ _ reachable_fullState)

/-- C20 (path uniqueness): `leakState` is reached from a format by 19 successful and 2 rejected
calls of `createFile`.  The two rejected calls ("no data blocks available") have left the
inodes 19 and 20 allocated with zeroed records: two distinct allocated inodes hold the same
stored path, the empty string. -/
theorem leaked_inodes_share_path :
    Reachable stdConfig leakState ∧
    (createFile stdConfig fullState (some "/t".toList)).map (fun r => (r.1, r.2.1)) =
      some (-2, some Diag.noDataBlocks) ∧
    (createFile stdConfig (afterCreate stdConfig fullState "/t".toList)
        (some "/u".toList)).map (fun r => (r.1, r.2.1)) =
      some (-2, some Diag.noDataBlocks) ∧
    leakState.sblock.numInodes = 40 ∧
    leakState.i_map 19 = true ∧ leakState.i_map 20 = true ∧
    (leakState.inodes 19).name = (leakState.inodes 20).name ∧
    (leakState.inodes 19).name = [] :=
  ⟨reachable_leakState, by decide!⟩

/-! ## Stored names are unique in every reachable state -/

theorem erase_refl (s : FS) : Erase s s :=
  ⟨rfl, fun _ => Or.inl rfl⟩

theorem erase_trans {s t u : FS} (h1 : Erase s t) (h2 : Erase t u) : Erase s u := by
  refine ⟨h2.1.trans h1.1, fun i => ?_⟩
  rcases h2.2 i with h3 | h3
  · rcases h1.2 i with h4 | h4
    · exact Or.inl (h3.trans h4)
    · exact Or.inr (h3.trans h4)
  · exact Or.inr h3

theorem erase_of_same {s t : FS} (h1 : t.sblock = s.sblock) (h3 : t.inodes = s.inodes) :
    Erase s t :=
  ⟨h1, fun i => Or.inl (by rw [h3])⟩

theorem erase_zero {s t : FS} (k : Nat) (h1 : t.sblock = s.sblock)
    (h3 : t.inodes = upd s.inodes k zeroInode) : Erase s t := by
  refine ⟨h1, fun i => ?_⟩
  by_cases hk : i = k
  · right; rw [h3, hk]; exact upd_same _ _ _
  · left; rw [h3]; exact upd_other _ _ _ _ hk

theorem erase_sync (c : Config) {s t : FS} (h : Erase s t) : Erase s (syncFS c t).2 := by
  obtain ⟨m1, _, _, m4, _⟩ := syncFS_mem c t
  exact erase_trans h (erase_of_same m1 m4)

theorem tidy_erase {s t : FS} (h : Tidy s) (he : Erase s t) : Tidy t := by
  intro i hi
  rw [he.1] at hi
  rcases he.2 i with h1 | h1
  · rcases h i hi with h2 | ⟨h2, h3⟩
    · exact Or.inl (h1.trans h2)
    · right
      rw [h1]
      refine ⟨h2, fun j hj hn => ?_⟩
      rw [he.1] at hj
      rcases he.2 j with h4 | h4
      · rw [h4] at hn; exact h3 j hj hn
      · rw [h4] at hn
        exact absurd hn.symm h2
  · exact Or.inl h1

/-- A record with a new non-empty name put into a slot keeps the names unique. -/
theorem tidy_put {s t : FS} (k : Nat) (r : Inode) (h : Tidy s)
    (hr : r.name ≠ []) (hnew : ∀ j : Nat, (j : Int) < s.sblock.numInodes →
      (s.inodes j).name ≠ r.name)
    (h1 : t.sblock = s.sblock) (h3 : t.inodes = upd s.inodes k r) : Tidy t := by
  intro i hi
  rw [h1] at hi
  rw [h1, h3]
  by_cases hk : i = k
  · right
    rw [hk, upd_same]
    refine ⟨hr, fun j hj hn => ?_⟩
    by_cases hjk : j = k
    · exact hjk
    · rw [upd_other _ _ _ _ hjk] at hn
      exact absurd hn (hnew j hj)
  · rw [upd_other _ _ _ _ hk]
    rcases h i hi with h2 | ⟨h2, h4⟩
    · exact Or.inl h2
    · right
      refine ⟨h2, fun j hj hn => ?_⟩
      by_cases hjk : j = k
      · rw [hjk, upd_same] at hn
        exact absurd hn.symm (hnew i hi)
      · rw [upd_other _ _ _ _ hjk] at hn
        exact h4 j hj hn

theorem namei_neg (s : FS) (p : List Char) (h : namei s (some p) < 0) :
    ∀ j : Nat, (j : Int) < s.sblock.numInodes → (s.inodes j).name ≠ p := by
  intro j hj
  exact nameiLoop_neg s p _ 0 h j (Nat.zero_le j) (by omega)

theorem ialloc_erase (s : FS) : Erase s (ialloc s).2 := by
  rcases ialloc_cases s with h | ⟨k, t, h, _, _, t1, _, _, t4, _, _⟩
  · rw [h]; exact erase_refl s
  · rw [h]; exact erase_zero k t1 t4

theorem createFileAlloc_tidy (c : Config) (s : FS) (p : List Char) (fid : Int) (h : Tidy s)
    (hz : FreeZero s) (hn : namei s (some p) < 0) : Tidy (createFileAlloc c s p fid).2.2 := by
  have hnew := namei_neg s p hn
  unfold createFileAlloc
  dsimp only
  by_cases h1 : (ialloc s).1 < 0
  · rw [if_pos h1]
    exact tidy_erase h (ialloc_erase s)
  rw [if_neg h1]
  obtain ⟨a1, a2, a3, _⟩ := alloc_same c (ialloc s).2
  by_cases h2 : (alloc c (ialloc s).2).1 < 0
  · rw [if_pos h2]
    exact tidy_erase h (erase_trans (ialloc_erase s) (erase_of_same a1 a3))
  rw [if_neg h2]
  rcases ialloc_cases s with e | ⟨k, t, e, hk, hfree, t1, _, _, t4, _, _⟩
  · rw [e] at h1
    exact absurd (show ((-1 : Int) < 0) by decide) h1
  have hpe : p ≠ [] := by
    intro e0
    have := hnew k hk
    rw [hz k hk hfree, e0] at this
    exact this rfl
  have hfin : ∀ (x : Int × FS) (r : Inode), x.2.sblock = s.sblock →
      x.2.inodes = upd s.inodes k r → r.name = p →
      Tidy (if x.1 < 0 then ((-2 : Int), some Diag.syncFailed, x.2) else (0, none, x.2)).2.2 := by
    intro x r hx1 hx2 hr
    have ht : Tidy x.2 := tidy_put k r h (by rw [hr]; exact hpe) (by rw [hr]; exact hnew) hx1 hx2
    by_cases hc : x.1 < 0
    · rw [if_pos hc]; exact ht
    · rw [if_neg hc]; exact ht
  refine hfin _ (Inode.mk fid c.TYPE_FILE p (alloc c (ialloc s).2).1 c.MAX_FILE_SIZE) ?_ ?_ rfl
  · rw [(syncFS_mem c _).1]
    dsimp only
    rw [a1, e]
    exact t1
  · rw [(syncFS_mem c _).2.2.2.1]
    dsimp only
    rw [a3, e]
    dsimp only
    rw [t4, Int.toNat_ofNat, upd_upd]

theorem mkDirAlloc_tidy (c : Config) (s : FS) (p : List Char) (fid : Int) (h : Tidy s)
    (hz : FreeZero s) (hn : namei s (some p) < 0) : Tidy (mkDirAlloc c s p fid).2.2 := by
  have hnew := namei_neg s p hn
  unfold mkDirAlloc
  dsimp only
  by_cases h1 : (ialloc s).1 < 0
  · rw [if_pos h1]
    exact tidy_erase h (ialloc_erase s)
  rw [if_neg h1]
  rcases ialloc_cases s with e | ⟨k, t, e, hk, hfree, t1, _, _, t4, _, _⟩
  · rw [e] at h1
    exact absurd (show ((-1 : Int) < 0) by decide) h1
  have hpe : p ≠ [] := by
    intro e0
    have := hnew k hk
    rw [hz k hk hfree, e0] at this
    exact this rfl
  have hfin : ∀ (x : Int × FS) (r : Inode), x.2.sblock = s.sblock →
      x.2.inodes = upd s.inodes k r → r.name = p →
      Tidy (if x.1 < 0 then ((-2 : Int), some Diag.syncFailed, x.2) else (0, none, x.2)).2.2 := by
    intro x r hx1 hx2 hr
    have ht : Tidy x.2 := tidy_put k r h (by rw [hr]; exact hpe) (by rw [hr]; exact hnew) hx1 hx2
    by_cases hc : x.1 < 0
    · rw [if_pos hc]; exact ht
    · rw [if_neg hc]; exact ht
  refine hfin _ (Inode.mk fid c.TYPE_FOLDER p ((ialloc s).2.inodes (ialloc s).1.toNat).dataBlockPos
    ((ialloc s).2.inodes (ialloc s).1.toNat).size) ?_ ?_ rfl
  · rw [(syncFS_mem c _).1]
    dsimp only
    rw [e]
    exact t1
  · rw [(syncFS_mem c _).2.2.2.1]
    dsimp only
    rw [e]
    dsimp only
    rw [t4, Int.toNat_ofNat, upd_upd]

theorem createFile_tidy (c : Config) (s s1 : FS) (path : Option (List Char)) (r : Int)
    (d : Option Diag) (ht : Tidy s) (hz : FreeZero s)
    (h : createFile c s path = some (r, d, s1)) : Tidy s1 := by
  unfold createFile at h
  have key : ∀ p fid, namei s (some p) < 0 →
      some (createFileAlloc c s p fid) = some (r, d, s1) → Tidy s1 := by
    intro p fid hn e
    have e2 := Option.some.inj e
    have := createFileAlloc_tidy c s p fid ht hz hn
    rw [e2] at this
    exact this
  have triv : ∀ (a : Int) (b : Option Diag), some (a, b, s) = some (r, d, s1) → Tidy s1 := by
    intro a b e
    have e2 := Option.some.inj e
    simp only [Prod.mk.injEq] at e2
    rw [← e2.2.2]
    exact ht
  repeat' split at h
  all_goals try dsimp only at h
  all_goals repeat' split at h
  all_goals first
    | exact triv _ _ h
    | exact key _ _ (by omega) h
    | exact absurd h (by simp)

theorem mkDir_tidy (c : Config) (s s1 : FS) (path : Option (List Char)) (r : Int)
    (d : Option Diag) (ht : Tidy s) (hz : FreeZero s)
    (h : mkDir c s path = some (r, d, s1)) : Tidy s1 := by
  unfold mkDir at h
  have key : ∀ p fid, namei s (some p) < 0 →
      some (mkDirAlloc c s p fid) = some (r, d, s1) → Tidy s1 := by
    intro p fid hn e
    have e2 := Option.some.inj e
    have := mkDirAlloc_tidy c s p fid ht hz hn
    rw [e2] at this
    exact this
  have triv : ∀ (a : Int) (b : Option Diag), some (a, b, s) = some (r, d, s1) → Tidy s1 := by
    intro a b e
    have e2 := Option.some.inj e
    simp only [Prod.mk.injEq] at e2
    rw [← e2.2.2]
    exact ht
  repeat' split at h
  all_goals try dsimp only at h
  all_goals repeat' split at h
  all_goals first
    | exact triv _ _ h
    | exact key _ _ (by omega) h
    | exact absurd h (by simp)

/-- Zeroing the record of an inode and freeing it, as `removeFile` and `rmDir` do. -/
theorem ifree_zero_erase (s t : FS) (inode_id : Int) (h1 : t.sblock = s.sblock)
    (h3 : t.inodes = s.inodes) :
    Erase s (ifree { t with inodes := upd t.inodes inode_id.toNat zeroInode } inode_id).2 := by
  unfold ifree
  split
  · exact erase_zero inode_id.toNat h1 (by simp [h3])
  · exact erase_zero inode_id.toNat h1 (by simp [h3])

theorem removeFile_erase (c : Config) (s : FS) (path : Option (List Char)) :
    Erase s (removeFile c s path).2 := by
  cases path with
  | none => exact erase_refl s
  | some p =>
    unfold removeFile
    dsimp only
    obtain ⟨b1, _, b3, _, _⟩ := bfree_same s (s.inodes (namei s (some p)).toNat).dataBlockPos
    have hrel := ifree_zero_erase s _ (namei s (some p)) b1 b3
    split
    · exact erase_refl s
    · split
      · exact erase_refl s
      · split
        · exact erase_refl s
        · split
          · exact erase_of_same b1 b3
          · split
            · exact hrel
            · split
              · exact erase_sync c hrel
              · exact erase_sync c hrel

theorem rmDirLoop_erase (c : Config) (rmDirRec : FS → Option (List Char) → Option (Int × FS))
    (inode_id : Int) (hrec : ∀ s p r, rmDirRec s p = some r → Erase s r.2) :
    ∀ n i s t, rmDirLoop c rmDirRec inode_id n i s = some t → Erase s t := by
  intro n
  induction n with
  | zero =>
    intro i s t h
    unfold rmDirLoop at h
    rw [← Option.some.inj h]
    exact erase_refl s
  | succ n ih =>
    intro i s t h
    unfold rmDirLoop at h
    split at h
    · split at h
      · split at h
        · exact absurd h (by simp)
        · rename_i r hr
          exact erase_trans (hrec _ _ _ hr) (ih _ _ _ h)
      · exact erase_trans (removeFile_erase c s _) (ih _ _ _ h)
    · exact ih _ _ _ h

theorem rmDir_erase (c : Config) :
    ∀ fuel s path r, rmDir c fuel s path = some r → Erase s r.2 := by
  intro fuel
  induction fuel with
  | zero =>
    intro s path r h
    unfold rmDir at h
    exact absurd h (by simp)
  | succ fuel ih =>
    intro s path r h
    cases path with
    | none =>
      unfold rmDir at h
      rw [← Option.some.inj h]
      exact erase_refl s
    | some p =>
      unfold rmDir at h
      dsimp only at h
      split at h
      · rw [← Option.some.inj h]; exact erase_refl s
      · split at h
        · rw [← Option.some.inj h]; exact erase_refl s
        · split at h
          · exact absurd h (by simp)
          · rename_i s1 hloop
            have h1 : Erase s s1 := rmDirLoop_erase c (rmDir c fuel) _ ih _ _ _ _ hloop
            obtain ⟨b1, _, b3, _, _⟩ :=
              bfree_same s1 (s1.inodes (namei s (some p)).toNat).dataBlockPos
            have hrel := ifree_zero_erase s1 _ (namei s (some p)) b1 b3
            split at h
            · rw [← Option.some.inj h]; exact erase_trans h1 (erase_of_same b1 b3)
            · split at h
              · rw [← Option.some.inj h]; exact erase_trans h1 hrel
              · split at h
                · rw [← Option.some.inj h]; exact erase_trans h1 (erase_sync c hrel)
                · rw [← Option.some.inj h]; exact erase_trans h1 (erase_sync c hrel)

theorem openFile_erase (c : Config) (s : FS) (path : Option (List Char)) :
    Erase s (openFile c s path).2 := by
  unfold openFile
  iterate 6 (all_goals (try (first | split | dsimp only)))
  all_goals exact erase_refl s

theorem closeFile_erase (c : Config) (s : FS) (fd : Int) : Erase s (closeFile c s fd).2 := by
  unfold closeFile
  iterate 4 (all_goals (try (first | split | dsimp only)))
  all_goals exact erase_refl s

theorem optErase_none {α : Type} (s : FS) (proj : α → FS) : OptErase s proj none := by
  intro r e
  cases e

theorem optErase_some {α : Type} (s : FS) (proj : α → FS) (x : α) (h : Erase s (proj x)) :
    OptErase s proj (some x) := by
  intro r e
  cases e
  exact h

theorem optErase_ite {α : Type} (s : FS) (proj : α → FS) (p : Prop) [Decidable p]
    (x y : Option α) (hx : OptErase s proj x) (hy : OptErase s proj y) :
    OptErase s proj (if p then x else y) := by
  by_cases h : p
  · rw [if_pos h]; exact hx
  · rw [if_neg h]; exact hy

theorem readFile_optErase (c : Config) (s : FS) (fd : Int) (buffer : List Nat) (numBytes : Int) :
    OptErase s (fun r : Int × FS × List Nat => r.2.1) (readFile c s fd buffer numBytes) := by
  unfold readFile
  repeat' first
    | exact optErase_none _ _
    | exact optErase_some _ _ _ (erase_refl s)
    | apply optErase_ite
    | split
    | (dsimp only; split)

theorem writeFile_optErase (c : Config) (s : FS) (fd : Int) (buffer : List Nat)
    (numBytes : Int) :
    OptErase s (fun r : Int × FS => r.2) (writeFile c s fd buffer numBytes) := by
  unfold writeFile
  repeat' first
    | exact optErase_none _ _
    | exact optErase_some _ _ _ (erase_refl s)
    | apply optErase_ite
    | split
    | (dsimp only; split)

theorem lseekFile_optErase (c : Config) (s : FS) (fd offset whence : Int) :
    OptErase s (fun r : Int × FS => r.2) (lseekFile c s fd offset whence) := by
  unfold lseekFile
  repeat' first
    | exact optErase_none _ _
    | exact optErase_some _ _ _ (erase_refl s)
    | apply optErase_ite

theorem mkFS_tidy (c : Config) (s0 s : FS) (deviceSize : Int)
    (h : mkFS c s0 deviceSize = (0, s)) : Tidy s := by
  obtain ⟨_, _, _, _, h5⟩ := mkFS_ok c s0 s deviceSize h
  intro i hi
  left
  rw [h5] at hi ⊢
  rw [(syncFS_mem c _).1] at hi
  rw [(syncFS_mem c _).2.2.2.1]
  have hi2 : (i : Int) < (c.MAX_FILES : Int) := hi
  exact zeroLoop_spec _ _ 0 i (Nat.zero_le i) (by
    have : ((c.MAX_FILES : Int)).toNat = c.MAX_FILES := Int.toNat_ofNat _
    rw [this]; omega)

/-- In every reachable state a slot holds a zeroed record or a non-empty name of its own. -/
theorem reachable_tidy (c : Config) (s : FS) (h : Reachable c s) : Tidy s := by
  induction h with
  | format s0 s deviceSize hf => exact mkFS_tidy c s0 s deviceSize hf
  | createFile s s1 path r d hr hc ih =>
    exact createFile_tidy c s s1 path r d ih (reachable_freeZero c s hr) hc
  | removeFile s path _ ih => exact tidy_erase ih (removeFile_erase c s path)
  | openFile s path _ ih => exact tidy_erase ih (openFile_erase c s path)
  | closeFile s fd _ ih => exact tidy_erase ih (closeFile_erase c s fd)
  | readFile s s1 fd buffer out numBytes r _ hc ih =>
    exact tidy_erase ih (readFile_optErase c s fd buffer numBytes _ hc)
  | writeFile s s1 fd buffer numBytes r _ hc ih =>
    exact tidy_erase ih (writeFile_optErase c s fd buffer numBytes _ hc)
  | lseekFile s s1 fd offset whence r _ hc ih =>
    exact tidy_erase ih (lseekFile_optErase c s fd offset whence _ hc)
  | mkDir s s1 path r d hr hc ih =>
    exact mkDir_tidy c s s1 path r d ih (reachable_freeZero c s hr) hc
  | rmDir s s1 fuel path r _ hc ih => exact tidy_erase ih (rmDir_erase c fuel s path _ hc)

theorem nameiLoop_found (s : FS) (f : List Char) :
    ∀ n i, 0 ≤ nameiLoop s f n i →
      ∃ k : Nat, nameiLoop s f n i = (k : Int) ∧ i ≤ k ∧ k < i + n ∧ (s.inodes k).name = f := by
  intro n
  induction n with
  | zero =>
    intro i h
    have hm : ¬ ((0 : Int) ≤ -1) := by decide
    exact absurd h hm
  | succ n ih =>
    intro i h
    unfold nameiLoop at h ⊢
    by_cases hc : (s.inodes i).name = f
    · rw [if_pos hc]
      exact ⟨i, rfl, Nat.le_refl i, by omega, hc⟩
    · rw [if_neg hc] at h ⊢
      obtain ⟨k, e, h1, h2, h3⟩ := ih (i + 1) h
      exact ⟨k, e, by omega, by omega, h3⟩

/-- The slot that holds a given name of a file is the answer of `namei`. -/
theorem namei_of_tidy (c : Config) (s : FS) (p : List Char) (i : Nat) (ht : Tidy s)
    (hp : p ≠ [] ∨ c.TYPE_FILE ≠ 0) (hi : (i : Int) < s.sblock.numInodes)
    (hn : (s.inodes i).name = p) (hty : (s.inodes i).type = c.TYPE_FILE) :
    namei s (some p) = (i : Int) := by
  rcases ht i hi with hz | ⟨_, huniq⟩
  · rw [hz] at hn hty
    rcases hp with hp | hp
    · exact absurd hn.symm hp
    · exact absurd hty.symm hp
  · have e : namei s (some p) = nameiLoop s p s.sblock.numInodes.toNat 0 := rfl
    rw [e]
    refine nameiLoop_first s p i _ 0 (Nat.zero_le i) (by omega) hn (fun j _ hj hj2 => ?_)
    have := huniq j (by omega) (hj2.trans hn.symm)
    omega

/-- In a reachable state, for a path that is not empty (or when the type code `TYPE_FILE` is
not 0), `openFile(path)` returns a value >= 0 exactly when the path is the stored path of an
allocated inode of type FILE whose open flag is clear; the value returned is then the id of
that inode and the only change of the state is the entry of that inode in the open-file table,
which becomes opened at position 0. -/
theorem openFile_iff (c : Config) (s : FS) (p : List Char) (hr : Reachable c s)
    (hp : p ≠ [] ∨ c.TYPE_FILE ≠ 0) :
    ((openFile c s (some p)).1 ≥ 0 ↔
      ∃ i : Nat, (i : Int) < s.sblock.numInodes ∧ s.i_map i = true ∧ (s.inodes i).name = p ∧
        (s.inodes i).type = c.TYPE_FILE ∧ (s.inodes_x i).opened = 0) ∧
    (∀ i : Nat, (i : Int) < s.sblock.numInodes → s.i_map i = true → (s.inodes i).name = p →
      (s.inodes i).type = c.TYPE_FILE → (s.inodes_x i).opened = 0 →
      openFile c s (some p) = ((i : Int), withEntry s i { position := 0, opened := 1 })) := by
  have ht := reachable_tidy c s hr
  have hz := reachable_freeZero c s hr
  have part2 : ∀ i : Nat, (i : Int) < s.sblock.numInodes → s.i_map i = true →
      (s.inodes i).name = p → (s.inodes i).type = c.TYPE_FILE → (s.inodes_x i).opened = 0 →
      openFile c s (some p) = ((i : Int), withEntry s i { position := 0, opened := 1 }) := by
    intro i hi _ hn hty ho
    have e := namei_of_tidy c s p i ht hp hi hn hty
    unfold openFile
    dsimp only
    rw [e]
    have h0 : ¬ ((i : Int) < 0) := by omega
    rw [if_neg h0, Int.toNat_ofNat, if_neg (not_not.2 hty), if_neg (not_not.2 ho)]
    rfl
  refine ⟨⟨fun h => ?_, fun ⟨i, hi, hm, hn, hty, ho⟩ => ?_⟩, part2⟩
  · have hm1 : ¬ ((-1 : Int) ≥ 0) := by decide
    have hm2 : ¬ ((-2 : Int) ≥ 0) := by decide
    unfold openFile at h
    dsimp only at h
    by_cases h1 : namei s (some p) < 0
    · rw [if_pos h1] at h; exact absurd h hm1
    rw [if_neg h1] at h
    by_cases h2 : (s.inodes (namei s (some p)).toNat).type ≠ c.TYPE_FILE
    · rw [if_pos h2] at h; exact absurd h hm2
    rw [if_neg h2] at h
    by_cases h3 : (s.inodes_x (namei s (some p)).toNat).opened ≠ 0
    · rw [if_pos h3] at h; exact absurd h hm2
    obtain ⟨k, e, _, hk, hn⟩ := nameiLoop_found s p s.sblock.numInodes.toNat 0 (by
      have e : namei s (some p) = nameiLoop s p s.sblock.numInodes.toNat 0 := rfl
      rw [← e]; omega)
    have e2 : namei s (some p) = (k : Int) := e
    rw [e2, Int.toNat_ofNat] at h2 h3
    have hk2 : (k : Int) < s.sblock.numInodes := by omega
    refine ⟨k, hk2, ?_, hn, not_not.1 h2, not_not.1 h3⟩
    cases hb : s.i_map k with
    | true => rfl
    | false =>
      have hzero := hz k hk2 hb
      rw [hzero] at hn h2
      rcases hp with hp | hp
      · exact absurd hn.symm hp
      · exact absurd (not_not.1 h2).symm hp
  · rw [part2 i hi hm hn hty ho]
    exact Int.ofNat_nonneg i

theorem reachable_fileState : Reachable stdConfig fileState :=
  reachable_afterCreate _ _ _ reachable_freshState

/-- The lemma `openFile_iff` in `fileState`: `/f` is the stored path of inode 0, a closed file,
and `openFile("/f")` returns 0 and marks it opened at position 0. -/
theorem openFile_iff_witness :
    ((openFile stdConfig fileState (some "/f".toList)).1 ≥ 0 ↔
      ∃ i : Nat, (i : Int) < fileState.sblock.numInodes ∧ fileState.i_map i = true ∧
        (fileState.inodes i).name = "/f".toList ∧
        (fileState.inodes i).type = stdConfig.TYPE_FILE ∧ (fileState.inodes_x i).opened = 0) ∧
    openFile stdConfig fileState (some "/f".toList) =
      (0, withEntry fileState 0 { position := 0, opened := 1 }) :=
  ⟨(openFile_iff stdConfig fileState "/f".toList reachable_fileState
      (Or.inl (by decide))).1,
    (openFile_iff stdConfig fileState "/f".toList reachable_fileState
      (Or.inl (by decide))).2 0 (by decide) (by decide) (by decide) (by decide) (by decide)⟩

/-- C11 (defect): the fresh file system is a reachable state in which no inode is allocated,
yet `openFile("")` returns the descriptor 0 and marks slot 0 as opened.  The lookup `namei`
compares the path with the zeroed record of the free slot 0 and never consults the inode
bitmap; the type code of a zeroed record is 0, which is `TYPE_FILE` in this configuration. -/
theorem openFile_opens_free_slot :
    Reachable stdConfig freshState ∧
    freshState.sblock.numInodes = 40 ∧ (∀ i : Nat, i < 40 → freshState.i_map i = false) ∧
    stdConfig.TYPE_FILE = 0 ∧ freshState.inodes 0 = zeroInode ∧
    namei freshState (some []) = 0 ∧
    (openFile stdConfig freshState (some [])).1 = 0 ∧
    (freshState.inodes_x 0).opened = 0 ∧
    ((openFile stdConfig freshState (some [])).2.inodes_x 0).opened = 1 :=
  ⟨reachable_freshState, by decide, by decide, by decide, by decide, by decide, by decide,
    by decide, by decide⟩

/-! ## Persistence: `syncFS` followed by `mountFS` -/

theorem bwrite_ok (c : Config) (d d1 : Disk) (blk : Int) (buffer : Nat → Nat)
    (h : bwrite c d blk buffer = some d1) :
    0 ≤ blk ∧ d.faulty blk.toNat = false ∧ d1.faulty = d.faulty ∧
      (∀ j, j < c.BLOCK_SIZE → d1.blocks blk.toNat j = buffer j) ∧
      (∀ b : Nat, b ≠ blk.toNat → d1.blocks b = d.blocks b) := by
  unfold bwrite at h
  by_cases hc : blk < 0 ∨ d.faulty blk.toNat
  · rw [if_pos hc] at h; cases h
  · rw [if_neg hc] at h
    have e := Option.some.inj h
    rw [← e]
    dsimp only
    refine ⟨by omega, ?_, rfl, fun j hj => ?_, fun b hb => ?_⟩
    · cases hf : d.faulty blk.toNat with
      | false => rfl
      | true => exact absurd (Or.inr hf) hc
    · rw [upd_same, if_pos hj]
    · rw [upd_other _ _ _ _ hb]

theorem syncLoop_spec (c : Config) (image : Nat → Nat) (first : Int) :
    ∀ (n i : Nat) (d d1 : Disk), syncLoop c image first n i d = (true, d1) →
      d1.faulty = d.faulty ∧
      (∀ k : Nat, i ≤ k → k < i + n →
        0 ≤ first + k ∧ d.faulty (first + k).toNat = false ∧
          ∀ j : Nat, j < c.BLOCK_SIZE →
            d1.blocks (first + k).toNat j = image (k * c.BLOCK_SIZE + j)) ∧
      (∀ b : Nat, (∀ k : Nat, i ≤ k → k < i + n → b ≠ (first + k).toNat) →
        d1.blocks b = d.blocks b) := by
  intro n
  induction n with
  | zero =>
    intro i d d1 h
    unfold syncLoop at h
    have e : d = d1 := congrArg Prod.snd h
    rw [← e]
    exact ⟨rfl, fun k h1 h2 => by omega, fun b _ => rfl⟩
  | succ n ih =>
    intro i d d1 h
    unfold syncLoop at h
    cases hw : bwrite c d (first + i) (fun j => image (i * c.BLOCK_SIZE + j)) with
    | none =>
      rw [hw] at h
      have hm : ¬ (false = true) := by decide
      exact absurd (congrArg Prod.fst h) hm
    | some d0 =>
      rw [hw] at h
      obtain ⟨w1, w2, w3, w4, w5⟩ := bwrite_ok c d d0 _ _ hw
      obtain ⟨i1, i2, i3⟩ := ih (i + 1) d0 d1 h
      refine ⟨i1.trans w3, fun k h1 h2 => ?_, fun b hb => ?_⟩
      · by_cases hk : k = i
        · rw [hk]
          refine ⟨w1, w2, fun j hj => ?_⟩
          rw [i3 (first + i).toNat (fun k2 h3 _ => by omega)]
          exact w4 j hj
        · obtain ⟨a1, a2, a3⟩ := i2 k (by omega) (by omega)
          rw [w3] at a2
          exact ⟨a1, a2, a3⟩
      · rw [i3 b (fun k h1 h2 => hb k (by omega) (by omega))]
        exact w5 b (hb i (Nat.le_refl i) (by omega))

/-- The loop of `mountFS` over blocks that can be read and hold the bytes of `target`: the
region of memory receives `target` on the bytes of these blocks and keeps the rest. -/
theorem mountLoop_spec (c : Config) (d : Disk) (first : Int) (target : Nat → Nat) :
    ∀ (n i : Nat) (image : Nat → Nat),
      (∀ k : Nat, i ≤ k → k < i + n →
        0 ≤ first + k ∧ d.faulty (first + k).toNat = false ∧
          ∀ j : Nat, j < c.BLOCK_SIZE →
            d.blocks (first + k).toNat j = target (k * c.BLOCK_SIZE + j)) →
      ∃ img : Nat → Nat, mountLoop c d first n i image = (true, img) ∧
        ∀ off : Nat, img off =
          if i * c.BLOCK_SIZE ≤ off ∧ off < (i + n) * c.BLOCK_SIZE then target off
          else image off := by
  intro n
  induction n with
  | zero =>
    intro i image _
    refine ⟨image, rfl, fun off => ?_⟩
    rw [if_neg]
    intro hc
    have e : (i + 0) * c.BLOCK_SIZE = i * c.BLOCK_SIZE := rfl
    omega
  | succ n ih =>
    intro i image h
    obtain ⟨h1, h2, h3⟩ := h i (Nat.le_refl i) (by omega)
    have hb : bread d (first + i) = some (d.blocks (first + i).toNat) := by
      unfold bread
      rw [if_neg]
      intro hc
      rcases hc with hc | hc
      · omega
      · rw [h2] at hc; exact Bool.noConfusion hc
    obtain ⟨img, e1, e2⟩ := ih (i + 1)
      (fun off =>
        if i * c.BLOCK_SIZE ≤ off ∧ off < i * c.BLOCK_SIZE + c.BLOCK_SIZE
        then d.blocks (first + i).toNat (off - i * c.BLOCK_SIZE) else image off)
      (fun k k1 k2 => h k (by omega) (by omega))
    refine ⟨img, ?_, fun off => ?_⟩
    · unfold mountLoop
      rw [hb]
      exact e1
    · rw [e2 off]
      have a1 : (i + 1) * c.BLOCK_SIZE = i * c.BLOCK_SIZE + c.BLOCK_SIZE := Nat.succ_mul _ _
      have a2 : (i + 1 + n) * c.BLOCK_SIZE = (i + (n + 1)) * c.BLOCK_SIZE := by
        congr 1
        omega
      have a3 : (i + 1) * c.BLOCK_SIZE ≤ (i + (n + 1)) * c.BLOCK_SIZE :=
        Nat.mul_le_mul_right _ (by omega)
      rw [a2, a1]
      rw [a1] at a3
      by_cases hA : i * c.BLOCK_SIZE + c.BLOCK_SIZE ≤ off ∧ off < (i + (n + 1)) * c.BLOCK_SIZE
      · rw [if_pos hA, if_pos ⟨by omega, hA.2⟩]
      · rw [if_neg hA]
        by_cases hB : i * c.BLOCK_SIZE ≤ off ∧ off < i * c.BLOCK_SIZE + c.BLOCK_SIZE
        · rw [if_pos hB, if_pos ⟨hB.1, by omega⟩, h3 _ (by omega)]
          congr 1
          omega
        · rw [if_neg hB, if_neg]
          intro hC
          omega

/-- A successful `syncFS` is the chain of its four successful copies. -/
theorem syncFS_ok (c : Config) (s : FS) (h : (syncFS c s).1 = 0) :
    ∃ d0 d1 d2 d3 : Disk,
      bwrite c s.disk 0 (c.superBytes s.sblock) = some d0 ∧
      syncLoop c (c.mapBytes s.i_map) 1 s.sblock.numINodeMapBlocks.toNat 0 d0 = (true, d1) ∧
      syncLoop c (c.mapBytes s.b_map) (1 + s.sblock.numINodeMapBlocks)
        s.sblock.numDataMapBlocks.toNat 0 d1 = (true, d2) ∧
      syncLoop c (c.inodeBytes s.inodes) s.sblock.firstInodeBlock
        (ceilOfDivision (s.sblock.numInodes * c.SIZEOF_INODE) c.BLOCK_SIZE).toNat 0 d2 =
          (true, d3) ∧
      (syncFS c s).2 = { s with disk := d3 } := by
  have hm : ¬ ((-1 : Int) = 0) := by decide
  unfold syncFS at h ⊢
  cases e0 : bwrite c s.disk 0 (c.superBytes s.sblock) with
  | none => rw [e0] at h; exact absurd h hm
  | some d0 =>
    rw [e0] at h
    dsimp only at h ⊢
    rcases e1 : syncLoop c (c.mapBytes s.i_map) 1 s.sblock.numINodeMapBlocks.toNat 0 d0 with
      ⟨b1, d1⟩
    rw [e1] at h
    cases b1 with
    | false => exact absurd h hm
    | true =>
      dsimp only at h ⊢
      rcases e2 : syncLoop c (c.mapBytes s.b_map) (1 + s.sblock.numINodeMapBlocks)
        s.sblock.numDataMapBlocks.toNat 0 d1 with ⟨b2, d2⟩
      rw [e2] at h
      cases b2 with
      | false => exact absurd h hm
      | true =>
        dsimp only at h ⊢
        rcases e3 : syncLoop c (c.inodeBytes s.inodes) s.sblock.firstInodeBlock
          (ceilOfDivision (s.sblock.numInodes * c.SIZEOF_INODE) c.BLOCK_SIZE).toNat 0 d2 with
          ⟨b3, d3⟩
        rw [e3] at h
        cases b3 with
        | false => exact absurd h hm
        | true =>
          refine ⟨d0, d1, d2, d3, rfl, e1, e2, e3, ?_⟩
          rfl

/-- The answer of `mountFS` when every read succeeds. -/
theorem mountFS_of (c : Config) (dc : Decoding) (s : FS) (b : Nat → Nat) (sb : SuperBlock)
    (im bm it : Nat → Nat) (hb : bread s.disk 0 = some b)
    (hsb : dc.superOfBytes
      (fun off => if off < c.BLOCK_SIZE then b off else c.superBytes s.sblock off) = sb)
    (h1 : mountLoop c s.disk 1 sb.numINodeMapBlocks.toNat 0 (c.mapBytes s.i_map) = (true, im))
    (h2 : mountLoop c s.disk (1 + sb.numINodeMapBlocks) sb.numDataMapBlocks.toNat 0
      (c.mapBytes s.b_map) = (true, bm))
    (h3 : mountLoop c s.disk sb.firstInodeBlock
      (ceilOfDivision (sb.numInodes * c.SIZEOF_INODE) c.BLOCK_SIZE).toNat 0
      (c.inodeBytes s.inodes) = (true, it)) :
    mountFS c dc s =
      (0, FS.mk sb (dc.mapOfBytes im) (dc.mapOfBytes bm) (dc.inodesOfBytes it) s.inodes_x
        s.disk) := by
  unfold mountFS
  rw [hb]
  dsimp only
  rw [hsb, h1, h2, h3]
  rfl

/-- After a successful `syncFS` of `s` under a layout with the regions in the order of `mkFS`,
a `mountFS` that starts from any memory next to the device that `syncFS` left returns 0 and
loads the metadata of `s`, when the readings invert the images. -/
theorem mount_restores (c : Config) (dc : Decoding) (n : Nat) (s u : FS)
    (h1 : 0 ≤ s.sblock.numINodeMapBlocks) (h2 : 0 ≤ s.sblock.numDataMapBlocks)
    (h3 : s.sblock.firstInodeBlock = 1 + s.sblock.numINodeMapBlocks + s.sblock.numDataMapBlocks)
    (hs : (syncFS c s).1 = 0) (hu : u.disk = (syncFS c s).2.disk) (hd : Inverts c dc n s) :
    (mountFS c dc u).1 = 0 ∧ SameMeta n (mountFS c dc u).2 s ∧
      (mountFS c dc u).2.inodes_x = u.inodes_x ∧ (mountFS c dc u).2.disk = u.disk := by
  obtain ⟨d0, d1, d2, d3, e0, e1, e2, e3, e4⟩ := syncFS_ok c s hs
  obtain ⟨w1, w2, w3, w4, w5⟩ := bwrite_ok c _ _ _ _ e0
  obtain ⟨a1, a2, a3⟩ := syncLoop_spec c _ _ _ _ _ _ e1
  obtain ⟨b1, b2, b3⟩ := syncLoop_spec c _ _ _ _ _ _ e2
  obtain ⟨c1, c2, c3⟩ := syncLoop_spec c _ _ _ _ _ _ e3
  obtain ⟨hdS, hdI, hdB, hdT⟩ := hd
  have hud : u.disk = d3 := by rw [hu, e4]
  have hf : d3.faulty = s.disk.faulty := c1.trans (b1.trans (a1.trans w3))
  have hf1 : d0.faulty = d3.faulty := (c1.trans (b1.trans a1)).symm
  have hf2 : d1.faulty = d3.faulty := (c1.trans b1).symm
  have hf3 : d2.faulty = d3.faulty := c1.symm
  have z0 : (0 : Int).toNat = 0 := rfl
  rw [z0] at w2 w4
  -- block 0 still holds the superblock
  have k0 : d3.blocks 0 = d0.blocks 0 := by
    rw [c3 0 (fun k _ _ => by omega), b3 0 (fun k _ _ => by omega),
      a3 0 (fun k _ _ => by omega)]
  have hb : bread u.disk 0 = some (d3.blocks 0) := by
    have hn : ¬ ((0 : Int) < 0 ∨ d3.faulty (0 : Int).toNat = true) := by
      intro hc
      rcases hc with hc | hc
      · omega
      · rw [z0, hf, w2] at hc; exact Bool.noConfusion hc
    rw [hud]
    unfold bread
    rw [if_neg hn]
    rfl
  have hA := hdS (fun off => if off < c.BLOCK_SIZE then d3.blocks 0 off
      else c.superBytes u.sblock off) (fun off hoff => by
    show (if off < c.BLOCK_SIZE then d3.blocks 0 off else c.superBytes u.sblock off) = _
    rw [if_pos hoff, k0, w4 off hoff])
  obtain ⟨_, g2, g3, g4, g5, _, _, _, _⟩ := id hA
  obtain ⟨im, m1, m1s⟩ := mountLoop_spec c d3 1 (c.mapBytes s.i_map)
    s.sblock.numINodeMapBlocks.toNat 0 (c.mapBytes u.i_map) (fun k k1 k2 => by
      obtain ⟨x1, x2, x3⟩ := a2 k k1 k2
      refine ⟨x1, by rw [← hf1]; exact x2, fun j hj => ?_⟩
      rw [c3 _ (fun k3 _ _ => by omega), b3 _ (fun k3 _ _ => by omega)]
      exact x3 j hj)
  obtain ⟨bm, m2, m2s⟩ := mountLoop_spec c d3 (1 + s.sblock.numINodeMapBlocks)
    (c.mapBytes s.b_map) s.sblock.numDataMapBlocks.toNat 0 (c.mapBytes u.b_map)
    (fun k k1 k2 => by
      obtain ⟨x1, x2, x3⟩ := b2 k k1 k2
      refine ⟨x1, by rw [← hf2]; exact x2, fun j hj => ?_⟩
      rw [c3 _ (fun k3 _ _ => by omega)]
      exact x3 j hj)
  obtain ⟨it, m3, m3s⟩ := mountLoop_spec c d3 s.sblock.firstInodeBlock
    (c.inodeBytes s.inodes)
    (ceilOfDivision (s.sblock.numInodes * c.SIZEOF_INODE) c.BLOCK_SIZE).toNat 0
    (c.inodeBytes u.inodes) (fun k k1 k2 => by
      obtain ⟨x1, x2, x3⟩ := c2 k k1 k2
      exact ⟨x1, by rw [← hf3]; exact x2, x3⟩)
  have below : ∀ (t img old : Nat → Nat) (m : Nat),
      (∀ off : Nat, img off =
        if 0 * c.BLOCK_SIZE ≤ off ∧ off < (0 + m) * c.BLOCK_SIZE then t off else old off) →
      ∀ off : Nat, off < m * c.BLOCK_SIZE → img off = t off := by
    intro t img old m hsp off hoff
    rw [hsp off, if_pos]
    rw [Nat.zero_add]
    exact ⟨by omega, hoff⟩
  have e := mountFS_of c dc u (d3.blocks 0) _ im bm it hb rfl
    (by rw [g2, hud]; exact m1) (by rw [g2, g3, hud]; exact m2)
    (by rw [g4, g5, hud]; exact m3)
  rw [e]
  refine ⟨rfl, ⟨hA, ?_, ?_, ?_⟩, rfl, rfl⟩
  · exact hdI im (below _ _ _ _ m1s)
  · exact hdB bm (below _ _ _ _ m2s)
  · exact hdT it (below _ _ _ _ m3s)

theorem syncFS_ret (c : Config) (s : FS) (h : ¬ (syncFS c s).1 < 0) : (syncFS c s).1 = 0 := by
  have key : (syncFS c s).1 = 0 ∨ (syncFS c s).1 = -1 := by
    unfold syncFS
    repeat' split
    all_goals first
      | exact Or.inl rfl
      | exact Or.inr rfl
  rcases key with e | e
  · exact e
  · rw [e] at h
    exact absurd (show ((-1 : Int) < 0) by decide) h

theorem clearLoop_below (m : Nat → Bool) : ∀ n i j, j < i → clearLoop m n i j = m j := by
  intro n
  induction n generalizing m with
  | zero => intro i j _; rfl
  | succ n ih =>
    intro i j hj
    unfold clearLoop
    rw [ih (bitmap_setbit m i 0) (i + 1) j (by omega), setbit_zero]
    exact upd_other _ _ _ _ (by omega)

theorem clearLoop_spec (m : Nat → Bool) :
    ∀ n i j, i ≤ j → j < i + n → clearLoop m n i j = false := by
  intro n
  induction n generalizing m with
  | zero => intro i j h1 h2; omega
  | succ n ih =>
    intro i j h1 h2
    unfold clearLoop
    by_cases hj : j = i
    · rw [clearLoop_below _ n (i + 1) j (by omega), hj, setbit_zero]
      exact upd_same _ _ _
    · exact ih _ (i + 1) j (by omega) (by omega)

theorem dataMapBlocks_nonneg (c : Config) (deviceSize : Int) (hB : 2 ≤ c.BLOCK_SIZE)
    (h : 0 ≤ dataBlocks c deviceSize) : 0 ≤ dataMapBlocks c deviceSize := by
  have hbs : (2 : Int) ≤ (c.BLOCK_SIZE : Int) := by exact_mod_cast hB
  have hx : 0 ≤ totalBlocks c deviceSize - 1 - inodeBlocks c - inodeMapBlocks c := by
    by_contra hneg
    have := ceil_neg (totalBlocks c deviceSize - 1 - inodeBlocks c - inodeMapBlocks c)
      c.BLOCK_SIZE (by omega) hbs
    have e : dataBlocks c deviceSize =
        (totalBlocks c deviceSize - 1 - inodeBlocks c - inodeMapBlocks c) -
          dataMapBlocks c deviceSize := by
      unfold dataBlocks; ring
    unfold dataMapBlocks at e
    omega
  exact ceil_nonneg _ _ hx (by omega)

theorem inodeMapBlocks_nonneg (c : Config) : 0 ≤ inodeMapBlocks c := by
  unfold inodeMapBlocks inodeBlocks
  have h0 : (0 : Int) ≤ (c.SIZEOF_INODE : Int) * (c.MAX_FILES : Int) :=
    Int.mul_nonneg (Int.ofNat_nonneg _) (Int.ofNat_nonneg _)
  exact ceil_nonneg _ _ (ceil_nonneg _ _ h0 (Int.ofNat_nonneg _)) (Int.ofNat_nonneg _)

/-- C16 (persistence round trip).  First part: let `s` be a state whose superblock has
non-negative map sizes and the inode table right behind the two maps (the layout that `mkFS`
produces), let `syncFS` return 0 on it, and let the readings of memory invert the images of the
four objects of `s`.  Then `mountFS`, started with the device that `syncFS` left and with any
contents of memory whatever, returns 0 and loads a superblock, an inode bitmap, a data-block
bitmap and an inode table equal to the ones synced: the superblocks have equal fields, the
bitmaps equal bits below `numInodes` resp. `numDataBlocks`, the tables equal records below
`numInodes`.  Second part: after a successful `mkFS` (block size at least 2), `mountFS` on the
device that `mkFS` left returns 0, the superblock loaded has the magic number, counts, offsets
and device size that `mkFS` assigned, and every bit of the inode bitmap below `numInodes`
is 0. -/
theorem sync_mount_roundtrip (c : Config) (dc : Decoding) (n : Nat) :
    (∀ s u : FS, 0 ≤ s.sblock.numINodeMapBlocks → 0 ≤ s.sblock.numDataMapBlocks →
      s.sblock.firstInodeBlock = 1 + s.sblock.numINodeMapBlocks + s.sblock.numDataMapBlocks →
      (syncFS c s).1 = 0 → u.disk = (syncFS c s).2.disk → Inverts c dc n s →
      (mountFS c dc u).1 = 0 ∧ SameMeta n (mountFS c dc u).2 s) ∧
    (∀ (s0 s1 u : FS) (deviceSize : Int), 2 ≤ c.BLOCK_SIZE → mkFS c s0 deviceSize = (0, s1) →
      u.disk = s1.disk → Inverts c dc n s1 →
      (mountFS c dc u).1 = 0 ∧ SameMeta n (mountFS c dc u).2 s1 ∧
        (mountFS c dc u).2.sblock.magicNumber = c.MAGIC_NUMBER ∧
        (mountFS c dc u).2.sblock.numInodes = c.MAX_FILES ∧
        (mountFS c dc u).2.sblock.numINodeMapBlocks = inodeMapBlocks c ∧
        (mountFS c dc u).2.sblock.numDataMapBlocks = dataMapBlocks c deviceSize ∧
        (mountFS c dc u).2.sblock.numDataBlocks = dataBlocks c deviceSize ∧
        (mountFS c dc u).2.sblock.firstInodeBlock =
          1 + inodeMapBlocks c + dataMapBlocks c deviceSize ∧
        (mountFS c dc u).2.sblock.firstDataBlock =
          1 + inodeMapBlocks c + dataMapBlocks c deviceSize + inodeBlocks c ∧
        (mountFS c dc u).2.sblock.deviceSize = deviceSize ∧
        ∀ i : Nat, (i : Int) < (mountFS c dc u).2.sblock.numInodes →
          (mountFS c dc u).2.i_map i = false) := by
  constructor
  · intro s u h1 h2 h3 hs hu hd
    obtain ⟨r1, r2, _⟩ := mount_restores c dc n s u h1 h2 h3 hs hu hd
    exact ⟨r1, r2⟩
  · intro s0 s1 u deviceSize hB h hu hd
    obtain ⟨_, _, k3, k4, k5⟩ := mkFS_ok c s0 s1 deviceSize h
    obtain ⟨m1, m2, m3, m4, _⟩ := syncFS_mem c (formatted c s0 deviceSize)
    rw [k5] at hu
    have hd2 : Inverts c dc n (formatted c s0 deviceSize) := by
      unfold Inverts at hd ⊢
      rw [k5, m1, m2, m3, m4] at hd
      exact hd
    obtain ⟨r1, r2, _⟩ := mount_restores c dc n (formatted c s0 deviceSize) u
      (inodeMapBlocks_nonneg c) (dataMapBlocks_nonneg c deviceSize hB k3) rfl
      (syncFS_ret c _ k4) hu hd2
    have r3 : SameMeta n (mountFS c dc u).2 s1 := by
      unfold SameMeta at r2 ⊢
      rw [k5, m1, m2, m3, m4]
      exact r2
    obtain ⟨⟨g1, g2, g3, g4, g5, g6, g7, g8, _⟩, q1, _, _⟩ := id r2
    refine ⟨r1, r3, g1, g4, g2, g3, g6, g5, g7, g8, fun i hi => ?_⟩
    rw [g4] at hi
    rw [q1 i hi]
    have hi2 : (i : Int) < (c.MAX_FILES : Int) := hi
    exact clearLoop_spec _ _ 0 i (Nat.zero_le i) (by
      have : ((c.MAX_FILES : Int)).toNat = c.MAX_FILES := Int.toNat_ofNat _
      rw [this]; omega)

/-! ## The example readings invert the example images -/

theorem leWord_congr (b b2 : Nat → Nat) :
    ∀ (n off : Nat), (∀ j : Nat, j < n → b (off + j) = b2 (off + j)) →
      leWord b off n = leWord b2 off n := by
  intro n
  induction n with
  | zero => intro off _; rfl
  | succ n ih =>
    intro off h
    have h0 : b off = b2 off := h 0 (by omega)
    unfold leWord
    rw [h0, ih (off + 1) (fun j hj => by
      rw [Nat.add_assoc]
      exact h (1 + j) (by omega))]

theorem leInt_congr (b b2 : Nat → Nat) (n off : Nat)
    (h : ∀ j : Nat, j < n → b (off + j) = b2 (off + j)) : leInt b off n = leInt b2 off n := by
  unfold leInt
  rw [leWord_congr b b2 n off h]

theorem cstr_congr (b b2 : Nat → Nat) :
    ∀ (n off : Nat), (∀ j : Nat, j < n → b (off + j) = b2 (off + j)) →
      cstr b off n = cstr b2 off n := by
  intro n
  induction n with
  | zero => intro off _; rfl
  | succ n ih =>
    intro off h
    have h0 : b off = b2 off := h 0 (by omega)
    unfold cstr
    rw [h0, ih (off + 1) (fun j hj => by
      rw [Nat.add_assoc]
      exact h (1 + j) (by omega))]

/-- The record that the example reading finds at index `i` depends on the 148 bytes of that
record only. -/
theorem stdInodes_congr (b b2 : Nat → Nat) (i : Nat)
    (h : ∀ j : Nat, j < 148 → b (148 * i + j) = b2 (148 * i + j)) :
    stdDecoding.inodesOfBytes b i = stdDecoding.inodesOfBytes b2 i := by
  have e1 := leInt_congr b b2 4 (148 * i) (fun j hj => h j (by omega))
  have e2 := leInt_congr b b2 4 (148 * i + 4) (fun j hj => by
    rw [Nat.add_assoc]
    exact h (4 + j) (by omega))
  have e3 := cstr_congr b b2 132 (148 * i + 8) (fun j hj => by
    rw [Nat.add_assoc]
    exact h (8 + j) (by omega))
  have e4 := leInt_congr b b2 4 (148 * i + 140) (fun j hj => by
    rw [Nat.add_assoc]
    exact h (140 + j) (by omega))
  have e5 := leInt_congr b b2 4 (148 * i + 144) (fun j hj => by
    rw [Nat.add_assoc]
    exact h (144 + j) (by omega))
  show Inode.mk (leInt b (148 * i) 4) (leInt b (148 * i + 4) 4) (cstr b (148 * i + 8) 132)
      (leInt b (148 * i + 140) 4) (leInt b (148 * i + 144) 4) = _
  rw [e1, e2, e3, e4, e5]
  rfl

theorem stdSuper_padding (sb : SuperBlock) (k : Nat) :
    stdSuperBytes sb (40 + k) = sb.padding k := by
  unfold stdSuperBytes
  split_ifs <;> first
    | omega
    | rw [Nat.add_sub_cancel_left]

/-- The superblock that the example reading finds depends on the first block only. -/
theorem stdSuper_congr (img : Nat → Nat) (sb : SuperBlock)
    (hag : ∀ off : Nat, off < 2048 → img off = stdSuperBytes sb off)
    (hS : SuperAgree 0 (stdDecoding.superOfBytes (stdSuperBytes sb)) sb) :
    SuperAgree 2008 (stdDecoding.superOfBytes img) sb := by
  unfold SuperAgree at hS ⊢
  dsimp only [stdDecoding] at hS ⊢
  obtain ⟨g1, g2, g3, g4, g5, g6, g7, g8, _⟩ := hS
  rw [leInt_congr img _ 4 0 (fun j hj => hag _ (by omega)),
    leInt_congr img _ 4 4 (fun j hj => hag _ (by omega)),
    leInt_congr img _ 4 8 (fun j hj => hag _ (by omega)),
    leInt_congr img _ 4 12 (fun j hj => hag _ (by omega)),
    leInt_congr img _ 4 16 (fun j hj => hag _ (by omega)),
    leInt_congr img _ 4 20 (fun j hj => hag _ (by omega)),
    leInt_congr img _ 4 24 (fun j hj => hag _ (by omega)),
    leInt_congr img _ 8 32 (fun j hj => hag _ (by omega))]
  exact ⟨g1, g2, g3, g4, g5, g6, g7, g8, fun k hk =>
    (hag (40 + k) (by omega)).trans (stdSuper_padding sb k)⟩

/-- A bit that the example reading finds depends on its byte only. -/
theorem stdMap_congr (img : Nat → Nat) (m : Nat → Bool) (i : Nat)
    (hag : img (i / 8) = stdMapBytes m (i / 8)) :
    stdDecoding.mapOfBytes img i = stdDecoding.mapOfBytes (stdMapBytes m) i := by
  dsimp only [stdDecoding]
  rw [hag]

/-- The example readings invert the example images on a state with at most 16384 inodes and
data blocks whose records and bits are read back from their own images. -/
theorem std_inverts (s : FS) (n m : Nat)
    (hn : s.sblock.numInodes = (n : Int)) (hm : s.sblock.numDataBlocks = (m : Int))
    (hIM : 1 ≤ s.sblock.numINodeMapBlocks) (hDM : 1 ≤ s.sblock.numDataMapBlocks)
    (hn8 : n ≤ 16384) (hm8 : m ≤ 16384)
    (hK : 148 * n ≤
      (ceilOfDivision (s.sblock.numInodes * stdConfig.SIZEOF_INODE) stdConfig.BLOCK_SIZE).toNat *
        2048)
    (hS : SuperAgree 0 (stdDecoding.superOfBytes (stdSuperBytes s.sblock)) s.sblock)
    (hI : ∀ i : Nat, i < n → stdDecoding.mapOfBytes (stdMapBytes s.i_map) i = s.i_map i)
    (hB : ∀ i : Nat, i < m → stdDecoding.mapOfBytes (stdMapBytes s.b_map) i = s.b_map i)
    (hT : ∀ i : Nat, i < n →
      stdDecoding.inodesOfBytes (stdInodeBytes s.inodes) i = s.inodes i) :
    Inverts stdConfig stdDecoding 2008 s := by
  refine ⟨fun img hag => stdSuper_congr img _ hag hS, fun img hag i hi => ?_,
    fun img hag i hi => ?_, fun img hag i hi => ?_⟩
  · have hag2 : ∀ off : Nat, off < s.sblock.numINodeMapBlocks.toNat * 2048 →
        img off = stdMapBytes s.i_map off := hag
    rw [← hI i (by omega)]
    exact stdMap_congr img _ i (hag2 _ (by omega))
  · have hag2 : ∀ off : Nat, off < s.sblock.numDataMapBlocks.toNat * 2048 →
        img off = stdMapBytes s.b_map off := hag
    rw [← hB i (by omega)]
    exact stdMap_congr img _ i (hag2 _ (by omega))
  · have hag2 : ∀ off : Nat,
        off < (ceilOfDivision (s.sblock.numInodes * stdConfig.SIZEOF_INODE)
          stdConfig.BLOCK_SIZE).toNat * 2048 → img off = stdInodeBytes s.inodes off := hag
    rw [← hT i (by omega)]
    exact stdInodes_congr img _ i (fun j hj => hag2 _ (by omega))

theorem inverts_freshState : Inverts stdConfig stdDecoding 2008 freshState :=
  std_inverts freshState 40 19 rfl rfl (by decide) (by decide) (by decide) (by decide)
    (by decide)
    ⟨by decide, by decide, by decide, by decide, by decide, by decide, by decide, by decide,
      fun k hk => absurd hk (Nat.not_lt_zero k)⟩
    (by decide) (by decide) (by decide)

theorem inverts_treeState : Inverts stdConfig stdDecoding 2008 treeState :=
  std_inverts treeState 40 19 rfl rfl (by decide) (by decide) (by decide) (by decide)
    (by decide)
    ⟨by decide, by decide, by decide, by decide, by decide, by decide, by decide, by decide,
      fun k hk => absurd hk (Nat.not_lt_zero k)⟩
    (by decide) (by decide) (by decide)

/-- C16 at two runs.  The state `treeState` (two files and a directory, one file opened) is
synced, the memory is replaced by other contents (`staleState`) and `mountFS` loads the
metadata of `treeState` again, among it the record of `/a/f` in slot 2.  And `mountFS` on the
device that `mkFS(51200)` left, again from memory with other contents, returns 0 with the
superblock of the format and no inode allocated. -/
theorem sync_mount_roundtrip_witness :
    ((mountFS stdConfig stdDecoding (staleState (syncFS stdConfig treeState).2.disk)).1 = 0 ∧
      SameMeta 2008
        (mountFS stdConfig stdDecoding (staleState (syncFS stdConfig treeState).2.disk)).2
        treeState) ∧
    (treeState.inodes 2 = Inode.mk 1 0 "/a/f".toList 1 2048 ∧ treeState.i_map 2 = true ∧
      (staleState (syncFS stdConfig treeState).2.disk).inodes 2 ≠ treeState.inodes 2) ∧
    ((mountFS stdConfig stdDecoding (staleState freshState.disk)).1 = 0 ∧
      SameMeta 2008 (mountFS stdConfig stdDecoding (staleState freshState.disk)).2 freshState ∧
      (mountFS stdConfig stdDecoding (staleState freshState.disk)).2.sblock.magicNumber =
        873728 ∧
      (mountFS stdConfig stdDecoding (staleState freshState.disk)).2.sblock.numInodes = 40 ∧
      (mountFS stdConfig stdDecoding (staleState freshState.disk)).2.sblock.numINodeMapBlocks =
        inodeMapBlocks stdConfig ∧
      (mountFS stdConfig stdDecoding (staleState freshState.disk)).2.sblock.numDataMapBlocks =
        dataMapBlocks stdConfig 51200 ∧
      (mountFS stdConfig stdDecoding (staleState freshState.disk)).2.sblock.numDataBlocks =
        dataBlocks stdConfig 51200 ∧
      (mountFS stdConfig stdDecoding (staleState freshState.disk)).2.sblock.firstInodeBlock =
        1 + inodeMapBlocks stdConfig + dataMapBlocks stdConfig 51200 ∧
      (mountFS stdConfig stdDecoding (staleState freshState.disk)).2.sblock.firstDataBlock =
        1 + inodeMapBlocks stdConfig + dataMapBlocks stdConfig 51200 + inodeBlocks stdConfig ∧
      (mountFS stdConfig stdDecoding (staleState freshState.disk)).2.sblock.deviceSize =
        51200 ∧
      ∀ i : Nat,
        (i : Int) <
            (mountFS stdConfig stdDecoding (staleState freshState.disk)).2.sblock.numInodes →
          (mountFS stdConfig stdDecoding (staleState freshState.disk)).2.i_map i = false) :=
  ⟨(sync_mount_roundtrip stdConfig stdDecoding 2008).1 treeState
      (staleState (syncFS stdConfig treeState).2.disk) (by decide) (by decide) (by decide)
      (by decide) rfl inverts_treeState,
    ⟨by decide, by decide, by decide⟩,
    (sync_mount_roundtrip stdConfig stdDecoding 2008).2 bootState freshState
      (staleState freshState.disk) 51200 (by decide) rfl rfl inverts_freshState⟩

/-! ## Ceiling division -/

/-- C24: for `a >= 0` and `b > 0` the value `ceilOfDivision(a, b)` is the least integer `q` with
`q * b >= a`. -/
theorem ceilOfDivision_least (a b : Int) (ha : 0 ≤ a) (hb : 0 < b) :
    a ≤ ceilOfDivision a b * b ∧ ∀ q : Int, a ≤ q * b → ceilOfDivision a b ≤ q := by
  obtain ⟨h1, h2⟩ := ceil_bounds a b ha hb
  refine ⟨h1, fun q hq => ?_⟩
  by_contra hlt
  have h3 : q ≤ ceilOfDivision a b - 1 := by omega
  have h4 : q * b ≤ (ceilOfDivision a b - 1) * b := Int.mul_le_mul_of_nonneg_right h3 (le_of_lt hb)
  omega

/-- C24 on the sizes of the example: 51200 bytes in blocks of 2048 are 25 blocks, and 51201
bytes are 26. -/
theorem ceilOfDivision_least_witness :
    ((51201 : Int) ≤ ceilOfDivision 51201 2048 * 2048 ∧
      ∀ q : Int, 51201 ≤ q * 2048 → ceilOfDivision 51201 2048 ≤ q) ∧
    ceilOfDivision 51200 2048 = 25 ∧ ceilOfDivision 51201 2048 = 26 :=
  ⟨ceilOfDivision_least 51201 2048 (by decide) (by decide), by decide, by decide⟩

/-! ## The slash-counting loop -/

/-- C26 (slash loop): on the path `"/"` the loop of `createFile` and `mkDir` steps from the
slash at index 0 to index 2 and tests `path[2]`, which lies behind the terminator at index 1, so
neither call has a defined result; the loop does the same on the string `"/a/"` (which the two
calls hand to it as `"/a"`, after `basename` has cut the last slash).  On `"//"` and on
`"/a//b"` the loop ends at the terminator but has counted 1 and 2 slashes where the path holds
2 and 3. -/
theorem slashLoop_overreads_and_undercounts :
    slashLoop "/".toList 0 = none ∧
    createFile stdConfig freshState (some "/".toList) = none ∧
    mkDir stdConfig freshState (some "/".toList) = none ∧
    slashLoop "/a/".toList 0 = none ∧
    slashLoop "//".toList 0 = some 1 ∧ slashCount "//".toList = 2 ∧
    slashLoop "/a//b".toList 0 = some 2 ∧ slashCount "/a//b".toList = 3 :=
  ⟨by decide, rfl, rfl, by decide, by decide, by decide, by decide, by decide⟩

/-- Of `2 * k` slashes in a row the loop counts `k`, whatever the bound on the depth is. -/
theorem slashLoop_pairs (ch : Char) (hch : ch ≠ slash) :
    ∀ (k : Nat) (n : Int),
      slashLoop (List.replicate (2 * k) slash ++ [ch]) n = some (n + k) ∧
        slashCount (List.replicate (2 * k) slash ++ [ch]) = 2 * k := by
  intro k
  induction k with
  | zero =>
    intro n
    refine ⟨?_, ?_⟩
    · show slashLoop [ch] n = some (n + (0 : Nat))
      unfold slashLoop
      rw [if_neg hch]
      exact congrArg some (by omega)
    · show List.count slash [ch] = 0
      exact List.count_eq_zero.2 (fun h => hch (List.mem_singleton.1 h).symm)
  | succ k ih =>
    intro n
    have e : List.replicate (2 * (k + 1)) slash ++ [ch] =
        slash :: slash :: (List.replicate (2 * k) slash ++ [ch]) := by
      have : 2 * (k + 1) = 2 * k + 1 + 1 := by omega
      rw [this, List.replicate_succ, List.replicate_succ]
      rfl
    rw [e]
    refine ⟨?_, ?_⟩
    · unfold slashLoop
      rw [if_pos rfl, (ih (n + 1)).1]
      exact congrArg some (by omega)
    · unfold slashCount at ih ⊢
      rw [List.count_cons_self, List.count_cons_self, (ih 0).2]
      omega

/-- C23 (depth limit): with `MAX_FOLDER_LEVEL = 3` the path `"//////f"` holds 6 slashes, more
than `MAX_FOLDER_LEVEL + 1`, and the path `"/////d"` holds 5, more than `MAX_FOLDER_LEVEL`.  The
loop counts 3 of them in both, and on the fresh file system `createFile("//////f")` and
`mkDir("/////d")` return 0 and store the path in inode 0. -/
theorem deep_paths_accepted :
    Reachable stdConfig freshState ∧
    stdConfig.MAX_FOLDER_LEVEL = 3 ∧
    slashCount "//////f".toList = 6 ∧ slashLoop "//////f".toList 0 = some 3 ∧
    (createFile stdConfig freshState (some "//////f".toList)).map
        (fun r => (r.1, r.2.1, r.2.2.i_map 0, (r.2.2.inodes 0).name)) =
      some (0, none, true, "//////f".toList) ∧
    slashCount "/////d".toList = 5 ∧ slashLoop "/////d".toList 0 = some 3 ∧
    (mkDir stdConfig freshState (some "/////d".toList)).map
        (fun r => (r.1, r.2.1, r.2.2.i_map 0, (r.2.2.inodes 0).name)) =
      some (0, none, true, "/////d".toList) :=
  ⟨reachable_freshState, by decide⟩

/-! ## The seek position -/

theorem reachable_afterSeek (c : Config) (s : FS) (fd offset whence : Int)
    (h : Reachable c s) : Reachable c (afterSeek c s fd offset whence) := by
  unfold afterSeek
  cases e : lseekFile c s fd offset whence with
  | none => exact h
  | some r => exact Reachable.lseekFile s r.2 fd offset whence r.1 h e

theorem reachable_afterWrite (c : Config) (s : FS) (fd : Int) (buffer : List Nat)
    (numBytes : Int) (h : Reachable c s) : Reachable c (afterWrite c s fd buffer numBytes) := by
  unfold afterWrite
  cases e : writeFile c s fd buffer numBytes with
  | none => exact h
  | some r => exact Reachable.writeFile s r.2 fd buffer numBytes r.1 h e

theorem reachable_edgeState : Reachable stdConfig edgeState :=
  reachable_afterSeek _ _ _ _ _
    (reachable_afterWrite _ _ _ _ _ (reachable_afterSeek _ _ _ _ _ reachable_openedState))

/-- C21 (position range): in `edgeState` every entry of the open-file table has its position
between 0 and the declared size; the file `/f` (descriptor 0, size 2048) is at position 2047 and
its last byte is `x`.  A read of 1 byte into a buffer that holds `9 9 9 9 0` copies that byte,
returns `strlen(buffer) = 4` and leaves the position at 2051, beyond the declared size. -/
theorem readFile_moves_position_out_of_range :
    Reachable stdConfig edgeState ∧
    edgeState.sblock.numInodes = 40 ∧
    (∀ i : Nat, i < 40 →
      0 ≤ (edgeState.inodes_x i).position ∧
        (edgeState.inodes_x i).position ≤ (edgeState.inodes i).size) ∧
    edgeState.inodes_x 0 = { position := 2047, opened := 1 } ∧
    (edgeState.inodes 0).size = 2048 ∧
    (readFile stdConfig edgeState 0 [9, 9, 9, 9, 0] 1).map
        (fun r => (r.1, (r.2.1.inodes_x 0).position, (r.2.1.inodes 0).size, r.2.2)) =
      some (4, 2051, 2048, [120, 9, 9, 9, 0]) :=
  ⟨reachable_edgeState, by decide⟩

theorem opt_ite {α : Type} (Q : Option α → Prop) (p : Prop) [Decidable p] (x y : Option α)
    (hx : p → Q x) (hy : ¬ p → Q y) : Q (if p then x else y) := by
  by_cases h : p
  · rw [if_pos h]; exact hx h
  · rw [if_neg h]; exact hy h

theorem inRange_entry (s : FS) (k : Nat) (x : InodeX) (h : InRange s)
    (hx : 0 ≤ x.position ∧ x.position ≤ (s.inodes k).size) : InRange (withEntry s k x) := by
  intro i hi
  unfold withEntry
  dsimp only
  by_cases hk : i = k
  · rw [hk, upd_same]; exact hx
  · rw [upd_other _ _ _ _ hk]; exact h i hi

theorem openFile_inRange (c : Config) (s : FS) (path : Option (List Char)) (h : InRange s) :
    InRange (openFile c s path).2 := by
  cases path with
  | none => exact h
  | some p =>
    unfold openFile
    dsimp only
    by_cases h1 : namei s (some p) < 0
    · rw [if_pos h1]; exact h
    rw [if_neg h1]
    by_cases h2 : (s.inodes (namei s (some p)).toNat).type ≠ c.TYPE_FILE
    · rw [if_pos h2]; exact h
    rw [if_neg h2]
    by_cases h3 : (s.inodes_x (namei s (some p)).toNat).opened ≠ 0
    · rw [if_pos h3]; exact h
    rw [if_neg h3]
    obtain ⟨k, e, _, hk, _⟩ := nameiLoop_found s p s.sblock.numInodes.toNat 0 (by
      have e : namei s (some p) = nameiLoop s p s.sblock.numInodes.toNat 0 := rfl
      rw [← e]; omega)
    have e2 : namei s (some p) = (k : Int) := e
    rw [e2, Int.toNat_ofNat]
    have hr := h k (by omega)
    exact inRange_entry s k _ h ⟨le_refl 0, le_trans hr.1 hr.2⟩

theorem closeFile_inRange (c : Config) (s : FS) (fd : Int) (h : InRange s) :
    InRange (closeFile c s fd).2 := by
  unfold closeFile
  by_cases h1 : fd ≥ s.sblock.numInodes ∨ fd < 0
  · rw [if_pos h1]; exact h
  rw [if_neg h1]
  by_cases h2 : (s.inodes fd.toNat).type ≠ c.TYPE_FILE
  · rw [if_pos h2]; exact h
  rw [if_neg h2]
  by_cases h3 : (s.inodes_x fd.toNat).opened = 0
  · rw [if_pos h3]; exact h
  rw [if_neg h3]
  have hr := h fd.toNat (by omega)
  exact inRange_entry s fd.toNat _ h ⟨le_refl 0, le_trans hr.1 hr.2⟩

theorem lseekFile_inRange (c : Config) (s : FS) (fd offset whence : Int) (h : InRange s) :
    RangeAfter (lseekFile c s fd offset whence) := by
  have triv : ∀ (a : Int) (r : Int × FS), some (a, s) = some r → InRange r.2 := by
    intro a r e
    rw [← Option.some.inj e]
    exact h
  have fin : ∀ x : InodeX, (0 ≤ x.position ∧ x.position ≤ (s.inodes fd.toNat).size) →
      ∀ r : Int × FS, some ((0 : Int), withEntry s fd.toNat x) = some r → InRange r.2 := by
    intro x hx r e
    rw [← Option.some.inj e]
    exact inRange_entry s fd.toNat x h hx
  unfold lseekFile
  refine opt_ite RangeAfter _ _ _ (fun _ => triv _) (fun h1 => ?_)
  refine opt_ite RangeAfter _ _ _ (fun _ => triv _) (fun _ => ?_)
  refine opt_ite RangeAfter _ _ _ (fun _ => triv _) (fun _ => ?_)
  have hr := h fd.toNat (by omega)
  dsimp only
  refine opt_ite RangeAfter _ _ _
    (fun _ => fin _ ⟨le_refl 0, le_trans hr.1 hr.2⟩) (fun _ => ?_)
  refine opt_ite RangeAfter _ _ _
    (fun _ => fin _ ⟨le_trans hr.1 hr.2, le_refl _⟩) (fun _ => ?_)
  refine opt_ite RangeAfter _ _ _ (fun _ => ?_) (fun _ => triv _)
  refine opt_ite RangeAfter _ _ _
    (fun _ r e => Option.noConfusion e) (fun _ => ?_)
  refine opt_ite RangeAfter _ _ _ (fun _ => triv _) (fun h5 => ?_)
  refine opt_ite RangeAfter _ _ _ (fun _ => triv _) (fun h6 => ?_)
  exact fin _ ⟨by dsimp only; omega, by dsimp only; omega⟩

theorem writeFile_inRange (c : Config) (s : FS) (fd : Int) (buffer : List Nat) (numBytes : Int)
    (h : InRange s) : RangeAfter (writeFile c s fd buffer numBytes) := by
  have triv : ∀ (a : Int) (r : Int × FS), some (a, s) = some r → InRange r.2 := by
    intro a r e
    rw [← Option.some.inj e]
    exact h
  have nothing : RangeAfter none := fun r e => Option.noConfusion e
  unfold writeFile
  refine opt_ite RangeAfter _ _ _ (fun _ => triv _) (fun h1 => ?_)
  refine opt_ite RangeAfter _ _ _ (fun _ => triv _) (fun _ => ?_)
  refine opt_ite RangeAfter _ _ _ (fun _ => triv _) (fun _ => ?_)
  have hr := h fd.toNat (by omega)
  cases strlen buffer with
  | none => exact nothing
  | some len =>
    dsimp only
    refine opt_ite RangeAfter _ _ _ (fun _ => nothing) (fun _ => ?_)
    refine opt_ite RangeAfter _ _ _ (fun _ => triv _) (fun h5 => ?_)
    refine opt_ite RangeAfter _ _ _ (fun _ => triv _) (fun h6 => ?_)
    refine opt_ite RangeAfter _ _ _ (fun _ => triv _) (fun _ => ?_)
    cases bread s.disk (s.sblock.firstDataBlock + bmap c s fd (s.inodes_x fd.toNat).position) with
    | none => exact triv _
    | some b =>
      dsimp only
      refine opt_ite RangeAfter _ _ _ (fun _ => nothing) (fun _ => ?_)
      cases bwrite c s.disk
          (s.sblock.firstDataBlock + bmap c s fd (s.inodes_x fd.toNat).position)
          (fun j =>
            if (s.inodes_x fd.toNat).position.toNat ≤ j ∧
                j < (s.inodes_x fd.toNat).position.toNat +
                  (if (s.inodes_x fd.toNat).position +
                        (if len < toSizeT numBytes then (len : Int) else numBytes) >
                      (s.inodes fd.toNat).size
                    then (s.inodes fd.toNat).size - (s.inodes_x fd.toNat).position
                    else if len < toSizeT numBytes then (len : Int) else numBytes).toNat
            then buffer.getD (j - (s.inodes_x fd.toNat).position.toNat) 0 else b j) with
      | none => exact triv _
      | some d =>
        intro r e
        rw [← Option.some.inj e]
        intro i hi
        dsimp only
        by_cases hk : i = fd.toNat
        · rw [hk, upd_same]
          dsimp only
          by_cases hc : (s.inodes_x fd.toNat).position +
              (if len < toSizeT numBytes then (len : Int) else numBytes) >
                (s.inodes fd.toNat).size
          · rw [if_pos hc] at h5 h6 ⊢
            omega
          · rw [if_neg hc] at h5 h6 ⊢
            omega
        · rw [upd_other _ _ _ _ hk]
          exact h i hi

/-- Calls other than `readFile` keep every position between 0 and the declared size. -/
theorem inRange_kept (c : Config) (s : FS) (h : InRange s) :
    (∀ path, InRange (openFile c s path).2) ∧ (∀ fd, InRange (closeFile c s fd).2) ∧
      (∀ fd buffer numBytes, RangeAfter (writeFile c s fd buffer numBytes)) ∧
      (∀ fd offset whence, RangeAfter (lseekFile c s fd offset whence)) :=
  ⟨fun path => openFile_inRange c s path h, fun fd => closeFile_inRange c s fd h,
    fun fd buffer numBytes => writeFile_inRange c s fd buffer numBytes h,
    fun fd offset whence => lseekFile_inRange c s fd offset whence h⟩

/-! ## Ownership of data blocks -/

theorem reachable_afterRmDir (c : Config) (fuel : Nat) (s : FS) (p : List Char)
    (h : Reachable c s) : Reachable c (afterRmDir c fuel s p) := by
  unfold afterRmDir
  cases e : rmDir c fuel s (some p) with
  | none => exact h
  | some r => exact Reachable.rmDir s r.2 fuel (some p) r.1 h e

theorem reachable_sharedBlockState :
    Reachable stdConfig freedBlockState ∧ Reachable stdConfig sharedBlockState :=
  ⟨reachable_afterRmDir _ _ _ _ (reachable_afterMkDir _ _ _ reachable_fileState),
    reachable_afterCreate _ _ _
      (reachable_afterRmDir _ _ _ _ (reachable_afterMkDir _ _ _ reachable_fileState))⟩

/-- C25 (block ownership): after `mkFS`, `createFile("/f")` and `mkDir("/a")` the file is inode 0
with data block 0 and the directory is inode 1, whose `dataBlockPos` field is the 0 left by
`ialloc`.  `rmDir("/a")` returns 0 and clears bit 0 of the data bitmap: in `freedBlockState` the
allocated file `/f` has a data block whose bit is 0.  `createFile("/g")` then returns 0 and
receives block 0 as well: in `sharedBlockState` the allocated files `/f` (inode 0) and `/g`
(inode 1) share data block 0.  Only `createFile`, `mkDir` and `rmDir` are called. -/
theorem rmDir_frees_block_of_file :
    (Reachable stdConfig freedBlockState ∧ Reachable stdConfig sharedBlockState) ∧
    (fileAndDirState.i_map 0 = true ∧ (fileAndDirState.inodes 0).type = stdConfig.TYPE_FILE ∧
      (fileAndDirState.inodes 0).name = "/f".toList ∧
      (fileAndDirState.inodes 0).dataBlockPos = 0 ∧ fileAndDirState.b_map 0 = true ∧
      (fileAndDirState.inodes 1).type = stdConfig.TYPE_FOLDER ∧
      (fileAndDirState.inodes 1).name = "/a".toList ∧
      (fileAndDirState.inodes 1).dataBlockPos = 0) ∧
    ((rmDir stdConfig 2 fileAndDirState (some "/a".toList)).map (fun r => r.1) = some 0 ∧
      freedBlockState.i_map 0 = true ∧
      (freedBlockState.inodes 0).type = stdConfig.TYPE_FILE ∧
      (freedBlockState.inodes 0).dataBlockPos = 0 ∧
      (0 : Int) < freedBlockState.sblock.numDataBlocks ∧
      freedBlockState.b_map 0 = false) ∧
    ((createFile stdConfig freedBlockState (some "/g".toList)).map (fun r => (r.1, r.2.1)) =
        some (0, none) ∧
      sharedBlockState.i_map 0 = true ∧ sharedBlockState.i_map 1 = true ∧
      (sharedBlockState.inodes 0).type = stdConfig.TYPE_FILE ∧
      (sharedBlockState.inodes 1).type = stdConfig.TYPE_FILE ∧
      (sharedBlockState.inodes 0).name = "/f".toList ∧
      (sharedBlockState.inodes 1).name = "/g".toList ∧
      (sharedBlockState.inodes 0).dataBlockPos = (sharedBlockState.inodes 1).dataBlockPos) :=
  ⟨reachable_sharedBlockState, by decide, by decide, by decide⟩

/-! ## mkDir -/

theorem zero_not_folder (c : Config) (hF : c.TYPE_FOLDER ≠ 0) :
    zeroInode.type ≠ c.TYPE_FOLDER := by
  intro e
  exact hF e.symm

theorem prune_refl (c : Config) (s : FS) : Prune c s s :=
  ⟨rfl, fun _ => Or.inl rfl⟩

theorem prune_of_same (c : Config) {s t : FS} (h1 : t.sblock = s.sblock)
    (h3 : t.inodes = s.inodes) : Prune c s t :=
  ⟨h1, fun i => Or.inl (by rw [h3])⟩

theorem prune_erase (c : Config) {s t : FS} (h : Prune c s t) : Erase s t :=
  ⟨h.1, fun i => (h.2 i).imp id (fun x => x.1)⟩

theorem prune_trans (c : Config) (hF : c.TYPE_FOLDER ≠ 0) {s t u : FS} (h1 : Prune c s t)
    (h2 : Prune c t u) : Prune c s u := by
  refine ⟨h2.1.trans h1.1, fun i => ?_⟩
  rcases h2.2 i with h3 | h3
  · rcases h1.2 i with h4 | ⟨h4, h5⟩
    · exact Or.inl (h3.trans h4)
    · right
      refine ⟨h3.trans h4, fun j hj hty hfa => ?_⟩
      rcases h2.2 j with h6 | ⟨h6, _⟩
      · rw [h6] at hty hfa
        rw [h2.1] at hj
        exact h5 j hj hty hfa
      · rw [h6] at hty
        exact zero_not_folder c hF hty
  · exact Or.inr h3

theorem prune_sync (c : Config) (hF : c.TYPE_FOLDER ≠ 0) {s t : FS}
    (h : Prune c s t) : Prune c s (syncFS c t).2 := by
  obtain ⟨m1, _, _, m4, _⟩ := syncFS_mem c t
  exact prune_trans c hF h (prune_of_same c m1 m4)

theorem ranked_prune (c : Config) (hF : c.TYPE_FOLDER ≠ 0) (rank : Nat → Nat) {s t : FS}
    (h : Ranked c rank s) (hp : Prune c s t) : Ranked c rank t := by
  intro i hi hty
  rcases hp.2 i with h1 | ⟨h1, _⟩
  · rw [h1] at hty ⊢
    rw [hp.1] at hi ⊢
    obtain ⟨k1, k2⟩ := h i hi hty
    refine ⟨k1, ?_⟩
    rcases k2 with k2 | ⟨f, f1, f2, f3, f4⟩
    · exact Or.inl k2
    · right
      refine ⟨f, f1, f2, ?_, f4⟩
      rcases hp.2 f with h2 | ⟨_, h3⟩
      · rw [h2]; exact f3
      · have hi2 : (i : Int) < t.sblock.numInodes := by rw [hp.1]; exact hi
        have hty2 : (t.inodes i).type = c.TYPE_FOLDER := by rw [h1]; exact hty
        have := h3 i hi2 hty2
        rw [h1] at this
        exact absurd f1 this
  · rw [h1] at hty
    exact absurd hty (zero_not_folder c hF)

theorem rankBound_prune (c : Config) (hF : c.TYPE_FOLDER ≠ 0) (rank : Nat → Nat) (bound : Nat)
    {s t : FS} (h : RankBound c rank bound s) (hp : Prune c s t) : RankBound c rank bound t := by
  intro i hi hty
  rcases hp.2 i with h1 | ⟨h1, _⟩
  · rw [h1] at hty
    rw [hp.1] at hi
    exact h i hi hty
  · rw [h1] at hty
    exact absurd hty (zero_not_folder c hF)

/-- The slot that holds a record which is not zeroed is the answer of `namei` for its name. -/
theorem namei_self (s : FS) (i : Nat) (ht : Tidy s) (hi : (i : Int) < s.sblock.numInodes)
    (hnz : s.inodes i ≠ zeroInode) : namei s (some (s.inodes i).name) = (i : Int) := by
  rcases ht i hi with hz | ⟨_, huniq⟩
  · exact absurd hz hnz
  · have e : namei s (some (s.inodes i).name) =
        nameiLoop s (s.inodes i).name s.sblock.numInodes.toNat 0 := rfl
    rw [e]
    refine nameiLoop_first s _ i _ 0 (Nat.zero_le i) (by omega) rfl (fun j _ hj hj2 => ?_)
    have := huniq j (by omega) hj2
    omega

theorem folder_not_zero (c : Config) (hF : c.TYPE_FOLDER ≠ 0) (s : FS) (i : Nat)
    (h : (s.inodes i).type = c.TYPE_FOLDER) : s.inodes i ≠ zeroInode := by
  intro e
  rw [e] at h
  exact zero_not_folder c hF h

/-- Zeroing a slot that no folder names as its father. -/
theorem zero_slot_prune (c : Config) (hF : c.TYPE_FOLDER ≠ 0) (s t : FS) (k : Nat)
    (h1 : t.sblock = s.sblock) (h3 : t.inodes = upd s.inodes k zeroInode)
    (hno : ∀ j : Nat, (j : Int) < s.sblock.numInodes → (s.inodes j).type = c.TYPE_FOLDER →
      (s.inodes j).father ≠ (k : Int)) : Prune c s t := by
  refine ⟨h1, fun i => ?_⟩
  by_cases hk : i = k
  · right
    rw [h3, hk]
    refine ⟨upd_same _ _ _, fun j hj hty hfa => ?_⟩
    rw [h1] at hj
    by_cases hjk : j = k
    · rw [hjk, upd_same] at hty
      exact zero_not_folder c hF hty
    · rw [upd_other _ _ _ _ hjk] at hty hfa
      exact hno j hj hty hfa
  · left
    rw [h3]
    exact upd_other _ _ _ _ hk

/-- The state after `bfree`, the zeroing of the record and `ifree`, as in `removeFile` and
`rmDir`. -/
theorem free_tail (s1 : FS) (x b : Int) :
    (ifree { (bfree s1 b).2 with inodes := upd (bfree s1 b).2.inodes x.toNat zeroInode } x).2.sblock
        = s1.sblock ∧
      (ifree { (bfree s1 b).2 with
        inodes := upd (bfree s1 b).2.inodes x.toNat zeroInode } x).2.inodes =
          upd s1.inodes x.toNat zeroInode := by
  obtain ⟨b1, _, b3, _, _⟩ := bfree_same s1 b
  unfold ifree
  split
  · exact ⟨b1, by dsimp only; rw [b3]⟩
  · exact ⟨b1, by dsimp only; rw [b3]⟩

theorem removeFile_prune (c : Config) (hF : c.TYPE_FOLDER ≠ 0)
    (hFF : c.TYPE_FILE ≠ c.TYPE_FOLDER) (rank : Nat → Nat) (s : FS)
    (path : Option (List Char)) (hr : Ranked c rank s) : Prune c s (removeFile c s path).2 := by
  cases path with
  | none => exact prune_refl c s
  | some p =>
    unfold removeFile
    dsimp only
    by_cases h1 : namei s (some p) < 0
    · rw [if_pos h1]; exact prune_refl c s
    rw [if_neg h1]
    by_cases h2 : (s.inodes (namei s (some p)).toNat).type ≠ c.TYPE_FILE
    · rw [if_pos h2]; exact prune_refl c s
    rw [if_neg h2]
    by_cases h3 : (s.inodes_x (namei s (some p)).toNat).opened ≠ 0
    · rw [if_pos h3]; exact prune_refl c s
    rw [if_neg h3]
    obtain ⟨b1, _, b3, _, _⟩ :=
      bfree_same s (s.inodes (namei s (some p)).toNat).dataBlockPos
    obtain ⟨f1, f3⟩ := free_tail s (namei s (some p))
      (s.inodes (namei s (some p)).toNat).dataBlockPos
    have hrel := zero_slot_prune c hF s _ (namei s (some p)).toNat f1 f3 (by
      intro j hj hty hfa
      obtain ⟨_, k2⟩ := hr j hj hty
      rcases k2 with k2 | ⟨f, g1, _, g3, _⟩
      · rw [k2] at hfa; omega
      · have e : f = (namei s (some p)).toNat := by omega
        rw [e] at g3
        rw [not_not.1 h2] at g3
        exact hFF g3)
    refine ite_prop (fun r : Int × FS => Prune c s r.2) _ _ _ (prune_of_same c b1 b3) ?_
    refine ite_prop (fun r : Int × FS => Prune c s r.2) _ _ _ hrel ?_
    exact ite_prop (fun r : Int × FS => Prune c s r.2) _ _ _ (prune_sync c hF hrel)
      (prune_sync c hF hrel)

theorem rmDirLoop_prune (c : Config) (hF : c.TYPE_FOLDER ≠ 0)
    (hFF : c.TYPE_FILE ≠ c.TYPE_FOLDER) (rank : Nat → Nat)
    (rmDirRec : FS → Option (List Char) → Option (Int × FS)) (d : Nat)
    (hrec : ∀ (u : FS) (p : Option (List Char)) (r : Int × FS), Ranked c rank u → Tidy u →
      rmDirRec u p = some r →
      Prune c u r.2 ∧
        ∀ x : Nat, namei u p = (x : Int) → (u.inodes x).type = c.TYPE_FOLDER →
          0 < u.sblock.numDataBlocks → r.2.inodes x = zeroInode) :
    ∀ (n i : Nat) (s t : FS), Ranked c rank s → Tidy s → i + n ≤ s.sblock.numInodes.toNat →
      rmDirLoop c rmDirRec (d : Int) n i s = some t →
      Prune c s t ∧
        (0 < s.sblock.numDataBlocks → ∀ j : Nat, i ≤ j → j < i + n →
          ¬ ((t.inodes j).type = c.TYPE_FOLDER ∧ (t.inodes j).father = (d : Int))) := by
  intro n
  induction n with
  | zero =>
    intro i s t _ _ _ h
    unfold rmDirLoop at h
    rw [← Option.some.inj h]
    exact ⟨prune_refl c s, fun _ j h1 h2 => by omega⟩
  | succ n ih =>
    intro i s t hr ht hb h
    -- one iteration: from `s` to `s1`, where slot `i` is no folder under `d` any more
    have key : ∀ s1 : FS, Prune c s s1 →
        (0 < s.sblock.numDataBlocks →
          ¬ ((s1.inodes i).type = c.TYPE_FOLDER ∧ (s1.inodes i).father = (d : Int))) →
        rmDirLoop c rmDirRec (d : Int) n (i + 1) s1 = some t →
        Prune c s t ∧
          (0 < s.sblock.numDataBlocks → ∀ j : Nat, i ≤ j → j < i + (n + 1) →
            ¬ ((t.inodes j).type = c.TYPE_FOLDER ∧ (t.inodes j).father = (d : Int))) := by
      intro s1 hp hi hl
      have hb1 : i + 1 + n ≤ s1.sblock.numInodes.toNat := by rw [hp.1]; omega
      obtain ⟨q1, q2⟩ := ih (i + 1) s1 t (ranked_prune c hF rank hr hp)
        (tidy_erase ht (prune_erase c hp)) hb1 hl
      refine ⟨prune_trans c hF hp q1, fun hpos j j1 j2 => ?_⟩
      by_cases hj : j = i
      · rw [hj]
        rcases q1.2 i with e | ⟨e, _⟩
        · rw [e]; exact hi hpos
        · rw [e]
          intro hc
          exact zero_not_folder c hF hc.1
      · exact q2 (by rw [hp.1]; exact hpos) j (by omega) (by omega)
    unfold rmDirLoop at h
    by_cases h1 : (s.inodes i).father = (d : Int)
    · rw [if_pos h1] at h
      by_cases h2 : (s.inodes i).type = c.TYPE_FOLDER
      · rw [if_pos h2] at h
        cases hc : rmDirRec s (some (s.inodes i).name) with
        | none => rw [hc] at h; exact absurd h (by simp)
        | some r =>
          rw [hc] at h
          dsimp only at h
          obtain ⟨p1, p2⟩ := hrec s _ r hr ht hc
          have hi : (i : Int) < s.sblock.numInodes := by omega
          have hn := namei_self s i ht hi (folder_not_zero c hF s i h2)
          refine key r.2 p1 (fun hpos => ?_) h
          rw [p2 i hn h2 hpos]
          intro hc2
          exact zero_not_folder c hF hc2.1
      · rw [if_neg h2] at h
        refine key _ (removeFile_prune c hF hFF rank s _ hr) (fun _ => ?_) h
        rcases (removeFile_prune c hF hFF rank s (some (s.inodes i).name) hr).2 i with e | ⟨e, _⟩
        · rw [e]
          intro hc2
          exact h2 hc2.1
        · rw [e]
          intro hc2
          exact zero_not_folder c hF hc2.1
    · rw [if_neg h1] at h
      exact key s (prune_refl c s) (fun _ hc2 => h1 hc2.2) h

/-- What a call of `rmDir` that returns does: records are only zeroed, never one that a folder
still names as its father, and when the path names a folder and a data block exists, that
folder is zeroed. -/
theorem rmDir_prune (c : Config) (hF : c.TYPE_FOLDER ≠ 0) (hFF : c.TYPE_FILE ≠ c.TYPE_FOLDER)
    (rank : Nat → Nat) :
    ∀ (fuel : Nat) (s : FS) (path : Option (List Char)) (r : Int × FS), Ranked c rank s →
      Tidy s → rmDir c fuel s path = some r →
      Prune c s r.2 ∧
        ∀ x : Nat, namei s path = (x : Int) → (s.inodes x).type = c.TYPE_FOLDER →
          0 < s.sblock.numDataBlocks → r.2.inodes x = zeroInode := by
  intro fuel
  induction fuel with
  | zero =>
    intro s path r _ _ h
    unfold rmDir at h
    exact absurd h (by simp)
  | succ fuel ih =>
    intro s path r hr ht h
    have hm : ¬ ((-1 : Int) = 0) := by decide
    cases path with
    | none =>
      unfold rmDir at h
      rw [← Option.some.inj h]
      refine ⟨prune_refl c s, fun x hx _ _ => ?_⟩
      have e : namei s none = -1 := rfl
      rw [e] at hx
      omega
    | some p =>
      unfold rmDir at h
      dsimp only at h
      by_cases h1 : namei s (some p) < 0
      · rw [if_pos h1] at h
        rw [← Option.some.inj h]
        exact ⟨prune_refl c s, fun x hx _ _ => by omega⟩
      rw [if_neg h1] at h
      by_cases h2 : (s.inodes (namei s (some p)).toNat).type ≠ c.TYPE_FOLDER
      · rw [if_pos h2] at h
        rw [← Option.some.inj h]
        refine ⟨prune_refl c s, fun x hx hty _ => ?_⟩
        rw [hx, Int.toNat_ofNat] at h2
        exact absurd hty h2
      rw [if_neg h2] at h
      obtain ⟨d, e, _, hd, _⟩ := nameiLoop_found s p s.sblock.numInodes.toNat 0 (by
        have e : namei s (some p) = nameiLoop s p s.sblock.numInodes.toNat 0 := rfl
        rw [← e]; omega)
      have e2 : namei s (some p) = (d : Int) := e
      rw [e2, Int.toNat_ofNat] at h h2
      have hty : (s.inodes d).type = c.TYPE_FOLDER := not_not.1 h2
      cases hl : rmDirLoop c (rmDir c fuel) (d : Int) s.sblock.numInodes.toNat 0 s with
      | none => rw [hl] at h; exact absurd h (by simp)
      | some s1 =>
        rw [hl] at h
        dsimp only at h
        obtain ⟨q1, q2⟩ := rmDirLoop_prune c hF hFF rank (rmDir c fuel) d ih _ 0 s s1 hr ht
          (by omega) hl
        -- the folder has no data block: `bfree` is called with 0
        have hpos0 : (s1.inodes d).dataBlockPos = 0 := by
          rcases q1.2 d with e3 | ⟨e3, _⟩
          · rw [e3]; exact (hr d (by omega) hty).1
          · rw [e3]; rfl
        rw [hpos0] at h
        by_cases hb : (0 : Int) ≥ s1.sblock.numDataBlocks ∨ (0 : Int) < 0
        · rw [bfree_out s1 0 hb] at h
          dsimp only at h
          rw [if_pos (by decide)] at h
          rw [← Option.some.inj h]
          refine ⟨q1, fun x _ _ hpos => ?_⟩
          rw [q1.1] at hb
          omega
        · obtain ⟨f1, f3⟩ := free_tail s1 (d : Int) 0
          rw [Int.toNat_ofNat] at f1 f3
          have hpos : 0 < s.sblock.numDataBlocks := by rw [← q1.1]; omega
          have hrel : Prune c s1
              (ifree { (bfree s1 0).2 with
                inodes := upd (bfree s1 0).2.inodes d zeroInode } (d : Int)).2 :=
            zero_slot_prune c hF s1 _ d f1 f3 (fun j hj hty2 hfa =>
              q2 hpos j (Nat.zero_le j) (by rw [q1.1] at hj; omega) ⟨hty2, hfa⟩)
          have hzero : ∀ t : FS, t.inodes = upd s1.inodes d zeroInode →
              ∀ x : Nat, namei s (some p) = (x : Int) → t.inodes x = zeroInode := by
            intro t e3 x hx
            have : x = d := by omega
            rw [this, e3]
            exact upd_same _ _ _
          have hfin : ∀ (a : Int) (t : FS), Prune c s1 t → t.inodes = upd s1.inodes d zeroInode →
              some (a, t) = some r →
              Prune c s r.2 ∧
                ∀ x : Nat, namei s (some p) = (x : Int) → (s.inodes x).type = c.TYPE_FOLDER →
                  0 < s.sblock.numDataBlocks → r.2.inodes x = zeroInode := by
            intro a t k1 k2 k3
            rw [← Option.some.inj k3]
            exact ⟨prune_trans c hF q1 k1, fun x hx _ _ => hzero t k2 x hx⟩
          rw [bfree_in s1 0 hb] at h
          dsimp only at h
          rw [if_neg (by decide)] at h
          rw [bfree_in s1 0 hb] at hrel f1 f3
          dsimp only at hrel f1 f3
          split at h
          · exact hfin _ _ hrel f3 h
          · split at h
            · exact hfin _ _ (prune_sync c hF hrel)
                (by rw [(syncFS_mem c _).2.2.2.1]; exact f3) h
            · exact hfin _ _ (prune_sync c hF hrel)
                (by rw [(syncFS_mem c _).2.2.2.1]; exact f3) h

theorem upd_self {α : Type} (a : Nat → α) (k : Nat) (v : α) (h : a k = v) : upd a k v = a := by
  funext j
  unfold upd
  split
  · rename_i e; rw [e, h]
  · rfl

/-- The inode table after the second half of `createFile`, whatever it returns: unchanged, or
with a record of type FILE in a slot that held a zeroed record. -/
theorem createFileAlloc_shape (c : Config) (s : FS) (p : List Char) (fid : Int)
    (hz : FreeZero s) :
    (createFileAlloc c s p fid).2.2.sblock = s.sblock ∧
      ((createFileAlloc c s p fid).2.2.inodes = s.inodes ∨
        ∃ (k : Nat) (r : Inode), (k : Int) < s.sblock.numInodes ∧ s.inodes k = zeroInode ∧
          r.type = c.TYPE_FILE ∧ (createFileAlloc c s p fid).2.2.inodes = upd s.inodes k r) := by
  unfold createFileAlloc
  dsimp only
  rcases ialloc_cases s with e | ⟨k, t, e, hk, hfree, t1, _, _, t4, _, _⟩
  · rw [e]
    have hneg : ((-1 : Int), s).1 < 0 := show (-1 : Int) < 0 by decide
    rw [if_pos hneg]
    exact ⟨rfl, Or.inl rfl⟩
  · have hzk : s.inodes k = zeroInode := hz k hk hfree
    rw [e]
    dsimp only
    rw [if_neg (by omega)]
    obtain ⟨a1, _, a3, _⟩ := alloc_same c t
    by_cases h2 : (alloc c t).1 < 0
    · rw [if_pos h2]
      exact ⟨a1.trans t1, Or.inl (by dsimp only; rw [a3, t4, upd_self _ _ _ hzk])⟩
    · rw [if_neg h2]
      have hfin : ∀ x : Int × FS, x.2.sblock = s.sblock →
          x.2.inodes = upd s.inodes k
            (Inode.mk fid c.TYPE_FILE p (alloc c t).1 c.MAX_FILE_SIZE) →
          (if x.1 < 0 then ((-2 : Int), some Diag.syncFailed, x.2) else (0, none, x.2)).2.2.sblock
              = s.sblock ∧
            ((if x.1 < 0 then ((-2 : Int), some Diag.syncFailed, x.2)
                else (0, none, x.2)).2.2.inodes = s.inodes ∨
              ∃ (k : Nat) (r : Inode), (k : Int) < s.sblock.numInodes ∧
                s.inodes k = zeroInode ∧ r.type = c.TYPE_FILE ∧
                (if x.1 < 0 then ((-2 : Int), some Diag.syncFailed, x.2)
                  else (0, none, x.2)).2.2.inodes = upd s.inodes k r) := by
        intro x hx1 hx2
        by_cases hc : x.1 < 0
        · rw [if_pos hc]; exact ⟨hx1, Or.inr ⟨k, _, hk, hzk, rfl, hx2⟩⟩
        · rw [if_neg hc]; exact ⟨hx1, Or.inr ⟨k, _, hk, hzk, rfl, hx2⟩⟩
      refine hfin _ ?_ ?_
      · rw [(syncFS_mem c _).1]
        exact a1.trans t1
      · rw [(syncFS_mem c _).2.2.2.1]
        dsimp only
        rw [a3, t4, Int.toNat_ofNat, upd_upd]

/-- The inode table after the second half of `mkDir`, whatever it returns: unchanged, or with a
record of type FOLDER without data block in a slot that held a zeroed record. -/
theorem mkDirAlloc_shape (c : Config) (s : FS) (p : List Char) (fid : Int) (hz : FreeZero s) :
    (mkDirAlloc c s p fid).2.2.sblock = s.sblock ∧
      ((mkDirAlloc c s p fid).2.2.inodes = s.inodes ∨
        ∃ k : Nat, (k : Int) < s.sblock.numInodes ∧ s.inodes k = zeroInode ∧
          (mkDirAlloc c s p fid).2.2.inodes =
            upd s.inodes k (Inode.mk fid c.TYPE_FOLDER p 0 0)) := by
  unfold mkDirAlloc
  dsimp only
  rcases ialloc_cases s with e | ⟨k, t, e, hk, hfree, t1, _, _, t4, _, _⟩
  · rw [e]
    have hneg : ((-1 : Int), s).1 < 0 := show (-1 : Int) < 0 by decide
    rw [if_pos hneg]
    exact ⟨rfl, Or.inl rfl⟩
  · have hzk : s.inodes k = zeroInode := hz k hk hfree
    rw [e]
    dsimp only
    rw [if_neg (by omega)]
    have hfin : ∀ x : Int × FS, x.2.sblock = s.sblock →
        x.2.inodes = upd s.inodes k (Inode.mk fid c.TYPE_FOLDER p 0 0) →
        (if x.1 < 0 then ((-2 : Int), some Diag.syncFailed, x.2) else (0, none, x.2)).2.2.sblock
            = s.sblock ∧
          ((if x.1 < 0 then ((-2 : Int), some Diag.syncFailed, x.2)
              else (0, none, x.2)).2.2.inodes = s.inodes ∨
            ∃ k : Nat, (k : Int) < s.sblock.numInodes ∧ s.inodes k = zeroInode ∧
              (if x.1 < 0 then ((-2 : Int), some Diag.syncFailed, x.2)
                else (0, none, x.2)).2.2.inodes =
                  upd s.inodes k (Inode.mk fid c.TYPE_FOLDER p 0 0)) := by
      intro x hx1 hx2
      by_cases hc : x.1 < 0
      · rw [if_pos hc]; exact ⟨hx1, Or.inr ⟨k, hk, hzk, hx2⟩⟩
      · rw [if_neg hc]; exact ⟨hx1, Or.inr ⟨k, hk, hzk, hx2⟩⟩
    refine hfin _ ?_ ?_
    · rw [(syncFS_mem c _).1]
      exact t1
    · rw [(syncFS_mem c _).2.2.2.1]
      dsimp only
      rw [t4, Int.toNat_ofNat, upd_upd, upd_same]
      rfl

theorem ranked_put_file (c : Config) (hF : c.TYPE_FOLDER ≠ 0) (rank : Nat → Nat) (s t : FS)
    (k : Nat) (r : Inode) (h : Ranked c rank s) (hk : s.inodes k = zeroInode)
    (hr : r.type ≠ c.TYPE_FOLDER) (h1 : t.sblock = s.sblock) (h3 : t.inodes = upd s.inodes k r) :
    Ranked c rank t := by
  have hkf : (s.inodes k).type ≠ c.TYPE_FOLDER := by
    rw [hk]; exact zero_not_folder c hF
  intro i hi hty
  rw [h1] at hi ⊢
  rw [h3] at hty ⊢
  by_cases hik : i = k
  · rw [hik, upd_same] at hty
    exact absurd hty hr
  · rw [upd_other _ _ _ _ hik] at hty ⊢
    obtain ⟨k1, k2⟩ := h i hi hty
    refine ⟨k1, k2.imp id (fun ⟨f, f1, f2, f3, f4⟩ => ⟨f, f1, f2, ?_, f4⟩)⟩
    have hfk : f ≠ k := fun e => hkf (e ▸ f3)
    rw [upd_other _ _ _ _ hfk]
    exact f3

theorem ranked_put_folder (c : Config) (hF : c.TYPE_FOLDER ≠ 0) (rank : Nat → Nat) (s t : FS)
    (k : Nat) (p : List Char) (fid : Int) (h : Ranked c rank s) (hk : s.inodes k = zeroInode)
    (hfid : fid = -1 ∨ ∃ f : Nat, fid = (f : Int) ∧ (f : Int) < s.sblock.numInodes ∧
      (s.inodes f).type = c.TYPE_FOLDER)
    (h1 : t.sblock = s.sblock)
    (h3 : t.inodes = upd s.inodes k (Inode.mk fid c.TYPE_FOLDER p 0 0)) :
    ∃ rank2 : Nat → Nat, Ranked c rank2 t := by
  have hkf : (s.inodes k).type ≠ c.TYPE_FOLDER := by
    rw [hk]; exact zero_not_folder c hF
  have old : ∀ (rank2 : Nat → Nat), (∀ j, j ≠ k → rank2 j = rank j) → ∀ i : Nat, i ≠ k →
      (i : Int) < s.sblock.numInodes → (s.inodes i).type = c.TYPE_FOLDER →
      (s.inodes i).dataBlockPos = 0 ∧
        ((s.inodes i).father = -1 ∨
          ∃ f : Nat, (s.inodes i).father = (f : Int) ∧ (f : Int) < s.sblock.numInodes ∧
            (upd s.inodes k (Inode.mk fid c.TYPE_FOLDER p 0 0) f).type = c.TYPE_FOLDER ∧
            rank2 f < rank2 i) := by
    intro rank2 hr2 i hik hi hty
    obtain ⟨k1, k2⟩ := h i hi hty
    refine ⟨k1, k2.imp id (fun ⟨f, f1, f2, f3, f4⟩ => ⟨f, f1, f2, ?_, ?_⟩)⟩
    · have hfk : f ≠ k := fun e => hkf (e ▸ f3)
      rw [upd_other _ _ _ _ hfk]
      exact f3
    · have hfk : f ≠ k := fun e => hkf (e ▸ f3)
      rw [hr2 f hfk, hr2 i hik]
      exact f4
  rcases hfid with e | ⟨f, e, hf, hft⟩
  · refine ⟨rank, fun i hi hty => ?_⟩
    rw [h1] at hi ⊢
    rw [h3] at hty ⊢
    by_cases hik : i = k
    · rw [hik, upd_same]
      exact ⟨rfl, Or.inl e⟩
    · rw [upd_other _ _ _ _ hik] at hty ⊢
      exact old rank (fun _ _ => rfl) i hik hi hty
  · have hfk : f ≠ k := fun e2 => hkf (e2 ▸ hft)
    refine ⟨upd rank k (rank f + 1), fun i hi hty => ?_⟩
    rw [h1] at hi ⊢
    rw [h3] at hty ⊢
    by_cases hik : i = k
    · rw [hik, upd_same]
      refine ⟨rfl, Or.inr ⟨f, e, hf, ?_, ?_⟩⟩
      · rw [upd_other _ _ _ _ hfk]; exact hft
      · rw [upd_same, upd_other _ _ _ _ hfk]; omega
    · rw [upd_other _ _ _ _ hik] at hty ⊢
      exact old _ (fun j hj => upd_other _ _ _ _ hj) i hik hi hty

theorem createFile_forest (c : Config) (hF : c.TYPE_FOLDER ≠ 0)
    (hFF : c.TYPE_FILE ≠ c.TYPE_FOLDER) (rank : Nat → Nat) (s s1 : FS)
    (path : Option (List Char)) (r : Int) (d : Option Diag) (hr : Ranked c rank s)
    (hz : FreeZero s) (h : createFile c s path = some (r, d, s1)) : Ranked c rank s1 := by
  unfold createFile at h
  have key : ∀ p fid, some (createFileAlloc c s p fid) = some (r, d, s1) →
      Ranked c rank s1 := by
    intro p fid e
    have e2 := Option.some.inj e
    obtain ⟨k1, k2⟩ := createFileAlloc_shape c s p fid hz
    rw [e2] at k1 k2
    rcases k2 with k2 | ⟨k, x, _, hk, hx, k2⟩
    · exact ranked_prune c hF rank hr (prune_of_same c k1 k2)
    · exact ranked_put_file c hF rank s s1 k x hr hk (by rw [hx]; exact hFF) k1 k2
  have triv : ∀ (a : Int) (b : Option Diag), some (a, b, s) = some (r, d, s1) →
      Ranked c rank s1 := by
    intro a b e
    have e2 := Option.some.inj e
    simp only [Prod.mk.injEq] at e2
    rw [← e2.2.2]
    exact hr
  repeat' split at h
  all_goals try dsimp only at h
  all_goals repeat' split at h
  all_goals first
    | exact triv _ _ h
    | exact key _ _ h
    | exact absurd h (by simp)

theorem mkDir_forest (c : Config) (hF : c.TYPE_FOLDER ≠ 0) (rank : Nat → Nat) (s s1 : FS)
    (path : Option (List Char)) (r : Int) (d : Option Diag) (hr : Ranked c rank s)
    (hz : FreeZero s) (h : mkDir c s path = some (r, d, s1)) :
    ∃ rank2 : Nat → Nat, Ranked c rank2 s1 := by
  have key : ∀ p fid, (fid = -1 ∨ ∃ f : Nat, fid = (f : Int) ∧ (f : Int) < s.sblock.numInodes ∧
        (s.inodes f).type = c.TYPE_FOLDER) →
      some (mkDirAlloc c s p fid) = some (r, d, s1) → ∃ rank2 : Nat → Nat, Ranked c rank2 s1 := by
    intro p fid hfid e
    have e2 := Option.some.inj e
    obtain ⟨k1, k2⟩ := mkDirAlloc_shape c s p fid hz
    rw [e2] at k1 k2
    rcases k2 with k2 | ⟨k, _, hk, k2⟩
    · exact ⟨rank, ranked_prune c hF rank hr (prune_of_same c k1 k2)⟩
    · exact ranked_put_folder c hF rank s s1 k p fid hr hk hfid k1 k2
  have triv : ∀ (a : Int) (b : Option Diag), some (a, b, s) = some (r, d, s1) →
      ∃ rank2 : Nat → Nat, Ranked c rank2 s1 := by
    intro a b e
    have e2 := Option.some.inj e
    simp only [Prod.mk.injEq] at e2
    rw [← e2.2.2]
    exact ⟨rank, hr⟩
  cases path with
  | none => exact triv _ _ h
  | some p =>
    unfold mkDir at h
    dsimp only at h
    by_cases h1 : (basename p).length > c.MAX_FILE_NAME
    · rw [if_pos h1] at h; exact triv _ _ h
    rw [if_neg h1] at h
    generalize basenameTrim p = p at h
    cases hs : slashLoop p 0 with
    | none => rw [hs] at h; exact absurd h (by simp)
    | some slashes =>
      rw [hs] at h
      dsimp only at h
      by_cases h2 : slashes > (c.MAX_FOLDER_LEVEL : Int)
      · rw [if_pos h2] at h; exact triv _ _ h
      rw [if_neg h2] at h
      by_cases h3 : namei s (some p) ≥ 0
      · rw [if_pos h3] at h; exact triv _ _ h
      rw [if_neg h3] at h
      by_cases h4 : getFather p ≠ [slash]
      · rw [if_pos h4] at h
        by_cases h5 : namei s (some (getFather p)) < 0
        · rw [if_pos h5] at h; exact triv _ _ h
        rw [if_neg h5] at h
        by_cases h6 : (s.inodes (namei s (some (getFather p))).toNat).type ≠ c.TYPE_FOLDER
        · rw [if_pos h6] at h; exact triv _ _ h
        rw [if_neg h6] at h
        by_cases h7 : countNumberEntries s (namei s (some (getFather p))) = (c.MAX_ENTRIES : Int)
        · rw [if_pos h7] at h; exact triv _ _ h
        rw [if_neg h7] at h
        obtain ⟨f, e, _, hf, _⟩ :=
          nameiLoop_found s (getFather p) s.sblock.numInodes.toNat 0 (by
            have e : namei s (some (getFather p)) =
              nameiLoop s (getFather p) s.sblock.numInodes.toNat 0 := rfl
            rw [← e]; omega)
        have e2 : namei s (some (getFather p)) = (f : Int) := e
        rw [e2, Int.toNat_ofNat] at h6
        exact key p _ (Or.inr ⟨f, e2, by omega, not_not.1 h6⟩) h
      · rw [if_neg h4] at h
        exact key p _ (Or.inl rfl) h

theorem openFile_inodes (c : Config) (s : FS) (path : Option (List Char)) :
    (openFile c s path).2.sblock = s.sblock ∧ (openFile c s path).2.inodes = s.inodes := by
  unfold openFile
  iterate 6 (all_goals (try (first | split | dsimp only)))
  all_goals exact ⟨rfl, rfl⟩

theorem closeFile_inodes (c : Config) (s : FS) (fd : Int) :
    (closeFile c s fd).2.sblock = s.sblock ∧ (closeFile c s fd).2.inodes = s.inodes := by
  unfold closeFile
  iterate 4 (all_goals (try (first | split | dsimp only)))
  all_goals exact ⟨rfl, rfl⟩

theorem keepsInodes_none {α : Type} (s : FS) (proj : α → FS) : KeepsInodes s proj none := by
  intro r e
  cases e

theorem keepsInodes_some {α : Type} (s : FS) (proj : α → FS) (x : α)
    (h : (proj x).sblock = s.sblock ∧ (proj x).inodes = s.inodes) :
    KeepsInodes s proj (some x) := by
  intro r e
  cases e
  exact h

theorem keepsInodes_ite {α : Type} (s : FS) (proj : α → FS) (p : Prop) [Decidable p]
    (x y : Option α) (hx : KeepsInodes s proj x) (hy : KeepsInodes s proj y) :
    KeepsInodes s proj (if p then x else y) := by
  by_cases h : p
  · rw [if_pos h]; exact hx
  · rw [if_neg h]; exact hy

theorem readFile_inodes (c : Config) (s : FS) (fd : Int) (buffer : List Nat) (numBytes : Int) :
    KeepsInodes s (fun r : Int × FS × List Nat => r.2.1) (readFile c s fd buffer numBytes) := by
  unfold readFile
  repeat' first
    | exact keepsInodes_none _ _
    | exact keepsInodes_some _ _ _ ⟨rfl, rfl⟩
    | apply keepsInodes_ite
    | split
    | (dsimp only; split)

theorem writeFile_inodes (c : Config) (s : FS) (fd : Int) (buffer : List Nat)
    (numBytes : Int) :
    KeepsInodes s (fun r : Int × FS => r.2) (writeFile c s fd buffer numBytes) := by
  unfold writeFile
  repeat' first
    | exact keepsInodes_none _ _
    | exact keepsInodes_some _ _ _ ⟨rfl, rfl⟩
    | apply keepsInodes_ite
    | split
    | (dsimp only; split)

theorem lseekFile_inodes (c : Config) (s : FS) (fd offset whence : Int) :
    KeepsInodes s (fun r : Int × FS => r.2) (lseekFile c s fd offset whence) := by
  unfold lseekFile
  repeat' first
    | exact keepsInodes_none _ _
    | exact keepsInodes_some _ _ _ ⟨rfl, rfl⟩
    | apply keepsInodes_ite

/-- In every reachable state the folders form a forest: each lies under the root or under a
folder of smaller rank (type codes: FOLDER is not 0 and differs from FILE). -/
theorem reachable_forest (c : Config) (hF : c.TYPE_FOLDER ≠ 0)
    (hFF : c.TYPE_FILE ≠ c.TYPE_FOLDER) (s : FS) (h : Reachable c s) :
    ∃ rank : Nat → Nat, Ranked c rank s := by
  induction h with
  | format s0 s deviceSize hf =>
    refine ⟨fun _ => 0, fun i hi hty => ?_⟩
    obtain ⟨_, _, _, _, h5⟩ := mkFS_ok c s0 s deviceSize hf
    have hzero : s.inodes i = zeroInode := by
      rw [h5] at hi ⊢
      rw [(syncFS_mem c _).1] at hi
      rw [(syncFS_mem c _).2.2.2.1]
      have hi2 : (i : Int) < (c.MAX_FILES : Int) := hi
      exact zeroLoop_spec s0.inodes (c.MAX_FILES : Int).toNat 0 i (Nat.zero_le i) (by
        have : ((c.MAX_FILES : Int)).toNat = c.MAX_FILES := Int.toNat_ofNat _
        rw [this]; omega)
    rw [hzero] at hty
    exact absurd hty (zero_not_folder c hF)
  | createFile s s1 path r d hr hc ih =>
    obtain ⟨rank, hrk⟩ := ih
    exact ⟨rank, createFile_forest c hF hFF rank s s1 path r d hrk (reachable_freeZero c s hr) hc⟩
  | removeFile s path _ ih =>
    obtain ⟨rank, hrk⟩ := ih
    exact ⟨rank, ranked_prune c hF rank hrk (removeFile_prune c hF hFF rank s path hrk)⟩
  | openFile s path _ ih =>
    obtain ⟨rank, hrk⟩ := ih
    obtain ⟨k1, k2⟩ := openFile_inodes c s path
    exact ⟨rank, ranked_prune c hF rank hrk (prune_of_same c k1 k2)⟩
  | closeFile s fd _ ih =>
    obtain ⟨rank, hrk⟩ := ih
    obtain ⟨k1, k2⟩ := closeFile_inodes c s fd
    exact ⟨rank, ranked_prune c hF rank hrk (prune_of_same c k1 k2)⟩
  | readFile s s1 fd buffer out numBytes r _ hc ih =>
    obtain ⟨rank, hrk⟩ := ih
    obtain ⟨k1, k2⟩ := readFile_inodes c s fd buffer numBytes _ hc
    exact ⟨rank, ranked_prune c hF rank hrk (prune_of_same c k1 k2)⟩
  | writeFile s s1 fd buffer numBytes r _ hc ih =>
    obtain ⟨rank, hrk⟩ := ih
    obtain ⟨k1, k2⟩ := writeFile_inodes c s fd buffer numBytes _ hc
    exact ⟨rank, ranked_prune c hF rank hrk (prune_of_same c k1 k2)⟩
  | lseekFile s s1 fd offset whence r _ hc ih =>
    obtain ⟨rank, hrk⟩ := ih
    obtain ⟨k1, k2⟩ := lseekFile_inodes c s fd offset whence _ hc
    exact ⟨rank, ranked_prune c hF rank hrk (prune_of_same c k1 k2)⟩
  | mkDir s s1 path r d hr hc ih =>
    obtain ⟨rank, hrk⟩ := ih
    exact mkDir_forest c hF rank s s1 path r d hrk (reachable_freeZero c s hr) hc
  | rmDir s s1 fuel path r hr hc ih =>
    obtain ⟨rank, hrk⟩ := ih
    exact ⟨rank, ranked_prune c hF rank hrk
      (rmDir_prune c hF hFF rank fuel s path _ hrk (reachable_tidy c s hr) hc).1⟩

/-! ## rmDir returns -/

theorem rmDirLoop_total (c : Config) (hF : c.TYPE_FOLDER ≠ 0)
    (hFF : c.TYPE_FILE ≠ c.TYPE_FOLDER) (rank : Nat → Nat) (bound : Nat)
    (rmDirRec : FS → Option (List Char) → Option (Int × FS)) (d : Nat)
    (hrecP : ∀ (u : FS) (p : Option (List Char)) (r : Int × FS), Ranked c rank u → Tidy u →
      rmDirRec u p = some r → Prune c u r.2)
    (hrecT : ∀ (u : FS) (j : Nat), Ranked c rank u → Tidy u → RankBound c rank bound u →
      (j : Int) < u.sblock.numInodes → (u.inodes j).type = c.TYPE_FOLDER →
      (u.inodes j).father = (d : Int) → ∃ r, rmDirRec u (some (u.inodes j).name) = some r) :
    ∀ (n i : Nat) (s : FS), Ranked c rank s → Tidy s → RankBound c rank bound s →
      i + n ≤ s.sblock.numInodes.toNat → ∃ t, rmDirLoop c rmDirRec (d : Int) n i s = some t := by
  intro n
  induction n with
  | zero =>
    intro i s _ _ _ _
    exact ⟨s, rfl⟩
  | succ n ih =>
    intro i s hr ht hb hn
    have next : ∀ s1 : FS, Prune c s s1 →
        ∃ t, rmDirLoop c rmDirRec (d : Int) n (i + 1) s1 = some t := by
      intro s1 hp
      exact ih (i + 1) s1 (ranked_prune c hF rank hr hp) (tidy_erase ht (prune_erase c hp))
        (rankBound_prune c hF rank bound hb hp) (by rw [hp.1]; omega)
    unfold rmDirLoop
    by_cases h1 : (s.inodes i).father = (d : Int)
    · rw [if_pos h1]
      by_cases h2 : (s.inodes i).type = c.TYPE_FOLDER
      · rw [if_pos h2]
        obtain ⟨r, hc⟩ := hrecT s i hr ht hb (by omega) h2 h1
        rw [hc]
        exact next r.2 (hrecP s _ r hr ht hc)
      · rw [if_neg h2]
        exact next _ (removeFile_prune c hF hFF rank s _ hr)
    · rw [if_neg h1]
      exact next s (prune_refl c s)

/-- One level of `rmDir`: the call returns when every call it makes on a folder below the
target returns. -/
theorem rmDir_total_step (c : Config) (hF : c.TYPE_FOLDER ≠ 0)
    (hFF : c.TYPE_FILE ≠ c.TYPE_FOLDER) (rank : Nat → Nat) (bound fuel : Nat) (s : FS)
    (path : Option (List Char)) (hr : Ranked c rank s) (ht : Tidy s)
    (hb : RankBound c rank bound s)
    (hT : ∀ (d : Nat) (u : FS) (j : Nat), namei s path = (d : Int) →
      (s.inodes d).type = c.TYPE_FOLDER → Ranked c rank u → Tidy u → RankBound c rank bound u →
      (j : Int) < u.sblock.numInodes → (u.inodes j).type = c.TYPE_FOLDER →
      (u.inodes j).father = (d : Int) →
      ∃ r, rmDir c fuel u (some (u.inodes j).name) = some r) :
    ∃ r, rmDir c (fuel + 1) s path = some r := by
  cases path with
  | none => exact ⟨_, rfl⟩
  | some p =>
    unfold rmDir
    dsimp only
    by_cases h1 : namei s (some p) < 0
    · rw [if_pos h1]; exact ⟨_, rfl⟩
    rw [if_neg h1]
    by_cases h2 : (s.inodes (namei s (some p)).toNat).type ≠ c.TYPE_FOLDER
    · rw [if_pos h2]; exact ⟨_, rfl⟩
    rw [if_neg h2]
    obtain ⟨d, e, _, _, _⟩ := nameiLoop_found s p s.sblock.numInodes.toNat 0 (by
      have e : namei s (some p) = nameiLoop s p s.sblock.numInodes.toNat 0 := rfl
      rw [← e]; omega)
    have e2 : namei s (some p) = (d : Int) := e
    rw [e2, Int.toNat_ofNat] at h2 ⊢
    obtain ⟨s1, hl⟩ := rmDirLoop_total c hF hFF rank bound (rmDir c fuel) d
      (fun u q r k1 k2 k3 => (rmDir_prune c hF hFF rank fuel u q r k1 k2 k3).1)
      (fun u j k1 k2 k3 k4 k5 k6 => hT d u j e2 (not_not.1 h2) k1 k2 k3 k4 k5 k6)
      s.sblock.numInodes.toNat 0 s hr ht hb (by omega)
    rw [hl]
    dsimp only
    repeat' split
    all_goals exact ⟨_, rfl⟩

theorem rmDir_total (c : Config) (hF : c.TYPE_FOLDER ≠ 0) (hFF : c.TYPE_FILE ≠ c.TYPE_FOLDER)
    (rank : Nat → Nat) (bound : Nat) :
    ∀ (fuel : Nat) (s : FS) (path : Option (List Char)), Ranked c rank s → Tidy s →
      RankBound c rank bound s →
      (∀ d : Nat, namei s path = (d : Int) → (s.inodes d).type = c.TYPE_FOLDER →
        bound - rank d ≤ fuel) →
      ∃ r, rmDir c (fuel + 1) s path = some r := by
  -- a folder below `d` has a larger rank than `d`
  have below : ∀ (u : FS) (j d : Nat), Ranked c rank u → RankBound c rank bound u →
      (j : Int) < u.sblock.numInodes → (u.inodes j).type = c.TYPE_FOLDER →
      (u.inodes j).father = (d : Int) → rank d < rank j ∧ rank j ≤ bound := by
    intro u j d k1 k3 k4 k5 k6
    refine ⟨?_, k3 j k4 k5⟩
    rcases (k1 j k4 k5).2 with e | ⟨f, f1, _, _, f4⟩
    · rw [e] at k6; omega
    · have : f = d := by omega
      rw [← this]; exact f4
  intro fuel
  induction fuel with
  | zero =>
    intro s path hr ht hb hd
    refine rmDir_total_step c hF hFF rank bound 0 s path hr ht hb ?_
    intro d u j e hty k1 _ k3 k4 k5 k6
    have h1 := below u j d k1 k3 k4 k5 k6
    have h2 := hd d e hty
    omega
  | succ fuel ih =>
    intro s path hr ht hb hd
    refine rmDir_total_step c hF hFF rank bound (fuel + 1) s path hr ht hb ?_
    intro d u j e hty k1 k2 k3 k4 k5 k6
    have h1 := below u j d k1 k3 k4 k5 k6
    have h2 := hd d e hty
    refine ih u _ k1 k2 k3 (fun d2 e2 _ => ?_)
    have hn := namei_self u j k2 k4 (folder_not_zero c hF u j k5)
    have : d2 = j := by omega
    rw [this]
    omega

theorem exists_rank_bound (rank : Nat → Nat) : ∀ n : Nat, ∃ bound, ∀ i, i < n → rank i ≤ bound := by
  intro n
  induction n with
  | zero => exact ⟨0, fun i hi => by omega⟩
  | succ n ih =>
    obtain ⟨b, hb⟩ := ih
    refine ⟨max b (rank n), fun i hi => ?_⟩
    by_cases h : i = n
    · rw [h]; exact le_max_right _ _
    · exact le_trans (hb i (by omega)) (le_max_left _ _)

/-- C27 (rmDir returns): when the type code of folders is not 0 and differs from the one of
files, in every reachable state and for every path, the empty one and the null pointer
included, `rmDir` returns: there is a depth of recursion from which on the call has a result. -/
theorem rmDir_returns (c : Config) (s : FS) (path : Option (List Char))
    (hF : c.TYPE_FOLDER ≠ 0) (hFF : c.TYPE_FILE ≠ c.TYPE_FOLDER) (hr : Reachable c s) :
    ∃ depth : Nat, ∀ fuel : Nat, depth ≤ fuel → ∃ r, rmDir c fuel s path = some r := by
  obtain ⟨rank, hrk⟩ := reachable_forest c hF hFF s hr
  obtain ⟨b, hb⟩ := exists_rank_bound rank s.sblock.numInodes.toNat
  refine ⟨b + 1, fun fuel hfuel => ?_⟩
  obtain ⟨k, hk⟩ : ∃ k, fuel = k + 1 := ⟨fuel - 1, by omega⟩
  rw [hk]
  exact rmDir_total c hF hFF rank b k s path hrk (reachable_tidy c s hr)
    (fun i hi _ => hb i (by omega)) (fun d _ _ => by omega)

/-- C27 in `treeState`, where the folder `/a` holds the opened file `/a/f`, and for the empty
path on the fresh file system, which `rmDir` refuses with -2. -/
theorem rmDir_returns_witness :
    (∃ depth : Nat, ∀ fuel : Nat, depth ≤ fuel →
      ∃ r, rmDir stdConfig fuel treeState (some "/a".toList) = some r) ∧
    (∃ depth : Nat, ∀ fuel : Nat, depth ≤ fuel →
      ∃ r, rmDir stdConfig fuel freshState (some []) = some r) ∧
    (rmDir stdConfig 2 treeState (some "/a".toList)).map (fun r => r.1) = some 0 ∧
    (rmDir stdConfig 1 freshState (some [])).map (fun r => r.1) = some (-2) :=
  ⟨rmDir_returns stdConfig treeState (some "/a".toList) (by decide) (by decide)
      reachable_treeState,
    rmDir_returns stdConfig freshState (some []) (by decide) (by decide) reachable_freshState,
    by decide, by decide⟩

/-- Without the condition on the type code `rmDir` need not return: when folders have the type
code 0, a zeroed record in slot 0 is a folder with the empty name whose father field names slot
0 itself, and `rmDir("")` calls itself without end. -/
theorem rmDir_empty_path_diverges (c : Config) (s : FS) (h0 : c.TYPE_FOLDER = 0)
    (hn : 0 < s.sblock.numInodes) (hz : s.inodes 0 = zeroInode) :
    ∀ fuel : Nat, rmDir c fuel s (some []) = none := by
  obtain ⟨m, hm⟩ : ∃ m, s.sblock.numInodes.toNat = m + 1 :=
    ⟨s.sblock.numInodes.toNat - 1, by omega⟩
  have hname : (s.inodes 0).name = [] := by rw [hz]; rfl
  have hnamei : namei s (some []) = 0 := by
    have e : namei s (some []) = nameiLoop s [] s.sblock.numInodes.toNat 0 := rfl
    rw [e, hm]
    unfold nameiLoop
    rw [if_pos hname]
    rfl
  intro fuel
  induction fuel with
  | zero => rfl
  | succ fuel ih =>
    unfold rmDir
    dsimp only
    rw [hnamei]
    have z0 : (0 : Int).toNat = 0 := rfl
    rw [z0, hz, hm]
    have ht : ¬ (zeroInode.type ≠ c.TYPE_FOLDER) := by
      rw [h0]
      exact not_not.2 rfl
    rw [if_neg (by decide), if_neg ht]
    unfold rmDirLoop
    rw [hz]
    have hf : zeroInode.father = (0 : Int) := rfl
    have hty : zeroInode.type = c.TYPE_FOLDER := by rw [h0]; rfl
    have hnm : zeroInode.name = [] := rfl
    rw [if_pos hf, if_pos hty, hnm, ih]

end DssooFs
